import Mathlib

/-!
Verification of the jsoncpp reader and writer (datadiode fork).

This file gives a shallow embedding of `src/lib_json/json_reader.cpp` and
`src/lib_json/json_writer.cpp` as executable Lean definitions, and proves
properties of that embedding.  Machine integers (the C++ `Value::LargestUInt`
and `Value::LargestInt`, both 64 bit wide) are modelled as `Nat` and `Int`
with explicit reduction modulo `2 ^ 64`.  Documents and decoded strings are
lists of characters, each standing for one input byte.

The `Json::Value` tree itself lives in `json_value.cpp`, which is not part of
the sources; its operations (construction, `operator[]`, comment slots,
offsets, `swapPayload`) are modelled from the specification, section 6
("Value collaborator contract").  Every definition that models code missing
from the sources carries a doc comment starting with `Modelled from the
spec:`.
-/

namespace Jsoncpp

/-- Constant `2 ^ 63`, the boundary of the signed 64-bit range. -/
def TWO63 : Nat := 9223372036854775808

/-- Constant `2 ^ 64`, the modulus of 64-bit arithmetic. -/
def U64 : Nat := 18446744073709551616

/-- Reinterpretation of a 64-bit unsigned value as a signed one, the C++
conversion `Value::LargestInt(value)` for `value : uint64`. -/
def toSigned (x : Nat) : Int :=
  if x < TWO63 then (x : Int) else (x : Int) - (U64 : Int)

/-- Two's-complement negation followed by signed reinterpretation: the value
of the C++ expression `-Value::LargestInt(x)` where `x : uint64`. -/
def negS (x : Nat) : Int :=
  toSigned ((U64 - x % U64) % U64)

/-- Modelled from the spec: an IEEE double, classified as NaN, a signed
infinity, or a finite value.  The reader and writer sources inspect a double
only through `isfinite`, self-comparison, the sign, `snprintf "%.17g"` and
`sscanf "%lf"`; a finite double is therefore abstracted by its decimal
rendering (the locale-fixed `%.17g` output), which is all the writer ever
reads from it.  No claim in this development depends on the numeric identity
of a finite double. -/
inductive CDouble where
  | nan
  | inf (negative : Bool)
  | finite (repr17g : List Char)
deriving DecidableEq, Repr

/-- The C++ test `value != value`, true exactly for NaN. -/
def CDouble.neqSelf : CDouble → Bool
  | .nan => true
  | _ => false

/-- The C++ test `value >= 0` on a non-finite double (never consulted for
NaN by the source, which checks `value != value` first). -/
def CDouble.geZero : CDouble → Bool
  | .nan => false
  | .inf negative => !negative
  | .finite _ => true

/-- The C++ `isfinite(value)` classification. -/
def CDouble.isFiniteD : CDouble → Bool
  | .finite _ => true
  | _ => false

-- ## Features (json_reader.cpp, class Features)

/-- The four feature flags of `Json::Features`. -/
structure Features where
  allowComments_ : Bool
  strictRoot_ : Bool
  allowDroppedNullPlaceholders_ : Bool
  allowNumericKeys_ : Bool
deriving DecidableEq, Repr

/-- The default (lenient) feature set, `Features::all()`. -/
def Features.all : Features :=
  ⟨true, false, true, true⟩

/-- The strict feature set, `Features::strictMode()`. -/
def Features.strictMode : Features :=
  ⟨false, true, false, false⟩

-- ## Tokens and errors (json_reader.cpp, Reader::TokenType, ErrorInfo)

/-- Token kinds of the lexer, `Reader::TokenType`. -/
inductive TokenType where
  | endOfStream
  | objectBegin
  | objectEnd
  | arrayBegin
  | arrayEnd
  | tstring
  | tnumber
  | ttrue
  | tfalse
  | tnull
  | arraySeparator
  | memberSeparator
  | comment
  | terror
deriving DecidableEq, Repr

/-- A token: kind plus byte range, offsets taken from the document start
(the C++ stores pointers `start_`, `end_`; we store `p - begin_`). -/
structure Token where
  type_ : TokenType
  start_ : Nat
  end_ : Nat
deriving DecidableEq, Repr

/-- One recorded diagnostic, `Reader::ErrorInfo`.  `extra_ = 0` encodes the
null pointer default of the source. -/
structure ErrorInfo where
  token_ : Token
  message_ : String
  extra_ : Nat
deriving DecidableEq, Repr

-- ## The Value tree

/-- Modelled from the spec: the metadata carried by every `Json::Value`
node: the three comment slots and the source offsets (spec sections 3
and 6).  Comments are stored verbatim as character lists. -/
structure VMeta where
  commentBefore : List Char := []
  commentSame : List Char := []
  commentAfter : List Char := []
  offsetStart : Nat := 0
  offsetLimit : Nat := 0
deriving DecidableEq, Repr

/-- Modelled from the spec: the `Json::Value` tree (spec section 3): a
tagged variant with null, boolean, signed, unsigned, real, string, array
and insertion-ordered object members, each node carrying a `VMeta`. -/
inductive JValue where
  | vnull (m : VMeta)
  | vbool (b : Bool) (m : VMeta)
  | vint (n : Int) (m : VMeta)
  | vuint (n : Nat) (m : VMeta)
  | vreal (d : CDouble) (m : VMeta)
  | vstr (s : List Char) (m : VMeta)
  | varr (xs : List JValue) (m : VMeta)
  | vobj (ms : List (List Char × JValue)) (m : VMeta)

/-- The metadata of a node. -/
def JValue.metaOf : JValue → VMeta
  | .vnull m => m
  | .vbool _ m => m
  | .vint _ m => m
  | .vuint _ m => m
  | .vreal _ m => m
  | .vstr _ m => m
  | .varr _ m => m
  | .vobj _ m => m

/-- Replacement of the metadata of a node. -/
def JValue.withMeta (m : VMeta) : JValue → JValue
  | .vnull _ => .vnull m
  | .vbool b _ => .vbool b m
  | .vint n _ => .vint n m
  | .vuint n _ => .vuint n m
  | .vreal d _ => .vreal d m
  | .vstr s _ => .vstr s m
  | .varr xs _ => .varr xs m
  | .vobj ms _ => .vobj ms m

/-- Modelled from the spec: `swapPayload` as used by the reader
(`Value(x).swapPayload(currentValue)`): the payload of `src` replaces the
payload of `dst` while `dst` keeps its comments and offsets. -/
def JValue.takePayload (dst src : JValue) : JValue :=
  src.withMeta dst.metaOf

/-- A fresh null value, `Value()`. -/
def JValue.nullValue : JValue := .vnull {}

/-- Update of the `Before` comment slot, `setComment(c, commentBefore)`. -/
def JValue.setCommentBefore (v : JValue) (c : List Char) : JValue :=
  v.withMeta { v.metaOf with commentBefore := c }

/-- Update of the same-line slot, `setComment(c, commentAfterOnSameLine)`. -/
def JValue.setCommentSame (v : JValue) (c : List Char) : JValue :=
  v.withMeta { v.metaOf with commentSame := c }

/-- Update of the `After` comment slot, `setComment(c, commentAfter)`. -/
def JValue.setCommentAfter (v : JValue) (c : List Char) : JValue :=
  v.withMeta { v.metaOf with commentAfter := c }

/-- Update of `offset_start`, `setOffsetStart`. -/
def JValue.setOffsetStart (v : JValue) (o : Nat) : JValue :=
  v.withMeta { v.metaOf with offsetStart := o }

/-- Update of `offset_limit`, `setOffsetLimit`. -/
def JValue.setOffsetLimit (v : JValue) (o : Nat) : JValue :=
  v.withMeta { v.metaOf with offsetLimit := o }

-- ## Number decoding (json_reader.cpp, Reader::decodeNumber)

/-- The inner ten-step addition loop of `Reader::decodeNumber`: starting
from the accumulated `value` it adds `delta` once and then the saved old
value `val` nine times, updating the signed- and unsigned-overflow flags
exactly as the source does after each addition. -/
def decLoop : Nat → Nat → Nat → Nat → Bool → Bool → Nat × Bool × Bool
  | 0, value, _, _, isSigned, isUnsigned => (value, isSigned, isUnsigned)
  | n + 1, value, delta, val, isSigned, isUnsigned =>
    let value' := (value + delta) % U64
    let isSigned' := if negS value' > negS delta then false else isSigned
    let isUnsigned' := if value' < delta then false else isUnsigned
    decLoop n value' val val isSigned' isUnsigned'

/-- The digit-accumulation loop of `Reader::decodeNumber`: for each
character, a non-digit clears both flags and stops; a digit `c` runs the
ten-step loop with `delta = c - '0'` and `val` the previous value. -/
def numLoop : List Char → Nat → Bool → Bool → Nat × Bool × Bool
  | [], value, isSigned, isUnsigned => (value, isSigned, isUnsigned)
  | c :: rest, value, isSigned, isUnsigned =>
    if c < '0' ∨ c > '9' then (value, false, false)
    else
      let (value', isSigned', isUnsigned') :=
        decLoop 10 value (c.toNat - 48) value isSigned isUnsigned
      numLoop rest value' isSigned' isUnsigned'

/-- The outcome of the number decoder: a signed value, an unsigned value,
or a double. -/
inductive NumValue where
  | sInt (n : Int)
  | uInt (n : Nat)
  | dbl (d : CDouble)
deriving DecidableEq, Repr

/-- Recognizer for hexadecimal digits (used by the unicode escape decoder,
given here early for reuse). -/
def isHexDigitChar (c : Char) : Bool :=
  ('0' ≤ c ∧ c ≤ '9') ∨ ('a' ≤ c ∧ c ≤ 'f') ∨ ('A' ≤ c ∧ c ≤ 'F')

/-- Recognizer for decimal digits. -/
def isDigitChar (c : Char) : Bool :=
  '0' ≤ c ∧ c ≤ '9'

/-- Value of a hexadecimal digit (0 for other characters). -/
def hexDigitVal (c : Char) : Nat :=
  if '0' ≤ c ∧ c ≤ '9' then c.toNat - 48
  else if 'a' ≤ c ∧ c ≤ 'f' then c.toNat - 97 + 10
  else if 'A' ≤ c ∧ c ≤ 'F' then c.toNat - 65 + 10
  else 0

/-- Value of four hexadecimal digits, most significant first. -/
def hexQuad (h1 h2 h3 h4 : Char) : Nat :=
  ((hexDigitVal h1 * 16 + hexDigitVal h2) * 16 + hexDigitVal h3) * 16 + hexDigitVal h4

/-- Modelled from the spec: the fallback double parse of `decodeNumber`,
`sscanf(text, "%lf%c", ...)` requiring exactly one successful conversion and
no trailing bytes (spec section 4.4: "a locale-agnostic double parser that
requires exactly one conversion and no trailing bytes").  The grammar is
that of a C floating literal: optional sign, a mantissa with digits before
or after an optional point, and an optional signed exponent.  Since the C
library is outside the sources, the resulting double is represented
abstractly by the scanned text (see `CDouble`). -/
def stripSign (t : List Char) : List Char :=
  if t.head? = some '-' ∨ t.head? = some '+' then t.tail else t

def floatGrammarOk (t : List Char) : Bool :=
  let afterSign := stripSign t
  let intPart := afterSign.takeWhile isDigitChar
  let afterInt := afterSign.drop intPart.length
  let mant : Bool × List Char :=
    if afterInt.head? = some '.' then
      (decide (intPart.length + (afterInt.tail.takeWhile isDigitChar).length > 0),
        afterInt.tail.drop (afterInt.tail.takeWhile isDigitChar).length)
    else (decide (intPart.length > 0), afterInt)
  if mant.2 = [] then mant.1
  else if mant.2.head? = some 'e' ∨ mant.2.head? = some 'E' then
    let afterEsign := stripSign mant.2.tail
    let expPart := afterEsign.takeWhile isDigitChar
    mant.1 && decide (expPart.length > 0) && decide (afterEsign.drop expPart.length = [])
  else false

/-- Modelled from the spec: the result of the `sscanf "%lf%c"` call on a
number token; `none` means the conversion count differed from one. -/
def scanfDouble (t : List Char) : Option CDouble :=
  if floatGrammarOk t then some (.finite t) else none

/-- The token-text core of `Reader::decodeNumber`: detects a leading minus
sign, runs the accumulation loop, and selects the numeric domain exactly as
the source selection does.  Returns `none` when the fallback double parse
fails (the caller then reports "'text' is not a number."). -/
def decodeNumberCore (text : List Char) : Option NumValue :=
  let isNegative : Bool := decide (text.head? = some '-')
  let digits := if isNegative then text.tail else text
  let r := numLoop digits 0 true true
  if r.2.1 && (isNegative || decide (0 ≤ toSigned r.1)) then
    some (.sInt (if isNegative then negS r.1 else toSigned r.1))
  else if r.2.2 && !isNegative then
    some (.uInt r.1)
  else
    match scanfDouble text with
    | some d => some (.dbl d)
    | none => none

/-- Numeric value of a digit string, most significant digit first. -/
def digitsVal (ds : List Char) : Nat :=
  ds.foldl (fun a c => 10 * a + (c.toNat - 48)) 0

/-- Auxiliary form of `digitsVal` with an explicit accumulator. -/
def digitsValFrom (N : Nat) (ds : List Char) : Nat :=
  ds.foldl (fun a c => 10 * a + (c.toNat - 48)) N

/-- Mathematical value of an integral token made of an optional minus sign
followed by the digits `ds`. -/
def intOfToken (neg : Bool) (ds : List Char) : Int :=
  if neg then -(digitsVal ds : Int) else (digitsVal ds : Int)

-- ## Parser state (json_reader.cpp, class Reader)

/-- The mutable state of a `Reader`: the document (the byte range
`[begin_, end_)`), the cursor `current_` as an offset, the current token,
the accumulated errors, and the configuration. -/
structure PState where
  doc : List Char
  current_ : Nat
  token_ : Token
  errors_ : List ErrorInfo
  features_ : Features
  collectComments_ : Bool
deriving Repr

/-- Append an error record, `Reader::addError` (`extra = 0` means the null
pointer default). -/
def addError (st : PState) (message : String) (extra : Nat) : PState :=
  { st with errors_ := st.errors_ ++ [⟨st.token_, message, extra⟩] }

-- ## Lexer (json_reader.cpp, Reader::readToken and helpers)

/-- Whitespace scan of `readToken`: count of leading blanks, tabs, carriage
returns and line feeds, together with the flag "a line break was seen". -/
def wsScan : List Char → Nat × Bool
  | [] => (0, false)
  | c :: rest =>
    if c = '\r' ∨ c = '\n' then
      let (n, _) := wsScan rest
      (n + 1, true)
    else if c = ' ' ∨ c = '\t' then
      let (n, lb) := wsScan rest
      (n + 1, lb)
    else (0, false)

/-- String scan of `Reader::readString`, starting after the opening quote:
consumes bytes until an unescaped quote; a backslash consumes the following
byte unconditionally.  Returns the number of consumed bytes and whether the
closing quote was found (`getNextChar` yields 0 both at the end of the
document and for a genuine NUL byte, stopping the loop with an error; a NUL
byte is consumed, the end of the document is not). -/
def readStringScan : List Char → Nat × Bool
  | [] => (0, false)
  | c :: rest =>
    if c.toNat = 0 then (1, false)
    else if c = '"' then (1, true)
    else if c = '\\' then
      match rest with
      | [] => (1, false)
      | _ :: rest' =>
        let (n, ok) := readStringScan rest'
        (n + 2, ok)
    else
      let (n, ok) := readStringScan rest
      (n + 1, ok)

/-- Scan of `Reader::readCStyleComment` after the opening `/*`: consumes
until the closing `*/`; `b` is the previously read byte (initially NUL). -/
def readCStyleScan : List Char → Char → Nat × Bool
  | [], _ => (0, false)
  | c :: rest, b =>
    if b = '*' ∧ c = '/' then (1, true)
    else
      let (n, ok) := readCStyleScan rest c
      (n + 1, ok)

/-- Scan of `Reader::readCppStyleComment` after the opening `//`: consumes
until (excluding) a carriage return or line feed. -/
def readCppScan : List Char → Nat
  | [] => 0
  | c :: rest => if c = '\r' ∨ c = '\n' then 0 else 1 + readCppScan rest

/-- Count of leading decimal digits. -/
def countDigits (l : List Char) : Nat :=
  (l.takeWhile isDigitChar).length

/-- End position of `Reader::readNumber`, which is entered with the first
character (a digit or minus) already consumed at `pos - 1`: a run of
digits, an optional point with more digits, and an optional exponent with
an optional sign and more digits. -/
def readNumberEnd (doc : List Char) (pos : Nat) : Nat :=
  let p1 := pos + countDigits (doc.drop pos)
  let p2 :=
    if (doc.drop p1).head? = some '.' then (p1 + 1) + countDigits (doc.drop (p1 + 1))
    else p1
  if (doc.drop p2).head? = some 'e' ∨ (doc.drop p2).head? = some 'E' then
    let q := p2 + 1
    let q2 := if (doc.drop q).head? = some '-' ∨ (doc.drop q).head? = some '+' then q + 1 else q
    q2 + countDigits (doc.drop q2)
  else p2

/-- Keyword matching of `Reader::match`: the remaining characters of the
pattern are compared against the document; the cursor advances only on a
full match. -/
def matchKw (doc : List Char) (s p : Nat) (pat : List Char) (tt : TokenType)
    (lb : Bool) : Bool × Token × Nat :=
  if (doc.drop p).take pat.length = pat then (lb, ⟨tt, s, p + pat.length⟩, p + pat.length)
  else (lb, ⟨.terror, s, p⟩, p)

/-- Pure core of `Reader::readToken`: from a document and a cursor it
returns the "line break skipped" flag, the token, and the new cursor. -/
def readTokenCore (doc : List Char) (pos : Nat) : Bool × Token × Nat :=
  let (nws, linebreak) := wsScan (doc.drop pos)
  let s := pos + nws
  match (doc.drop s).head? with
  | none => (linebreak, ⟨.endOfStream, s, s⟩, s)
  | some c =>
    let p := s + 1
    if c.toNat = 0 then (linebreak, ⟨.endOfStream, s, p⟩, p)
    else if c = '\x7b' then (linebreak, ⟨.objectBegin, s, p⟩, p)
    else if c = '\x7d' then (linebreak, ⟨.objectEnd, s, p⟩, p)
    else if c = '[' then (linebreak, ⟨.arrayBegin, s, p⟩, p)
    else if c = ']' then (linebreak, ⟨.arrayEnd, s, p⟩, p)
    else if c = '"' then
      let (n, ok) := readStringScan (doc.drop p)
      (linebreak, ⟨if ok then .tstring else .terror, s, p + n⟩, p + n)
    else if c = '/' then
      match (doc.drop p).head? with
      | none => (linebreak, ⟨.terror, s, p⟩, p)
      | some c2 =>
        if c2 = '*' then
          let (n, ok) := readCStyleScan (doc.drop (p + 1)) (Char.ofNat 0)
          (linebreak, ⟨if ok then .comment else .terror, s, p + 1 + n⟩, p + 1 + n)
        else if c2 = '/' then
          let n := readCppScan (doc.drop (p + 1))
          (linebreak, ⟨.comment, s, p + 1 + n⟩, p + 1 + n)
        else (linebreak, ⟨.terror, s, p + 1⟩, p + 1)
    else if isDigitChar c ∨ c = '-' then
      let q := readNumberEnd doc p
      (linebreak, ⟨.tnumber, s, q⟩, q)
    else if c = 't' then matchKw doc s p ['r', 'u', 'e'] .ttrue linebreak
    else if c = 'f' then matchKw doc s p ['a', 'l', 's', 'e'] .tfalse linebreak
    else if c = 'n' then matchKw doc s p ['u', 'l', 'l'] .tnull linebreak
    else if c = ',' then (linebreak, ⟨.arraySeparator, s, p⟩, p)
    else if c = ':' then (linebreak, ⟨.memberSeparator, s, p⟩, p)
    else (linebreak, ⟨.terror, s, p⟩, p)

/-- `Reader::readToken`: runs the core on the state and stores the token
and the cursor. -/
def readToken (st : PState) : Bool × PState :=
  let (lb, tok, p) := readTokenCore st.doc st.current_
  (lb, { st with token_ := tok, current_ := p })

-- ## Writer primitives (json_writer.cpp, valueToString and friends)

/-- Modelled from the spec: `uintToString` of `json_tool.h` (not among the
sources): minimal decimal digits, "0" for zero. -/
def uintToString (n : Nat) : List Char :=
  if n = 0 then ['0'] else (Nat.digits 10 n).reverse.map (fun d => Char.ofNat (48 + d))

/-- The signed formatter `valueToString(LargestInt)`: a minus sign for
negatives followed by the digits of the magnitude.  The source negates the
value before casting to unsigned; for the minimal signed value the
two's-complement wrap makes that cast produce `2 ^ 63`, which equals
`(-n).toNat` here, so `(-n).toNat` matches the source on the whole
64-bit signed range. -/
def valueToStringInt (n : Int) : List Char :=
  if n < 0 then '-' :: uintToString (-n).toNat else uintToString n.toNat

/-- The unsigned formatter `valueToString(LargestUInt)`. -/
def valueToStringUInt (n : Nat) : List Char :=
  uintToString n

/-- The double formatter `valueToString(double)`: NaN prints as `null`, the
infinities as `1e+9999` with an optional sign (the source indexes into the
string literal `"-1e+9999"` with `value >= 0`), and a finite double prints
through `snprintf "%.17g"` followed by the locale fix, which is the
abstract rendering carried by the model (see `CDouble`). -/
def valueToStringDouble (d : CDouble) : List Char :=
  if ¬ d.isFiniteD then
    if d.neqSelf then "null".toList
    else ("-1e+9999".toList).drop (if d.geZero then 1 else 0)
  else
    match d with
    | .finite r => r
    | _ => []

/-- Modelled from the spec: `isControlCharacter` of `json_tool.h` (not
among the sources): a control byte is one below `0x20` (spec section 4.6). -/
def isControlCharacter (c : Char) : Bool :=
  decide (c.toNat < 0x20)

/-- Membership in the escape set `"\"\\\b\f\n\r\t"` probed by `strpbrk` in
`valueToQuotedString`. -/
def isSpecialChar (c : Char) : Bool :=
  c = '"' ∨ c = '\\' ∨ c = '\x08' ∨ c = '\x0c' ∨ c = '\n' ∨ c = '\r' ∨ c = '\t'

/-- Upper-case hexadecimal digit. -/
def hexUpper (n : Nat) : Char :=
  if n < 10 then Char.ofNat (48 + n) else Char.ofNat (55 + n)

/-- Escape of a single character in the slow path of
`valueToQuotedString`: the named escapes, `\u00XX` (upper case, zero
padded) for the remaining control characters, and the character itself
otherwise. -/
def escapeChar (c : Char) : List Char :=
  if c = '"' then ['\\', '"']
  else if c = '\\' then ['\\', '\\']
  else if c = '\x08' then ['\\', 'b']
  else if c = '\x0c' then ['\\', 'f']
  else if c = '\n' then ['\\', 'n']
  else if c = '\r' then ['\\', 'r']
  else if c = '\t' then ['\\', 't']
  else if isControlCharacter c then
    ['\\', 'u', '0', '0', hexUpper (c.toNat / 16 % 16), hexUpper (c.toNat % 16)]
  else [c]

/-- The string quoter `valueToQuotedString`: the argument is read through
`asCString`, so bytes after a NUL are invisible; without special or
control characters the string is emitted verbatim between quotes, else
each character is escaped. -/
def valueToQuotedString (s0 : List Char) : List Char :=
  let s := s0.takeWhile (fun c => decide (c.toNat ≠ 0))
  if ¬ s.any isSpecialChar ∧ ¬ s.any isControlCharacter then
    '"' :: (s ++ ['"'])
  else
    '"' :: (s.flatMap escapeChar ++ ['"'])

-- ## String decoding (json_reader.cpp, Reader::decodeString)

/-- `Reader::decodeUnicodeEscapeSequence` on the bytes following `\u`:
four case-insensitive hexadecimal digits.  Returns the number of consumed
bytes together with the value; a failure — fewer than four bytes remaining
or an invalid digit — returns value 0, which the source cannot tell apart
from the legitimate code point zero. -/
def duesGo : Nat → List Char → Nat → Nat → Nat × Nat
  | 0, _, k, unicode => (k, unicode)
  | _ + 1, [], k, _ => (k, 0)
  | n + 1, c :: rest, k, acc =>
    let acc' := acc * 16
    if '0' ≤ c ∧ c ≤ '9' then duesGo n rest (k + 1) (acc' + (c.toNat - 48))
    else if 'a' ≤ c ∧ c ≤ 'f' then duesGo n rest (k + 1) (acc' + (c.toNat - 97 + 10))
    else if 'A' ≤ c ∧ c ≤ 'F' then duesGo n rest (k + 1) (acc' + (c.toNat - 65 + 10))
    else (k + 1, 0)

def decodeUnicodeEscapeSequence (cs : List Char) : Nat × Nat :=
  if cs.length < 4 then (0, 0) else duesGo 4 cs 0 0

/-- Modelled from the spec: `codePointToUTF8` of `json_tool.h` (not among
the sources): the UTF-8 encoding, 1 byte up to `0x7F`, 2 up to `0x7FF`, 3
up to `0xFFFF`, 4 beyond (spec section 4.4). -/
def codePointToUTF8 (cp : Nat) : List Char :=
  if cp ≤ 0x7F then [Char.ofNat cp]
  else if cp ≤ 0x7FF then
    [Char.ofNat (0xC0 ||| (cp >>> 6)), Char.ofNat (0x80 ||| (cp &&& 0x3F))]
  else if cp ≤ 0xFFFF then
    [Char.ofNat (0xE0 ||| (cp >>> 12)), Char.ofNat (0x80 ||| ((cp >>> 6) &&& 0x3F)),
      Char.ofNat (0x80 ||| (cp &&& 0x3F))]
  else
    [Char.ofNat (0xF0 ||| (cp >>> 18)), Char.ofNat (0x80 ||| ((cp >>> 12) &&& 0x3F)),
      Char.ofNat (0x80 ||| ((cp >>> 6) &&& 0x3F)), Char.ofNat (0x80 ||| (cp &&& 0x3F))]

/-- The decode loop of `Reader::decodeString` over the token body (the
characters strictly between the quotes).  `pos` is the absolute offset of
the next unread byte (the C++ `current`), used for the `extra` location of
errors; `surrogate` is the pending high surrogate (0 when none).  A lone
backslash at the end of the body cannot arise from a string token (the
lexer always consumes the escaped byte); the source asserts there, and the
model returns an error.  Note that the loop has no check after its end: a
surrogate still pending when the body ends is silently dropped. -/
def decodeStringLoop : List Char → Nat → Nat → List Char → Except (String × Nat) (List Char)
  | [], _, _, acc => .ok acc
  | c0 :: rest, pos, surrogate, acc =>
    if c0 = '\\' then
      match rest with
      | [] => .error ("assertion: escape at end of string token", pos + 1)
      | e :: rest' =>
        if e = 'u' then
          match rest' with
          | h1 :: h2 :: h3 :: h4 :: rest2 =>
            -- a nonzero result always consumes exactly four bytes, so the
            -- continuation after the escape is the tail after four digits
            let k := (decodeUnicodeEscapeSequence (h1 :: h2 :: h3 :: h4 :: rest2)).1
            let code := (decodeUnicodeEscapeSequence (h1 :: h2 :: h3 :: h4 :: rest2)).2
            if code ≠ 0 then
              if 0xD800 ≤ code ∧ code ≤ 0xDBFF then
                if surrogate ≠ 0 then .error ("Misplaced UTF-16 surrogate", pos + 2 + k)
                else decodeStringLoop rest2 (pos + 2 + k) code acc
              else if 0xDC00 ≤ code ∧ code ≤ 0xDFFF then
                if surrogate = 0 then .error ("Misplaced UTF-16 surrogate", pos + 2 + k)
                else
                  let cp := ((code &&& 0x3FF) ||| ((surrogate &&& 0x3FF) <<< 10)) + 0x10000
                  decodeStringLoop rest2 (pos + 2 + k) 0 (acc ++ codePointToUTF8 cp)
              else decodeStringLoop rest2 (pos + 2 + k) surrogate (acc ++ codePointToUTF8 code)
            else .error ("Bad escape sequence in string", pos + 2 + k)
          | r4 =>
            -- fewer than four bytes remain: the decode returns value 0
            .error ("Bad escape sequence in string",
              pos + 2 + (decodeUnicodeEscapeSequence r4).1)
        else
          let c' : Option Char :=
            if e = 'b' then some '\x08'
            else if e = 'f' then some '\x0c'
            else if e = 'n' then some '\n'
            else if e = 'r' then some '\r'
            else if e = 't' then some '\t'
            else if e = '"' ∨ e = '/' ∨ e = '\\' then some e
            else none
          match c' with
          | none => .error ("Bad escape sequence in string", pos + 2)
          | some c2 =>
            if surrogate ≠ 0 then .error ("Misplaced UTF-16 surrogate", pos + 2)
            else decodeStringLoop rest' (pos + 2) surrogate (acc ++ [c2])
    else
      if surrogate ≠ 0 then .error ("Misplaced UTF-16 surrogate", pos + 1)
      else decodeStringLoop rest (pos + 1) surrogate (acc ++ [c0])

/-- The text of a token: the slice `[start_, end_)` of the document. -/
def tokenText (doc : List Char) (tok : Token) : List Char :=
  (doc.drop tok.start_).take (tok.end_ - tok.start_)

/-- `Reader::decodeString(std::string&)` on the current token: decode the
characters strictly between the quotes. -/
def decodeStringCore (doc : List Char) (tok : Token) : Except (String × Nat) (List Char) :=
  let body := (doc.drop (tok.start_ + 1)).take (tok.end_ - 1 - (tok.start_ + 1))
  decodeStringLoop body (tok.start_ + 1) 0 []

/-- `Reader::decodeString(Value&)`: decode and store the payload, or record
the error. -/
def decodeStringV (st : PState) (cur : JValue) : Bool × JValue × PState :=
  match decodeStringCore st.doc st.token_ with
  | .ok s => (true, cur.takePayload (.vstr s {}), st)
  | .error (msg, extra) => (false, cur, addError st msg extra)

/-- `Reader::decodeNumber(Value&)`: run the token-text core and store the
selected payload, or record "'text' is not a number.". -/
def decodeNumberV (st : PState) (cur : JValue) : Bool × JValue × PState :=
  match decodeNumberCore (tokenText st.doc st.token_) with
  | some (.sInt n) => (true, cur.takePayload (.vint n {}), st)
  | some (.uInt n) => (true, cur.takePayload (.vuint n {}), st)
  | some (.dbl d) => (true, cur.takePayload (.vreal d {}), st)
  | none =>
    (false, cur,
      addError st ("\x27" ++ String.mk (tokenText st.doc st.token_) ++ "\x27 is not a number.") 0)

/-- Modelled from the spec: `Value::asString` on the Value filled by the
number decoder, used only for numeric object keys (spec section 3:
"stringified via Value's asString"). -/
def asStringNum : NumValue → List Char
  | .sInt n => valueToStringInt n
  | .uInt n => valueToStringUInt n
  | .dbl d => valueToStringDouble d

-- ## Comment gathering (json_reader.cpp, Reader::skipCommentTokens)

/-- The static helper `containsNewLine` on a token slice. -/
def containsNewLineL (l : List Char) : Bool :=
  l.any (fun c => c = '\n' ∨ c = '\r')

/-- The static helper `normalizeEOL`: CRLF and lone CR become LF. -/
def normalizeEOLL : List Char → List Char
  | [] => []
  | '\r' :: '\n' :: rest => '\n' :: normalizeEOLL rest
  | '\r' :: rest => '\n' :: normalizeEOLL rest
  | c :: rest => c :: normalizeEOLL rest

/-- The loop of `Reader::skipCommentTokens`.  `lv` is the current state of
the value `lastValue` points at (returned to the caller for write-back);
`attach` records whether the pointer is still non-null (it is nulled on a
skipped line break and stays null once nulled, while the accumulated
updates persist).  The fuel only bounds the number of comment tokens,
each of which advances the cursor; `doc.length + 1` always suffices. -/
def sctLoop (fuel : Nat) (st : PState) (q : List Char) (lv : Option JValue)
    (attach : Bool) (found : Bool) : Bool × PState × List Char × Option JValue :=
  match fuel with
  | 0 => (found, st, q, lv)
  | fuel + 1 =>
    let (lb, st) := readToken st
    let attach := if lb then false else attach
    if st.token_.type_ ≠ .comment then (found, st, q, lv)
    else
      let tokChars := tokenText st.doc st.token_
      let (q, lv) :=
        if st.collectComments_ then
          if attach ∧ lv.isSome ∧ ¬containsNewLineL tokChars then
            match lv with
            | some v =>
              let inlineComments := v.metaOf.commentSame
              let inlineComments :=
                if inlineComments ≠ [] then inlineComments ++ [' '] else inlineComments
              (q, some (v.setCommentSame (inlineComments ++ tokChars)))
            | none => (q, lv)
          else
            let q2 := if q ≠ [] then q ++ ['\n'] else q
            (q2 ++ normalizeEOLL tokChars, lv)
        else (q, lv)
      if st.features_.allowComments_ then sctLoop fuel st q lv attach true
      else (true, st, q, lv)

/-- `Reader::skipCommentTokens(queued, lastValue)`: flush a pending queued
comment into the previous value's `After` slot (disabling further inline
attachment), then loop over comment tokens. -/
def skipCommentTokens (st : PState) (q : List Char) (lv : Option JValue) :
    Bool × PState × List Char × Option JValue :=
  let (q, lv, attach) :=
    match lv with
    | some v =>
      if q ≠ [] then (([] : List Char), some (v.setCommentAfter q), false)
      else (q, some v, true)
    | none => (q, none, false)
  sctLoop (st.doc.length + 1) st q lv attach false

-- ## Object member access

/-- Modelled from the spec: lookup in the insertion-ordered object member
list (spec section 3: object members form an ordered map; section 4.5:
duplicate keys: last write wins, insertion order of first occurrence). -/
def objFind : List (List Char × JValue) → List Char → Option JValue
  | [], _ => none
  | (k, v) :: rest, name => if k = name then some v else objFind rest name

/-- Modelled from the spec: write-through of `currentValue[name] = v`:
replace the existing member or append a new one. -/
def objSet : List (List Char × JValue) → List Char → JValue → List (List Char × JValue)
  | [], name, v => [(name, v)]
  | (k, w) :: rest, name, v =>
    if k = name then (k, v) :: rest else (k, w) :: objSet rest name v

/-- Replacement of the last element of a list by the content of `lv`. -/
def setLastElem (xs : List JValue) : Option JValue → List JValue
  | some v => xs.dropLast ++ [v]
  | none => xs

/-- Array payload with the metadata of `cur`, for storing loop results. -/
def JValue.withArr (cur : JValue) (xs : List JValue) : JValue :=
  .varr xs cur.metaOf

/-- Object payload with the metadata of `cur`. -/
def JValue.withObj (cur : JValue) (ms : List (List Char × JValue)) : JValue :=
  .vobj ms cur.metaOf

-- ## Recursive descent (json_reader.cpp, Reader::readValue and friends)

/-- Outcome of the member-name step of `readObject`: the decoded name or
the error to record. -/
def readObjectName (st : PState) : Except (String × Nat) (List Char) :=
  if st.token_.type_ = .tstring then
    match decodeStringCore st.doc st.token_ with
    | .ok name => .ok name
    | .error e => .error e
  else if st.token_.type_ = .tnumber ∧ st.features_.allowNumericKeys_ then
    match decodeNumberCore (tokenText st.doc st.token_) with
    | some nv => .ok (asStringNum nv)
    | none =>
      .error ("\x27" ++ String.mk (tokenText st.doc st.token_) ++ "\x27 is not a number.", 0)
  else .error ("Missing \x27\x7d\x27 or object member name", 0)

mutual

/-- `Reader::readValue`: set the start offset, dispatch on the current
token, then set the limit offset from the token current at that moment.
The fuel only bounds the recursion depth and the loop lengths, each of
which consumes input; `parseFuel` below always suffices. -/
def readValue (fuel : Nat) (st : PState) (cur : JValue) : Bool × JValue × PState :=
  match fuel with
  | 0 => (false, cur, st)
  | fuel + 1 =>
    let cur := cur.setOffsetStart st.token_.start_
    let (ok, cur, st) :=
      match st.token_.type_ with
      | .objectBegin => readObject fuel st cur
      | .arrayBegin => readArray fuel st cur
      | .tnumber => decodeNumberV st cur
      | .tstring => decodeStringV st cur
      | .ttrue => (true, cur.takePayload (.vbool true {}), st)
      | .tfalse => (true, cur.takePayload (.vbool false {}), st)
      | .tnull => (true, cur.takePayload (.vnull {}), st)
      | .arraySeparator =>
        if st.features_.allowDroppedNullPlaceholders_ then
          (true, cur.takePayload (.vnull {}), st)
        else (false, cur, addError st "Syntax error: value, object or array expected." 0)
      | _ => (false, cur, addError st "Syntax error: value, object or array expected." 0)
    (ok, cur.setOffsetLimit st.token_.end_, st)

/-- The do-while loop of `Reader::readArray`.  Returns (in order) the
success flag, the `comment` flag as last assigned, the children, the
queued comments, the `lastValue != 0` flag, and the state. -/
def readArrayLoop (fuel : Nat) (st : PState) (xs : List JValue) (q : List Char)
    (hasLast : Bool) : Bool × Bool × List JValue × List Char × Bool × PState :=
  match fuel with
  | 0 => (false, false, xs, q, hasLast, st)
  | fuel + 1 =>
    let lv := if hasLast then xs.getLast? else none
    let (comment1, st, q, lv') := skipCommentTokens st q lv
    let xs := if hasLast then setLastElem xs lv' else xs
    if st.token_.type_ = .arrayEnd ∧
        (¬hasLast ∨ st.features_.allowDroppedNullPlaceholders_) then
      (true, comment1, xs, q, hasLast, st)
    else
      let child := JValue.nullValue
      let (child, q) := if q ≠ [] then (child.setCommentBefore q, ([] : List Char)) else (child, q)
      let (ok, child, st) := readValue fuel st child
      let xs := xs ++ [child]
      if ¬ok then (false, comment1, xs, q, true, st)
      else if st.token_.type_ ≠ .arraySeparator then
        let (comment2, st, q, lv2) := skipCommentTokens st q (some child)
        let xs := setLastElem xs lv2
        if st.token_.type_ = .arraySeparator then readArrayLoop fuel st xs q true
        else (true, comment2, xs, q, true, st)
      else readArrayLoop fuel st xs q true

/-- `Reader::readArray`: run the loop, require the closing bracket, and
attach a trailing queued comment to the array itself or to its last
element. -/
def readArray (fuel : Nat) (st : PState) (cur : JValue) : Bool × JValue × PState :=
  match fuel with
  | 0 => (false, cur, st)
  | fuel + 1 =>
    let cur := cur.takePayload (.varr [] {})
    let (ok, comment, xs, q, hasLast, st) := readArrayLoop fuel st [] [] false
    if ¬ok then (false, cur.withArr xs, st)
    else if st.token_.type_ ≠ .arrayEnd then
      (false, cur.withArr xs,
        addError st "Missing \x27,\x27 or \x27]\x27 in array declaration" 0)
    else if comment then
      if ¬hasLast then
        let old := cur.metaOf.commentBefore
        let newc := (if old ≠ [] then old ++ ['\n'] else old) ++ q
        (true, (cur.setCommentBefore newc).withArr xs, st)
      else if q ≠ [] then
        let xs2 :=
          match xs.getLast? with
          | some v => xs.dropLast ++ [v.setCommentAfter q]
          | none => xs
        (true, cur.withArr xs2, st)
      else (true, cur.withArr xs, st)
    else (true, cur.withArr xs, st)

/-- The do-while loop of `Reader::readObject`.  `lastName` plays the role
of the `lastValue` pointer: it names the member the pointer refers to. -/
def readObjectLoop (fuel : Nat) (st : PState) (ms : List (List Char × JValue))
    (q : List Char) (lastName : Option (List Char)) :
    Bool × Bool × List (List Char × JValue) × List Char × Option (List Char) × PState :=
  match fuel with
  | 0 => (false, false, ms, q, lastName, st)
  | fuel + 1 =>
    let lv := lastName.bind (objFind ms)
    let (comment1, st, q, lv') := skipCommentTokens st q lv
    let ms :=
      match lastName, lv' with
      | some nm, some v => objSet ms nm v
      | _, _ => ms
    if st.token_.type_ = .objectEnd ∧
        (lastName.isNone ∨ st.features_.allowDroppedNullPlaceholders_) then
      (true, comment1, ms, q, lastName, st)
    else
      match readObjectName st with
      | .error (msg, extra) => (false, comment1, ms, q, lastName, addError st msg extra)
      | .ok name =>
        let (_, st, q, _) := skipCommentTokens st q none
        if st.token_.type_ ≠ .memberSeparator then
          (false, comment1, ms, q, lastName,
            addError st "Missing \x27:\x27 after object member name" 0)
        else
          let (_, st, q, _) := skipCommentTokens st q none
          let child := (objFind ms name).getD JValue.nullValue
          let (child, q) :=
            if q ≠ [] then (child.setCommentBefore q, ([] : List Char)) else (child, q)
          let ms := objSet ms name child
          let (ok, child, st) := readValue fuel st child
          let ms := objSet ms name child
          if ¬ok then (false, comment1, ms, q, some name, st)
          else if st.token_.type_ ≠ .arraySeparator then
            let (comment2, st, q, lv2) := skipCommentTokens st q (some child)
            let ms :=
              match lv2 with
              | some v => objSet ms name v
              | none => ms
            if st.token_.type_ = .arraySeparator then readObjectLoop fuel st ms q (some name)
            else (true, comment2, ms, q, some name, st)
          else readObjectLoop fuel st ms q (some name)

/-- `Reader::readObject`: run the loop, require the closing brace, and
attach a trailing queued comment to the object itself or to its last
member. -/
def readObject (fuel : Nat) (st : PState) (cur : JValue) : Bool × JValue × PState :=
  match fuel with
  | 0 => (false, cur, st)
  | fuel + 1 =>
    let cur := cur.takePayload (.vobj [] {})
    let (ok, comment, ms, q, lastName, st) := readObjectLoop fuel st [] [] none
    if ¬ok then (false, cur.withObj ms, st)
    else if st.token_.type_ ≠ .objectEnd then
      (false, cur.withObj ms,
        addError st "Missing \x27,\x27 or \x27\x7d\x27 in object declaration" 0)
    else if comment then
      match lastName with
      | none =>
        let old := cur.metaOf.commentBefore
        let newc := (if old ≠ [] then old ++ ['\n'] else old) ++ q
        (true, (cur.setCommentBefore newc).withObj ms, st)
      | some nm =>
        if q ≠ [] then
          let ms2 :=
            match objFind ms nm with
            | some v => objSet ms nm (v.setCommentAfter q)
            | none => ms
          (true, cur.withObj ms2, st)
        else (true, cur.withObj ms, st)
    else (true, cur.withObj ms, st)

end

-- ## The parse entry point (json_reader.cpp, Reader::parse)

/-- Fuel bound for the recursive descent: generous in the document length;
every recursion step and loop iteration consumes at least one byte. -/
def parseFuel (doc : List Char) : Nat := 8 * doc.length + 8

/-- Result of `parse` together with the error list observed right after
the recursive walk (before trailing comment gathering, which never touches
errors). -/
structure ParseOut where
  successful : Bool
  root : JValue
  finalState : PState
  errorsAfterWalk : List ErrorInfo

/-- `Reader::parse(beginDoc, endDoc, root, collectComments)`: clear state,
gather leading comments onto the root's `Before` slot, apply the strict
root pre-check, run the value walk, gather trailing comments, and return
the walk's flag. -/
def parseAux (features : Features) (collect : Bool) (doc : List Char) : ParseOut :=
  let collect := if ¬features.allowComments_ then false else collect
  let st : PState := ⟨doc, 0, ⟨.endOfStream, 0, 0⟩, [], features, collect⟩
  let (_, st, q, _) := skipCommentTokens st [] none
  let root := JValue.nullValue
  let root := if q ≠ [] then root.setCommentBefore q else root
  if features.strictRoot_ ∧ st.token_.type_ ≠ .arrayBegin ∧
      st.token_.type_ ≠ .objectBegin then
    let st := addError st "A valid JSON document must be either an array or an object value." 0
    ⟨false, root, st, st.errors_⟩
  else
    let (ok, root, st) := readValue (parseFuel doc) st root
    let errs := st.errors_
    let (_, st, q2, lvOut) := skipCommentTokens st [] (some root)
    let root := lvOut.getD root
    let root := if q2 ≠ [] then root.setCommentAfter q2 else root
    ⟨ok, root, st, errs⟩

/-- The public `parse`: the boolean result, the root, and the final state. -/
def parse (features : Features) (collect : Bool) (doc : List Char) :
    Bool × JValue × PState :=
  let r := parseAux features collect doc
  (r.successful, r.root, r.finalState)

-- ## The compact writer (json_writer.cpp, FastWriter)

/-- The three options of `FastWriter`, all off by default. -/
structure FastWriterOpts where
  yamlCompatiblityEnabled_ : Bool := false
  dropNullPlaceholders_ : Bool := false
  omitEndingLineFeed_ : Bool := false
deriving DecidableEq, Repr

mutual

/-- `FastWriter::writeValue`: emit a value back to back with no layout. -/
def fastWriteValue (o : FastWriterOpts) : JValue → List Char
  | .vnull _ => if o.dropNullPlaceholders_ then [] else "null".toList
  | .vbool b _ => if b then "true".toList else "false".toList
  | .vint n _ => valueToStringInt n
  | .vuint n _ => valueToStringUInt n
  | .vreal d _ => valueToStringDouble d
  | .vstr s _ => valueToQuotedString s
  | .varr xs _ => '[' :: (fastWriteElems o xs true ++ [']'])
  | .vobj ms _ => '\x7b' :: (fastWriteMembers o ms true ++ ['\x7d'])

/-- The element loop of `FastWriter::writeValue` on arrays. -/
def fastWriteElems (o : FastWriterOpts) : List JValue → Bool → List Char
  | [], _ => []
  | x :: rest, isFirst =>
    (if isFirst then [] else [',']) ++ fastWriteValue o x ++ fastWriteElems o rest false

/-- The member loop of `FastWriter::writeValue` on objects. -/
def fastWriteMembers (o : FastWriterOpts) : List (List Char × JValue) → Bool → List Char
  | [], _ => []
  | (k, v) :: rest, isFirst =>
    (if isFirst then [] else [',']) ++ valueToQuotedString k ++
      (if o.yamlCompatiblityEnabled_ then [':', ' '] else [':']) ++
      fastWriteValue o v ++ fastWriteMembers o rest false

end

/-- `FastWriter::write`: the value followed by a line feed unless
suppressed. -/
def fastWrite (o : FastWriterOpts) (root : JValue) : List Char :=
  fastWriteValue o root ++ (if o.omitEndingLineFeed_ then [] else ['\n'])

-- ## pushError and good (json_reader.cpp, Reader::pushError, Reader::good)

/-- `Reader::pushError(value, message)`: validate the value's offsets
against the document length, then synthesize an Error token.  The source
computes `token.end_ = end_ + value.getOffsetLimit()`, so the token's end
offset is the document length plus the offset limit. -/
def pushError1 (st : PState) (v : JValue) (message : String) : Bool × PState :=
  let length := st.doc.length
  if v.metaOf.offsetStart > length ∨ v.metaOf.offsetLimit > length then (false, st)
  else
    let token : Token := ⟨.terror, v.metaOf.offsetStart, length + v.metaOf.offsetLimit⟩
    (true, { st with errors_ := st.errors_ ++ [⟨token, message, 0⟩] })

/-- `Reader::pushError(value, message, extra)`: like the first overload but
also validating the extra value's offset limit; here the token's end is
`begin_ + value.getOffsetLimit()`, and the recorded extra location is the
extra value's start offset (offset 0 coincides with the source's null
encoding, as there). -/
def pushError2 (st : PState) (v : JValue) (message : String) (extra : JValue) :
    Bool × PState :=
  let length := st.doc.length
  if v.metaOf.offsetStart > length ∨ v.metaOf.offsetLimit > length ∨
      extra.metaOf.offsetLimit > length then (false, st)
  else
    let token : Token := ⟨.terror, v.metaOf.offsetStart, v.metaOf.offsetLimit⟩
    (true, { st with errors_ := st.errors_ ++ [⟨token, message, extra.metaOf.offsetStart⟩] })

/-- `Reader::good()`: no recorded errors (`!errors_.size()`). -/
def good (st : PState) : Bool :=
  st.errors_.length == 0

-- ## Projections used by the concrete theorems

/-- Element access on an array value. -/
def JValue.arrGet : JValue → Nat → Option JValue
  | .varr xs _, i => xs[i]?
  | _, _ => none

/-- The payload of a string value. -/
def JValue.strVal? : JValue → Option (List Char)
  | .vstr s _ => some s
  | _ => none

/-- The payload of a signed value. -/
def JValue.intVal? : JValue → Option Int
  | .vint n _ => some n
  | _ => none

/-- A fresh state over a document, as `parse` creates it. -/
def mkState (doc : List Char) : PState :=
  ⟨doc, 0, ⟨.endOfStream, 0, 0⟩, [], Features.all, true⟩

/-- One public operation on a `Reader`: a `parse` call (which rebuilds the
document state, keeping the reader's features) or one of the two
`pushError` overloads. -/
inductive ReaderOp where
  | opParse (collect : Bool) (doc : List Char)
  | opPushError (v : JValue) (message : String)
  | opPushErrorExtra (v : JValue) (message : String) (extra : JValue)

/-- Effect of one `ReaderOp` on the state. -/
def applyOp (st : PState) : ReaderOp → PState
  | .opParse collect doc => (parse st.features_ collect doc).2.2
  | .opPushError v message => (pushError1 st v message).2
  | .opPushErrorExtra v message extra => (pushError2 st v message extra).2

mutual

/-- Structural equality of two values (spec P3): payloads compared
recursively ignoring comments and offsets, with numbers compared in their
selected numeric domain, so a signed and an unsigned value are equal when
they denote the same integer. -/
def jEq : JValue → JValue → Bool
  | .vnull _, .vnull _ => true
  | .vbool a _, .vbool b _ => a == b
  | .vint a _, .vint b _ => a == b
  | .vint a _, .vuint b _ => a == (b : Int)
  | .vuint a _, .vint b _ => (a : Int) == b
  | .vuint a _, .vuint b _ => a == b
  | .vreal a _, .vreal b _ => a == b
  | .vstr a _, .vstr b _ => a == b
  | .varr xs _, .varr ys _ => jEqList xs ys
  | .vobj ms _, .vobj ns _ => jEqMembers ms ns
  | _, _ => false

/-- Pointwise `jEq` on element lists. -/
def jEqList : List JValue → List JValue → Bool
  | [], [] => true
  | x :: xs, y :: ys => jEq x y && jEqList xs ys
  | _, _ => false

/-- Pointwise key equality and `jEq` on member lists. -/
def jEqMembers : List (List Char × JValue) → List (List Char × JValue) → Bool
  | [], [] => true
  | (k1, v1) :: ms, (k2, v2) :: ns => k1 == k2 && jEq v1 v2 && jEqMembers ms ns
  | _, _ => false

end

-- ## Round-trip support: wellformed values, token descriptors, fuel needs

/-- A byte string storable in a `Value` and re-readable: no NUL byte (the
writer reads the payload through `asCString`) and each character one byte. -/
def wfStr (s : List Char) : Bool :=
  s.all (fun c => decide (c.toNat ≠ 0) && decide (c.toNat < 256))

mutual

/-- Values for which the compact writer's output parses back: no reals,
strings and keys NUL-free, object keys pairwise distinct, signed values in
the 64-bit signed range and unsigned values in the 64-bit unsigned range. -/
def wfValue : JValue → Bool
  | .vnull _ => true
  | .vbool _ _ => true
  | .vint n _ => decide (-(TWO63 : Int) ≤ n) && decide (n < (TWO63 : Int))
  | .vuint n _ => decide (n < U64)
  | .vreal _ _ => false
  | .vstr s _ => wfStr s
  | .varr xs _ => wfList xs
  | .vobj ms _ => wfMembers ms && decide (ms.map Prod.fst).Nodup

/-- `wfValue` on every element. -/
def wfList : List JValue → Bool
  | [] => true
  | x :: xs => wfValue x && wfList xs

/-- `wfStr` on every key and `wfValue` on every member value. -/
def wfMembers : List (List Char × JValue) → Bool
  | [] => true
  | (k, v) :: ms => wfStr k && wfValue v && wfMembers ms

end

/-- Characters that may follow a value in the compact output: a separator,
a closing bracket, or the final line feed.  All of them end a number token. -/
def termChar (c : Char) : Bool :=
  c = ',' ∨ c = ']' ∨ c = '\x7d' ∨ c = '\n'

/-- The remaining input starts with a terminator character. -/
def headTerm (rest : List Char) : Bool :=
  match rest with
  | t :: _ => termChar t
  | [] => false

/-- Kind of the first token of the compact serialization of a value. -/
def firstTT : JValue → TokenType
  | .vnull _ => .tnull
  | .vbool b _ => if b then .ttrue else .tfalse
  | .vint _ _ => .tnumber
  | .vuint _ _ => .tnumber
  | .vreal _ _ => .tnumber
  | .vstr _ _ => .tstring
  | .varr _ _ => .arrayBegin
  | .vobj _ _ => .objectBegin

/-- Length of that first token. -/
def tokLen : JValue → Nat
  | .vnull _ => 4
  | .vbool b _ => if b then 4 else 5
  | .vint n _ => (valueToStringInt n).length
  | .vuint n _ => (valueToStringUInt n).length
  | .vreal _ _ => 0
  | .vstr s _ => (valueToQuotedString s).length
  | .varr _ _ => 1
  | .vobj _ _ => 1

/-- Kind of the token current when `readValue` returns on that value. -/
def lastTT : JValue → TokenType
  | .varr _ _ => .arrayEnd
  | .vobj _ _ => .objectEnd
  | v => firstTT v

/-- Length of that final token. -/
def lastTokLen : JValue → Nat
  | .varr _ _ => 1
  | .vobj _ _ => 1
  | v => tokLen v

mutual

/-- A sufficient recursion-depth bound for parsing the serialization of a
value (each constructor and each loop iteration consumes one unit). -/
def needFuel : JValue → Nat
  | .varr xs _ => 2 + needFuelList xs
  | .vobj ms _ => 2 + needFuelMem ms
  | _ => 1

def needFuelList : List JValue → Nat
  | [] => 1
  | e :: es => 1 + needFuel e + needFuelList es

def needFuelMem : List (List Char × JValue) → Nat
  | [] => 1
  | (_, v) :: ms => 1 + needFuel v + needFuelMem ms

end

/-- The contract of `readValue` on the serialization of a wellformed value:
entered with the value's first token current, it succeeds, produces a
structurally equal value, and leaves the state exactly past the value with
its last token current. -/
def RTv (v : JValue) : Prop :=
  ∀ (st : PState) (p : Nat) (rest : List Char) (cur : JValue) (fuel : Nat),
    st.doc.drop p = fastWriteValue {} v ++ rest →
    headTerm rest = true →
    st.current_ = p + tokLen v →
    st.token_ = ⟨firstTT v, p, p + tokLen v⟩ →
    st.features_ = Features.all →
    needFuel v ≤ fuel →
    (readValue fuel st cur).1 = true ∧
    jEq (readValue fuel st cur).2.1 v = true ∧
    (readValue fuel st cur).2.2 =
      { st with current_ := p + (fastWriteValue {} v).length,
                token_ := ⟨lastTT v, p + (fastWriteValue {} v).length - lastTokLen v,
                           p + (fastWriteValue {} v).length⟩ }

-- # THEOREMS

theorem readToken_doc (st : PState) : (readToken st).2.doc = st.doc := rfl

theorem readToken_errors (st : PState) : (readToken st).2.errors_ = st.errors_ := rfl

theorem readToken_features (st : PState) : (readToken st).2.features_ = st.features_ := rfl

-- ## Correctness of the overflow-witnessing loop of decodeNumber

theorem decLoop_step (n value delta val : Nat) (s u : Bool) :
    decLoop (n + 1) value delta val s u
      = decLoop n ((value + delta) % U64) val val
          (if negS ((value + delta) % U64) > negS delta then false else s)
          (if (value + delta) % U64 < delta then false else u) := rfl

/-- Value of `negS` on arguments no larger than `2 ^ 63`. -/
theorem negS_small (x : Nat) (h : x ≤ TWO63) : negS x = -(x : Int) := by
  unfold negS toSigned U64 TWO63 at *
  split_ifs <;> omega

/-- Value of `negS` on arguments above `2 ^ 63`. -/
theorem negS_big (x : Nat) (h1 : TWO63 < x) (h2 : x < U64) :
    negS x = (U64 : Int) - (x : Int) := by
  unfold negS toSigned U64 TWO63 at *
  split_ifs <;> omega

/-- One addition step updates the signed-range flag correctly: provided the
addend is small whenever the running total still fits, the flag update of
the source computes exactly `decide (T + w ≤ 2 ^ 63)`. -/
theorem iterS (T w : Nat) (hw : w < U64) (himp : T ≤ TWO63 → w ≤ TWO63) :
    (if negS ((T % U64 + w) % U64) > negS w then false else decide (T ≤ TWO63))
      = decide (T + w ≤ TWO63) := by
  have hveq : (T % U64 + w) % U64 = (T + w) % U64 := by
    unfold U64; omega
  rw [hveq]
  by_cases hc : negS ((T + w) % U64) > negS w
  · rw [if_pos hc]
    symm
    rw [decide_eq_false_iff_not]
    intro hTw
    have hT : T ≤ TWO63 := le_trans (Nat.le_add_right _ _) hTw
    have hw2 : w ≤ TWO63 := himp hT
    have hmod : (T + w) % U64 = T + w := by
      unfold U64 TWO63 at *; omega
    rw [hmod, negS_small (T + w) hTw, negS_small w hw2] at hc
    omega
  · rw [if_neg hc]
    apply decide_eq_decide.mpr
    constructor
    · intro hT
      by_contra hTw
      apply hc
      have hw2 : w ≤ TWO63 := himp hT
      by_cases hfull : T + w < U64
      · have hmod : (T + w) % U64 = T + w := Nat.mod_eq_of_lt hfull
        rw [hmod, negS_big (T + w) (by omega) hfull, negS_small w hw2]
        unfold U64 TWO63 at *
        omega
      · have heq : T + w = U64 := by
          unfold U64 TWO63 at *; omega
        have hmod : (T + w) % U64 = 0 := by
          rw [heq]; exact Nat.mod_self _
        have hwpos : 0 < w := by
          unfold U64 TWO63 at *; omega
        rw [hmod, negS_small 0 (by unfold TWO63; omega), negS_small w hw2]
        omega
    · intro hTw
      exact le_trans (Nat.le_add_right _ _) hTw

/-- One addition step updates the unsigned-range flag correctly. -/
theorem iterU (T w : Nat) (hw : w < U64) :
    (if (T % U64 + w) % U64 < w then false else decide (T < U64))
      = decide (T + w < U64) := by
  have hveq : (T % U64 + w) % U64 = (T + w) % U64 := by
    unfold U64; omega
  rw [hveq]
  by_cases hc : (T + w) % U64 < w
  · rw [if_pos hc]
    symm
    rw [decide_eq_false_iff_not]
    unfold U64 at *
    omega
  · rw [if_neg hc]
    apply decide_eq_decide.mpr
    unfold U64 at *
    omega

/-- The homogeneous phase of the ten-step loop: adding the saved value `M`
(stored reduced mod `2 ^ 64`) `n` more times to a true total `T` keeps the
value and both flags in correspondence with the true total. -/
theorem decLoopHom (n : Nat) : ∀ T M : Nat, M ≤ T →
    decLoop n (T % U64) (M % U64) (M % U64)
        (decide (T ≤ TWO63)) (decide (T < U64))
      = ((T + n * M) % U64, decide (T + n * M ≤ TWO63), decide (T + n * M < U64)) := by
  induction n with
  | zero => intro T M _; simp [decLoop]
  | succ n ih =>
    intro T M hMT
    rw [decLoop_step]
    have hmod : (T % U64 + M % U64) % U64 = (T + M) % U64 := by
      unfold U64; omega
    have hs : (if negS ((T % U64 + M % U64) % U64) > negS (M % U64) then false
          else decide (T ≤ TWO63)) = decide (T + M ≤ TWO63) := by
      rw [iterS T (M % U64) (by unfold U64; omega) ?_]
      · exact decide_eq_decide.mpr (by unfold U64 TWO63 at *; omega)
      · intro hT
        have h1 : M % U64 ≤ M := Nat.mod_le _ _
        omega
    have hu : (if (T % U64 + M % U64) % U64 < M % U64 then false
          else decide (T < U64)) = decide (T + M < U64) := by
      rw [iterU T (M % U64) (by unfold U64; omega)]
      exact decide_eq_decide.mpr (by unfold U64 at *; omega)
    rw [hs, hu, hmod, ih (T + M) M (by omega)]
    have harith : T + M + n * M = T + (n + 1) * M := by ring
    rw [harith]

/-- One full digit step of `decodeNumber`: the ten-step loop turns a true
prefix value `N` into `10 * N + d`, and both overflow flags remain exact. -/
theorem decLoopDigit (N d : Nat) (hd : d ≤ 9) :
    decLoop 10 (N % U64) d (N % U64) (decide (N ≤ TWO63)) (decide (N < U64))
      = ((10 * N + d) % U64, decide (10 * N + d ≤ TWO63),
          decide (10 * N + d < U64)) := by
  rw [decLoop_step]
  have hs : (if negS ((N % U64 + d) % U64) > negS d then false
        else decide (N ≤ TWO63)) = decide (N + d ≤ TWO63) :=
    iterS N d (by unfold U64; omega) (by intro _; unfold TWO63; omega)
  have hu : (if (N % U64 + d) % U64 < d then false
        else decide (N < U64)) = decide (N + d < U64) :=
    iterU N d (by unfold U64; omega)
  have hmod : (N % U64 + d) % U64 = (N + d) % U64 := by
    unfold U64; omega
  rw [hs, hu, hmod, decLoopHom 9 (N + d) N (by omega)]
  have harith : N + d + 9 * N = 10 * N + d := by ring
  rw [harith]

theorem digitsVal_eq_from (ds : List Char) : digitsVal ds = digitsValFrom 0 ds := rfl

/-- Character-order bounds of a decimal digit. -/
theorem digit_bounds (c : Char) (h : isDigitChar c = true) :
    48 ≤ c.toNat ∧ c.toNat ≤ 57 := by
  simp only [isDigitChar, decide_eq_true_eq] at h
  obtain ⟨h1, h2⟩ := h
  rw [Char.le_def] at h1 h2
  exact ⟨h1, h2⟩

/-- The digit loop of `decodeNumber` computes the value of the digit string
modulo `2 ^ 64` together with exact signed- and unsigned-range flags. -/
theorem numLoop_digits : ∀ (ds : List Char) (N : Nat),
    (∀ c ∈ ds, isDigitChar c) →
    numLoop ds (N % U64) (decide (N ≤ TWO63)) (decide (N < U64))
      = (digitsValFrom N ds % U64, decide (digitsValFrom N ds ≤ TWO63),
          decide (digitsValFrom N ds < U64)) := by
  intro ds
  induction ds with
  | nil => intro N _; simp [numLoop, digitsValFrom]
  | cons c rest ih =>
    intro N hds
    have hc : isDigitChar c = true := hds c (List.mem_cons_self ..)
    obtain ⟨hc1, hc2⟩ := digit_bounds c hc
    have hnotend : ¬(c < '0' ∨ c > '9') := by
      rw [not_or]
      constructor
      · rw [Char.not_lt, Char.le_def]; exact hc1
      · rw [gt_iff_lt, Char.not_lt, Char.le_def]; exact hc2
    rw [numLoop, if_neg hnotend]
    rw [decLoopDigit N (c.toNat - 48) (by omega)]
    exact ih (10 * N + (c.toNat - 48)) (fun x hx => hds x (List.mem_cons_of_mem _ hx))

-- ## The triage of decodeNumber on integral tokens

theorem takeWhile_all {p : Char → Bool} : ∀ {l : List Char},
    (∀ c ∈ l, p c = true) → l.takeWhile p = l := by
  intro l
  induction l with
  | nil => intro _; rfl
  | cons c rest ih =>
    intro h
    rw [List.takeWhile_cons, h c (List.mem_cons_self ..),
      ih (fun x hx => h x (List.mem_cons_of_mem _ hx))]
    simp

theorem char_minus_toNat : ('-').toNat = 45 := rfl

theorem char_plus_toNat : ('+').toNat = 43 := rfl

/-- Stripping the sign of a token that starts with a digit is the identity. -/
theorem stripSign_digits (ds : List Char) (hne : ds ≠ [])
    (hds : ∀ c ∈ ds, isDigitChar c) : stripSign ds = ds := by
  obtain ⟨c, rest, rfl⟩ : ∃ c rest, ds = c :: rest := by
    cases ds with
    | nil => exact absurd rfl hne
    | cons c rest => exact ⟨c, rest, rfl⟩
  obtain ⟨hc1, hc2⟩ := digit_bounds c (hds c (List.mem_cons_self ..))
  rw [stripSign, if_neg]
  rw [not_or]
  constructor
  · simp only [List.head?_cons, Option.some_inj]
    intro h
    rw [h, char_minus_toNat] at hc1
    omega
  · simp only [List.head?_cons, Option.some_inj]
    intro h
    rw [h, char_plus_toNat] at hc1
    omega

/-- Stripping the sign of a token that starts with a minus drops it. -/
theorem stripSign_minus (r : List Char) : stripSign ('-' :: r) = r := by
  simp [stripSign]

/-- A token made of an optional minus sign and digits passes the fallback
double grammar, so the `sscanf` of the double path succeeds on it. -/
theorem floatGrammarOk_digits (neg : Bool) (ds : List Char)
    (hne : ds ≠ []) (hds : ∀ c ∈ ds, isDigitChar c) :
    floatGrammarOk ((if neg then ['-'] else []) ++ ds) = true := by
  have hstrip : stripSign ((if neg then ['-'] else []) ++ ds) = ds := by
    cases neg with
    | true => exact stripSign_minus ds
    | false => exact stripSign_digits ds hne hds
  have hlen : 0 < ds.length := List.length_pos.mpr hne
  simp [floatGrammarOk, hstrip, takeWhile_all hds, hlen]

theorem toSigned_small (x : Nat) (h : x < TWO63) : toSigned x = (x : Int) := by
  rw [toSigned, if_pos h]

theorem toSigned_ge (x : Nat) (h : TWO63 ≤ x) : toSigned x = (x : Int) - U64 := by
  rw [toSigned, if_neg (by omega)]

/-- Characterization of `Reader::decodeNumber` on integral tokens: the value
of the digits decides the numeric domain, with the signed range winning,
then the unsigned range, then the fallback double. -/
theorem decodeNumberCore_digits (neg : Bool) (ds : List Char)
    (hne : ds ≠ []) (hds : ∀ c ∈ ds, isDigitChar c) :
    decodeNumberCore ((if neg then ['-'] else []) ++ ds)
      = (if neg then
          (if digitsVal ds ≤ TWO63 then some (.sInt (-(digitsVal ds : Int)))
            else some (.dbl (.finite ('-' :: ds))))
         else
          (if digitsVal ds < TWO63 then some (.sInt (digitsVal ds))
            else if digitsVal ds < U64 then some (.uInt (digitsVal ds))
            else some (.dbl (.finite ds)))) := by
  have hN0 := numLoop_digits ds 0 hds
  rw [Nat.zero_mod] at hN0
  rw [show decide ((0 : Nat) ≤ TWO63) = true from by rfl] at hN0
  rw [show decide ((0 : Nat) < U64) = true from by rfl] at hN0
  rw [show digitsValFrom 0 ds = digitsVal ds from rfl] at hN0
  set N := digitsVal ds with hNdef
  have hgrammar := floatGrammarOk_digits neg ds hne hds
  cases neg with
  | true =>
    simp only [if_true, List.cons_append, List.nil_append] at hgrammar ⊢
    simp only [decodeNumberCore, List.head?_cons, List.tail_cons]
    simp only [decide_True, eq_self_iff_true, if_true, Bool.true_or, Bool.and_true,
      Bool.not_true, Bool.and_false, Bool.false_eq_true, if_false, hN0]
    by_cases hsmall : N ≤ TWO63
    · rw [if_pos (by rw [decide_eq_true_eq]; exact hsmall), if_pos hsmall]
      have hmod : N % U64 = N := Nat.mod_eq_of_lt (by unfold U64 TWO63 at *; omega)
      rw [hmod, negS_small N hsmall]
    · rw [if_neg (by rw [decide_eq_true_eq]; exact hsmall), if_neg hsmall]
      rw [scanfDouble, if_pos hgrammar]
  | false =>
    simp only [Bool.false_eq_true, if_false, List.nil_append] at hgrammar ⊢
    have hhd : decide (ds.head? = some '-') = false := by
      rw [decide_eq_false_iff_not]
      obtain ⟨c, rest, rfl⟩ : ∃ c rest, ds = c :: rest := by
        cases ds with
        | nil => exact absurd rfl hne
        | cons c rest => exact ⟨c, rest, rfl⟩
      obtain ⟨hc1, hc2⟩ := digit_bounds c (hds c (List.mem_cons_self ..))
      simp only [List.head?_cons, Option.some_inj]
      intro h
      rw [h, char_minus_toNat] at hc1
      omega
    simp only [decodeNumberCore, hhd, Bool.false_eq_true, if_false, Bool.false_or,
      Bool.not_false, Bool.and_true, hN0]
    by_cases hsm : N < TWO63
    · have hmod : N % U64 = N := Nat.mod_eq_of_lt (by unfold U64 TWO63 at *; omega)
      rw [if_pos ?_, if_pos hsm]
      · rw [hmod, toSigned_small N hsm]
      · rw [Bool.and_eq_true, decide_eq_true_eq, decide_eq_true_eq]
        refine ⟨by omega, ?_⟩
        rw [hmod, toSigned_small N hsm]
        exact Int.ofNat_nonneg N
    · rw [if_neg hsm]
      by_cases hu : N < U64
      · have hmod : N % U64 = N := Nat.mod_eq_of_lt hu
        rw [if_neg ?_, if_pos (by rw [decide_eq_true_eq]; exact hu), if_pos hu, hmod]
        rw [Bool.and_eq_true, decide_eq_true_eq, decide_eq_true_eq, not_and_or]
        by_cases hN63 : N ≤ TWO63
        · right
          have hNe : N = TWO63 := by omega
          rw [hmod, hNe, toSigned_ge TWO63 (le_refl _)]
          unfold U64 TWO63
          norm_num
        · left
          exact hN63
      · rw [if_neg ?_, if_neg (by rw [decide_eq_true_eq]; exact hu), if_neg hu]
        · rw [scanfDouble, if_pos hgrammar]
        · rw [Bool.and_eq_true, decide_eq_true_eq, not_and_or]
          left
          unfold U64 TWO63 at *
          omega

/-- C1: for every integral numeric literal token (optional leading minus,
then digits, no point and no exponent), `decodeNumber` produces a signed
64-bit value iff the number fits the signed 64-bit range, an unsigned
64-bit value iff it does not fit the signed range but is non-negative and
fits the unsigned 64-bit range, and otherwise a double. -/
theorem claim_C1_number_triage (neg : Bool) (ds : List Char)
    (hne : ds ≠ []) (hds : ∀ c ∈ ds, isDigitChar c) :
    ∃ r, decodeNumberCore ((if neg then ['-'] else []) ++ ds) = some r ∧
      ((r = NumValue.sInt (intOfToken neg ds)) ↔
        (-(TWO63 : Int) ≤ intOfToken neg ds ∧ intOfToken neg ds < (TWO63 : Int))) ∧
      ((∃ u : Nat, r = NumValue.uInt u ∧ (u : Int) = intOfToken neg ds) ↔
        (¬(-(TWO63 : Int) ≤ intOfToken neg ds ∧ intOfToken neg ds < (TWO63 : Int)) ∧
          0 ≤ intOfToken neg ds ∧ intOfToken neg ds < (U64 : Int))) ∧
      ((∃ d, r = NumValue.dbl d) ↔
        (¬(-(TWO63 : Int) ≤ intOfToken neg ds ∧ intOfToken neg ds < (TWO63 : Int)) ∧
          ¬(0 ≤ intOfToken neg ds ∧ intOfToken neg ds < (U64 : Int)))) := by
  rw [decodeNumberCore_digits neg ds hne hds]
  cases neg with
  | true =>
    simp only [intOfToken, if_true]
    by_cases h : digitsVal ds ≤ TWO63
    · rw [if_pos h]
      refine ⟨_, rfl, ?_, ?_, ?_⟩
      · exact iff_of_true rfl ⟨by unfold TWO63 at *; omega, by unfold TWO63 at *; omega⟩
      · refine iff_of_false ?_ ?_
        · rintro ⟨u, hu, _⟩
          simp at hu
        · rintro ⟨hnf, _⟩
          exact hnf ⟨by unfold TWO63 at *; omega, by unfold TWO63 at *; omega⟩
      · refine iff_of_false ?_ ?_
        · rintro ⟨d, hd⟩
          simp at hd
        · rintro ⟨hnf, _⟩
          exact hnf ⟨by unfold TWO63 at *; omega, by unfold TWO63 at *; omega⟩
    · rw [if_neg h]
      refine ⟨_, rfl, ?_, ?_, ?_⟩
      · refine iff_of_false (by simp) ?_
        rintro ⟨h1, _⟩
        unfold TWO63 at *
        omega
      · refine iff_of_false ?_ ?_
        · rintro ⟨u, hu, _⟩
          simp at hu
        · rintro ⟨_, hpos, _⟩
          unfold TWO63 at *
          omega
      · refine iff_of_true ⟨_, rfl⟩ ⟨?_, ?_⟩
        · rintro ⟨h1, _⟩
          unfold TWO63 at *
          omega
        · rintro ⟨hpos, _⟩
          unfold TWO63 at *
          omega
  | false =>
    simp only [intOfToken, Bool.false_eq_true, if_false]
    by_cases h : digitsVal ds < TWO63
    · rw [if_pos h]
      refine ⟨_, rfl, ?_, ?_, ?_⟩
      · exact iff_of_true rfl ⟨by unfold TWO63 at *; omega, by unfold TWO63 at *; omega⟩
      · refine iff_of_false ?_ ?_
        · rintro ⟨u, hu, _⟩
          simp at hu
        · rintro ⟨hnf, _⟩
          exact hnf ⟨by unfold TWO63 at *; omega, by unfold TWO63 at *; omega⟩
      · refine iff_of_false ?_ ?_
        · rintro ⟨d, hd⟩
          simp at hd
        · rintro ⟨hnf, _⟩
          exact hnf ⟨by unfold TWO63 at *; omega, by unfold TWO63 at *; omega⟩
    · rw [if_neg h]
      by_cases hu : digitsVal ds < U64
      · rw [if_pos hu]
        refine ⟨_, rfl, ?_, ?_, ?_⟩
        · refine iff_of_false (by simp) ?_
          rintro ⟨_, h2⟩
          unfold TWO63 at *
          omega
        · refine iff_of_true ⟨digitsVal ds, rfl, rfl⟩ ⟨?_, ?_, ?_⟩
          · rintro ⟨_, h2⟩
            unfold TWO63 at *
            omega
          · exact Int.ofNat_nonneg _
          · unfold U64 TWO63 at *
            omega
        · refine iff_of_false ?_ ?_
          · rintro ⟨d, hd⟩
            simp at hd
          · rintro ⟨_, hnotu⟩
            refine hnotu ⟨Int.ofNat_nonneg _, ?_⟩
            unfold U64 TWO63 at *
            omega
      · rw [if_neg hu]
        refine ⟨_, rfl, ?_, ?_, ?_⟩
        · refine iff_of_false (by simp) ?_
          rintro ⟨_, h2⟩
          unfold U64 TWO63 at *
          omega
        · refine iff_of_false ?_ ?_
          · rintro ⟨u, hx, _⟩
            simp at hx
          · rintro ⟨_, _, h3⟩
            unfold U64 TWO63 at *
            omega
        · refine iff_of_true ⟨_, rfl⟩ ⟨?_, ?_⟩
          · rintro ⟨_, h2⟩
            unfold U64 TWO63 at *
            omega
          · rintro ⟨_, h2⟩
            unfold U64 TWO63 at *
            omega

/-- Witness for C1: the token `12` is decoded, and the triage equivalences
hold at it. -/
theorem claim_C1_number_triage_witness :
    ∃ r, decodeNumberCore ((if false then ['-'] else []) ++ ['1', '2']) = some r ∧
      ((r = NumValue.sInt (intOfToken false ['1', '2'])) ↔
        (-(TWO63 : Int) ≤ intOfToken false ['1', '2'] ∧
          intOfToken false ['1', '2'] < (TWO63 : Int))) ∧
      ((∃ u : Nat, r = NumValue.uInt u ∧ (u : Int) = intOfToken false ['1', '2']) ↔
        (¬(-(TWO63 : Int) ≤ intOfToken false ['1', '2'] ∧
            intOfToken false ['1', '2'] < (TWO63 : Int)) ∧
          0 ≤ intOfToken false ['1', '2'] ∧ intOfToken false ['1', '2'] < (U64 : Int))) ∧
      ((∃ d, r = NumValue.dbl d) ↔
        (¬(-(TWO63 : Int) ≤ intOfToken false ['1', '2'] ∧
            intOfToken false ['1', '2'] < (TWO63 : Int)) ∧
          ¬(0 ≤ intOfToken false ['1', '2'] ∧ intOfToken false ['1', '2'] < (U64 : Int)))) :=
  claim_C1_number_triage false ['1', '2'] (by decide) (by decide)

/-- C8: for every non-finite double, the double formatter returns "null"
when it is NaN, "1e+9999" when it is positive infinity, and "-1e+9999"
when it is negative infinity. -/
theorem claim_C8_nonfinite_double_format (d : CDouble) (h : d.isFiniteD = false) :
    (d = .nan → valueToStringDouble d = "null".toList) ∧
    (d = .inf false → valueToStringDouble d = "1e+9999".toList) ∧
    (d = .inf true → valueToStringDouble d = "-1e+9999".toList) := by
  refine ⟨?_, ?_, ?_⟩ <;> rintro rfl <;> rfl

/-- Witness for C8 at NaN. -/
theorem claim_C8_nonfinite_double_format_witness :
    CDouble.nan.isFiniteD = false ∧
    ((CDouble.nan = .nan → valueToStringDouble CDouble.nan = "null".toList) ∧
      (CDouble.nan = .inf false → valueToStringDouble CDouble.nan = "1e+9999".toList) ∧
      (CDouble.nan = .inf true → valueToStringDouble CDouble.nan = "-1e+9999".toList)) :=
  ⟨rfl, claim_C8_nonfinite_double_format CDouble.nan rfl⟩

/-- C9: after any sequence of parse and pushError calls, `good()` returns
true exactly when the accumulated error list is empty. -/
theorem claim_C9_good_iff_errors_empty (ops : List ReaderOp) (st0 : PState) :
    good (ops.foldl applyOp st0) = true ↔ (ops.foldl applyOp st0).errors_ = [] := by
  simp [good, List.length_eq_zero]

/-- C7: evaluation of both `pushError` overloads at in-range offsets
`[0, 1)` over the one-byte document "x": both return true and append one
error, but the first overload synthesizes a token ending at
`length + offset_limit = 2` (the source adds the offset limit to `end_`,
not to `begin_`), while the second overload ends it at `offset_limit = 1`
as the claim demands for both. -/
theorem claim_C7_pushError_token_end :
    (pushError1 (mkState ['x']) ((JValue.nullValue.setOffsetStart 0).setOffsetLimit 1) "m").1
        = true ∧
    (pushError1 (mkState ['x']) ((JValue.nullValue.setOffsetStart 0).setOffsetLimit 1) "m").2.errors_
        = [⟨⟨.terror, 0, 2⟩, "m", 0⟩] ∧
    (pushError2 (mkState ['x']) ((JValue.nullValue.setOffsetStart 0).setOffsetLimit 1) "m"
        ((JValue.nullValue.setOffsetStart 0).setOffsetLimit 1)).1 = true ∧
    (pushError2 (mkState ['x']) ((JValue.nullValue.setOffsetStart 0).setOffsetLimit 1) "m"
        ((JValue.nullValue.setOffsetStart 0).setOffsetLimit 1)).2.errors_
        = [⟨⟨.terror, 0, 1⟩, "m", 0⟩] :=
  ⟨rfl, rfl, rfl, rfl⟩

/-- C10: the lexer turns the documents "-" and "[-]" into a number token
holding only the minus sign, and the number decoder accepts that token as
the signed integer 0 instead of rejecting it: both documents parse with no
errors. -/
theorem claim_C10_lone_minus_zero :
    readTokenCore "-".toList 0 = (false, ⟨.tnumber, 0, 1⟩, 1) ∧
    decodeNumberCore ['-'] = some (.sInt 0) ∧
    (parse Features.all true "-".toList).1 = true ∧
    (parse Features.all true "-".toList).2.1.intVal? = some 0 ∧
    (parse Features.all true "-".toList).2.2.errors_ = [] ∧
    (parse Features.all true "[-]".toList).1 = true ∧
    ((parse Features.all true "[-]".toList).2.1.arrGet 0).bind JValue.intVal? = some 0 ∧
    (parse Features.all true "[-]".toList).2.2.errors_ = [] :=
  ⟨rfl, rfl, rfl, rfl, rfl, rfl, rfl, rfl⟩

/-- C3: evaluation of the code on the document consisting solely of the
string "\uD834": the decode loop ends with the high surrogate still
pending but performs no check after the loop, so parsing succeeds with an
empty string value and an empty error list — against the claim, which
demands failure with "Misplaced UTF-16 surrogate". -/
theorem claim_C3_lone_surrogate_accepted :
    (parse Features.all true "\"\\uD834\"".toList).1 = true ∧
    (parse Features.all true "\"\\uD834\"".toList).2.1.strVal? = some [] ∧
    (parse Features.all true "\"\\uD834\"".toList).2.2.errors_ = [] := by
  refine ⟨by decide, by decide, by decide⟩

/-- Counterexample for C6: in `[1, /*x*/ 2]` (lenient, collecting
comments) the value 2 does not carry the comment in its `Before` slot. -/
theorem claim_C6_comment_counterexample :
    ((parse Features.all true "[1, /*x*/ 2]".toList).2.1.arrGet 1).map
        (fun v => v.metaOf.commentBefore) ≠ some "/*x*/".toList := by
  decide

/-- C6 (amended): parsing `[1, /*x*/ 2]` with lenient features and comment
collection yields the array [1, 2], and the comment `/*x*/` is attached to
the value 1 in its `AfterOnSameLine` slot (the comment sits on the same
line as the previous value); the value 2 carries no comment. -/
theorem claim_C6_comment_attachment :
    (parse Features.all true "[1, /*x*/ 2]".toList).1 = true ∧
    ((parse Features.all true "[1, /*x*/ 2]".toList).2.1.arrGet 0).bind JValue.intVal?
        = some 1 ∧
    ((parse Features.all true "[1, /*x*/ 2]".toList).2.1.arrGet 1).bind JValue.intVal?
        = some 2 ∧
    ((parse Features.all true "[1, /*x*/ 2]".toList).2.1.arrGet 0).map
        (fun v => v.metaOf.commentSame) = some "/*x*/".toList ∧
    ((parse Features.all true "[1, /*x*/ 2]".toList).2.1.arrGet 0).map
        (fun v => v.metaOf.commentBefore) = some [] ∧
    ((parse Features.all true "[1, /*x*/ 2]".toList).2.1.arrGet 1).map
        (fun v => v.metaOf.commentBefore) = some [] ∧
    ((parse Features.all true "[1, /*x*/ 2]".toList).2.1.arrGet 1).map
        (fun v => v.metaOf.commentSame) = some [] :=
  ⟨rfl, rfl, rfl, rfl, rfl, rfl, rfl⟩

-- ## The unicode escape step of decodeString (C4)

theorem char_le_iff (a b : Char) : a ≤ b ↔ a.toNat ≤ b.toNat := by
  rw [Char.le_def]
  exact ⟨fun h => h, fun h => h⟩

theorem hex_cases (c : Char) (h : isHexDigitChar c = true) :
    ('0' ≤ c ∧ c ≤ '9') ∨ (¬('0' ≤ c ∧ c ≤ '9') ∧ ('a' ≤ c ∧ c ≤ 'f')) ∨
      (¬('0' ≤ c ∧ c ≤ '9') ∧ ¬('a' ≤ c ∧ c ≤ 'f') ∧ ('A' ≤ c ∧ c ≤ 'F')) := by
  simp only [isHexDigitChar, decide_eq_true_eq] at h
  rcases h with h | h | h
  · exact Or.inl h
  · refine Or.inr (Or.inl ⟨?_, h⟩)
    obtain ⟨a1, a2⟩ := h
    rw [char_le_iff] at a1 a2
    rintro ⟨b1, b2⟩
    rw [char_le_iff] at b1 b2
    simp only [show ('a').toNat = 97 from rfl, show ('f').toNat = 102 from rfl,
      show ('0').toNat = 48 from rfl, show ('9').toNat = 57 from rfl] at *
    omega
  · obtain ⟨a1, a2⟩ := h
    rw [char_le_iff] at a1 a2
    refine Or.inr (Or.inr ⟨?_, ?_, by rw [char_le_iff]; exact a1, by rw [char_le_iff]; exact a2⟩)
    · rintro ⟨b1, b2⟩
      rw [char_le_iff] at b1 b2
      simp only [show ('A').toNat = 65 from rfl, show ('F').toNat = 70 from rfl,
        show ('0').toNat = 48 from rfl, show ('9').toNat = 57 from rfl] at *
      omega
    · rintro ⟨b1, b2⟩
      rw [char_le_iff] at b1 b2
      simp only [show ('A').toNat = 65 from rfl, show ('F').toNat = 70 from rfl,
        show ('a').toNat = 97 from rfl, show ('f').toNat = 102 from rfl] at *
      omega

theorem not_hex_bounds (c : Char) (h : isHexDigitChar c = false) :
    ¬('0' ≤ c ∧ c ≤ '9') ∧ ¬('a' ≤ c ∧ c ≤ 'f') ∧ ¬('A' ≤ c ∧ c ≤ 'F') := by
  simp only [isHexDigitChar, decide_eq_false_iff_not, not_or] at h
  exact h

theorem duesGo_hex (n : Nat) (c : Char) (rest : List Char) (k acc : Nat)
    (h : isHexDigitChar c = true) :
    duesGo (n + 1) (c :: rest) k acc = duesGo n rest (k + 1) (acc * 16 + hexDigitVal c) := by
  rcases hex_cases c h with h | ⟨h1, h2⟩ | ⟨h1, h2, h3⟩
  · simp only [duesGo]
    rw [if_pos h, hexDigitVal, if_pos h]
  · simp only [duesGo]
    rw [if_neg h1, if_pos h2, hexDigitVal, if_neg h1, if_pos h2]
  · simp only [duesGo]
    rw [if_neg h1, if_neg h2, if_pos h3, hexDigitVal, if_neg h1, if_neg h2, if_pos h3]

theorem duesGo_bad (n : Nat) (c : Char) (rest : List Char) (k acc : Nat)
    (h : isHexDigitChar c = false) :
    duesGo (n + 1) (c :: rest) k acc = (k + 1, 0) := by
  obtain ⟨h1, h2, h3⟩ := not_hex_bounds c h
  simp only [duesGo]
  rw [if_neg h1, if_neg h2, if_neg h3]

theorem dues_four (h1 h2 h3 h4 : Char) (rest : List Char)
    (x1 : isHexDigitChar h1 = true) (x2 : isHexDigitChar h2 = true)
    (x3 : isHexDigitChar h3 = true) (x4 : isHexDigitChar h4 = true) :
    decodeUnicodeEscapeSequence (h1 :: h2 :: h3 :: h4 :: rest)
      = (4, hexQuad h1 h2 h3 h4) := by
  rw [decodeUnicodeEscapeSequence, if_neg (by simp)]
  rw [duesGo_hex _ _ _ _ _ x1, duesGo_hex _ _ _ _ _ x2, duesGo_hex _ _ _ _ _ x3,
    duesGo_hex _ _ _ _ _ x4]
  simp only [duesGo]
  congr 1
  rw [hexQuad]
  ring

theorem hexDigitVal_le (c : Char) : hexDigitVal c ≤ 15 := by
  rw [hexDigitVal]
  split_ifs with a b c2
  · obtain ⟨a1, a2⟩ := a
    rw [char_le_iff] at a1 a2
    simp only [show ('0').toNat = 48 from rfl, show ('9').toNat = 57 from rfl] at *
    omega
  · obtain ⟨a1, a2⟩ := b
    rw [char_le_iff] at a1 a2
    simp only [show ('a').toNat = 97 from rfl, show ('f').toNat = 102 from rfl] at *
    omega
  · obtain ⟨a1, a2⟩ := c2
    rw [char_le_iff] at a1 a2
    simp only [show ('A').toNat = 65 from rfl, show ('F').toNat = 70 from rfl] at *
    omega
  · omega

theorem hexQuad_le (h1 h2 h3 h4 : Char) : hexQuad h1 h2 h3 h4 ≤ 65535 := by
  have b1 := hexDigitVal_le h1
  have b2 := hexDigitVal_le h2
  have b3 := hexDigitVal_le h3
  have b4 := hexDigitVal_le h4
  rw [hexQuad]
  omega

theorem codePointToUTF8_length (w : Nat) (hw : w ≤ 65535) :
    (codePointToUTF8 w).length = (if w ≤ 0x7F then 1 else if w ≤ 0x7FF then 2 else 3) := by
  rw [codePointToUTF8]
  by_cases a : w ≤ 0x7F
  · rw [if_pos a, if_pos a]
    rfl
  · rw [if_neg a, if_neg a]
    by_cases b : w ≤ 0x7FF
    · rw [if_pos b, if_pos b]
      rfl
    · rw [if_neg b, if_neg b, if_pos (by omega)]
      rfl

/-- Counterexample for C4: the escape `\u0000` has four valid hexadecimal
digits whose value, zero, lies outside the surrogate ranges, yet the
decoder rejects it with "Bad escape sequence in string" (a zero result of
the escape decode is indistinguishable from a failed one), and a document
containing it fails to parse. -/
theorem claim_C4_zero_codepoint_counterexample :
    decodeStringLoop "\\u0000".toList 1 0 [] = .error ("Bad escape sequence in string", 7) ∧
    isHexDigitChar '0' = true ∧ hexQuad '0' '0' '0' '0' = 0 ∧
    (parse Features.all true "\"\\u0000\"".toList).1 = false ∧
    (parse Features.all true "\"\\u0000\"".toList).2.2.errors_.map (fun e => e.message_)
      = ["Bad escape sequence in string"] :=
  ⟨rfl, rfl, rfl, rfl, rfl⟩

set_option maxHeartbeats 1000000 in
theorem dsl_u (h1 h2 h3 h4 : Char) (rest2 : List Char) (pos surrogate : Nat) (acc : List Char) :
    decodeStringLoop ('\\' :: 'u' :: h1 :: h2 :: h3 :: h4 :: rest2) pos surrogate acc
      = (if (decodeUnicodeEscapeSequence (h1 :: h2 :: h3 :: h4 :: rest2)).2 ≠ 0 then
          if 0xD800 ≤ (decodeUnicodeEscapeSequence (h1 :: h2 :: h3 :: h4 :: rest2)).2 ∧
              (decodeUnicodeEscapeSequence (h1 :: h2 :: h3 :: h4 :: rest2)).2 ≤ 0xDBFF then
            if surrogate ≠ 0 then
              .error ("Misplaced UTF-16 surrogate",
                pos + 2 + (decodeUnicodeEscapeSequence (h1 :: h2 :: h3 :: h4 :: rest2)).1)
            else decodeStringLoop rest2
              (pos + 2 + (decodeUnicodeEscapeSequence (h1 :: h2 :: h3 :: h4 :: rest2)).1)
              (decodeUnicodeEscapeSequence (h1 :: h2 :: h3 :: h4 :: rest2)).2 acc
          else if 0xDC00 ≤ (decodeUnicodeEscapeSequence (h1 :: h2 :: h3 :: h4 :: rest2)).2 ∧
              (decodeUnicodeEscapeSequence (h1 :: h2 :: h3 :: h4 :: rest2)).2 ≤ 0xDFFF then
            if surrogate = 0 then
              .error ("Misplaced UTF-16 surrogate",
                pos + 2 + (decodeUnicodeEscapeSequence (h1 :: h2 :: h3 :: h4 :: rest2)).1)
            else decodeStringLoop rest2
              (pos + 2 + (decodeUnicodeEscapeSequence (h1 :: h2 :: h3 :: h4 :: rest2)).1) 0
              (acc ++ codePointToUTF8
                ((((decodeUnicodeEscapeSequence (h1 :: h2 :: h3 :: h4 :: rest2)).2 &&& 0x3FF) |||
                  ((surrogate &&& 0x3FF) <<< 10)) + 0x10000))
          else decodeStringLoop rest2
            (pos + 2 + (decodeUnicodeEscapeSequence (h1 :: h2 :: h3 :: h4 :: rest2)).1) surrogate
            (acc ++ codePointToUTF8 (decodeUnicodeEscapeSequence (h1 :: h2 :: h3 :: h4 :: rest2)).2)
        else
          .error ("Bad escape sequence in string",
            pos + 2 + (decodeUnicodeEscapeSequence (h1 :: h2 :: h3 :: h4 :: rest2)).1)) := rfl

set_option maxHeartbeats 1000000 in
theorem dsl_u_short (rest : List Char) (pos surrogate : Nat) (acc : List Char)
    (hlen : rest.length < 4) :
    decodeStringLoop ('\\' :: 'u' :: rest) pos surrogate acc
      = .error ("Bad escape sequence in string", pos + 2) :=
  match rest, hlen with
  | [], _ => rfl
  | [_], _ => rfl
  | [_, _], _ => rfl
  | [_, _, _], _ => rfl

/-- C4 (amended): for a `\u` escape with no pending surrogate: if exactly
four valid hexadecimal digits follow and their value is nonzero and
outside the surrogate ranges, the decoder continues past the escape having
appended the UTF-8 encoding of the code point (1 byte up to 0x7F, 2 up to
0x7FF, 3 up to 0xFFFF); it records "Bad escape sequence in string" and
fails iff fewer than four bytes remain, one of the four digits is not a
hexadecimal digit, or — the amendment — the code point is zero. -/
theorem claim_C4_unicode_escape (rest : List Char) (pos : Nat) (acc : List Char) :
    (∀ h1 h2 h3 h4 rest', rest = h1 :: h2 :: h3 :: h4 :: rest' →
      isHexDigitChar h1 = true → isHexDigitChar h2 = true →
      isHexDigitChar h3 = true → isHexDigitChar h4 = true →
      (hexQuad h1 h2 h3 h4 ≠ 0 →
        ¬(0xD800 ≤ hexQuad h1 h2 h3 h4 ∧ hexQuad h1 h2 h3 h4 ≤ 0xDFFF) →
        decodeStringLoop ('\\' :: 'u' :: rest) pos 0 acc
          = decodeStringLoop rest' (pos + 6) 0
              (acc ++ codePointToUTF8 (hexQuad h1 h2 h3 h4)) ∧
        (codePointToUTF8 (hexQuad h1 h2 h3 h4)).length
          = (if hexQuad h1 h2 h3 h4 ≤ 0x7F then 1
              else if hexQuad h1 h2 h3 h4 ≤ 0x7FF then 2 else 3)) ∧
      (hexQuad h1 h2 h3 h4 = 0 →
        decodeStringLoop ('\\' :: 'u' :: rest) pos 0 acc
          = .error ("Bad escape sequence in string", pos + 6))) ∧
    (rest.length < 4 →
      decodeStringLoop ('\\' :: 'u' :: rest) pos 0 acc
        = .error ("Bad escape sequence in string", pos + 2)) ∧
    (∀ h1 h2 h3 h4 rest', rest = h1 :: h2 :: h3 :: h4 :: rest' →
      ¬(isHexDigitChar h1 = true ∧ isHexDigitChar h2 = true ∧
        isHexDigitChar h3 = true ∧ isHexDigitChar h4 = true) →
      ∃ k, 1 ≤ k ∧ k ≤ 4 ∧
        decodeStringLoop ('\\' :: 'u' :: rest) pos 0 acc
          = .error ("Bad escape sequence in string", pos + 2 + k)) := by
  have h46 : pos + 2 + 4 = pos + 6 := by omega
  refine ⟨?_, ?_, ?_⟩
  · rintro h1 h2 h3 h4 rest' rfl x1 x2 x3 x4
    have hq := dues_four h1 h2 h3 h4 rest' x1 x2 x3 x4
    constructor
    · intro hw hsur
      refine ⟨?_, codePointToUTF8_length _ (hexQuad_le h1 h2 h3 h4)⟩
      rw [dsl_u, hq]
      dsimp only
      rw [if_pos hw]
      rw [if_neg (fun hc => hsur ⟨hc.1, by have := hc.2; omega⟩)]
      rw [if_neg (fun hc => hsur ⟨by have := hc.1; omega, hc.2⟩)]
    · intro hz
      rw [dsl_u, hq]
      dsimp only
      rw [if_neg (by simp [hz]), h46]
  · intro hlen
    exact dsl_u_short rest pos 0 acc hlen
  · rintro h1 h2 h3 h4 rest' rfl hbad
    by_cases x1 : isHexDigitChar h1
    · by_cases x2 : isHexDigitChar h2
      · by_cases x3 : isHexDigitChar h3
        · by_cases x4 : isHexDigitChar h4
          · exact absurd ⟨x1, x2, x3, x4⟩ hbad
          · refine ⟨4, by omega, by omega, ?_⟩
            have hd : decodeUnicodeEscapeSequence (h1 :: h2 :: h3 :: h4 :: rest') = (4, 0) := by
              rw [decodeUnicodeEscapeSequence, if_neg (by simp)]
              rw [duesGo_hex _ _ _ _ _ x1, duesGo_hex _ _ _ _ _ x2, duesGo_hex _ _ _ _ _ x3,
                duesGo_bad _ _ _ _ _ (by simpa using x4)]
            rw [dsl_u, hd]
            dsimp only
            rw [if_neg (by simp)]
        · refine ⟨3, by omega, by omega, ?_⟩
          have hd : decodeUnicodeEscapeSequence (h1 :: h2 :: h3 :: h4 :: rest') = (3, 0) := by
            rw [decodeUnicodeEscapeSequence, if_neg (by simp)]
            rw [duesGo_hex _ _ _ _ _ x1, duesGo_hex _ _ _ _ _ x2,
              duesGo_bad _ _ _ _ _ (by simpa using x3)]
          rw [dsl_u, hd]
          dsimp only
          rw [if_neg (by simp)]
      · refine ⟨2, by omega, by omega, ?_⟩
        have hd : decodeUnicodeEscapeSequence (h1 :: h2 :: h3 :: h4 :: rest') = (2, 0) := by
          rw [decodeUnicodeEscapeSequence, if_neg (by simp)]
          rw [duesGo_hex _ _ _ _ _ x1, duesGo_bad _ _ _ _ _ (by simpa using x2)]
        rw [dsl_u, hd]
        dsimp only
        rw [if_neg (by simp)]
    · refine ⟨1, by omega, by omega, ?_⟩
      have hd : decodeUnicodeEscapeSequence (h1 :: h2 :: h3 :: h4 :: rest') = (1, 0) := by
        rw [decodeUnicodeEscapeSequence, if_neg (by simp)]
        rw [duesGo_bad _ _ _ _ _ (by simpa using x1)]
      rw [dsl_u, hd]
      dsimp only
      rw [if_neg (by simp)]

/-- Witness for C4 at the escape `Ax`: the decoder appends the
one-byte encoding of U+0041 and continues at the byte after the digits. -/
theorem claim_C4_unicode_escape_witness :
    decodeStringLoop ('\\' :: 'u' :: "0041x".toList) 0 0 []
      = decodeStringLoop "x".toList (0 + 6) 0
          ([] ++ codePointToUTF8 (hexQuad '0' '0' '4' '1')) ∧
    (codePointToUTF8 (hexQuad '0' '0' '4' '1')).length
      = (if hexQuad '0' '0' '4' '1' ≤ 0x7F then 1
          else if hexQuad '0' '0' '4' '1' ≤ 0x7FF then 2 else 3) :=
  ((claim_C4_unicode_escape "0041x".toList 0 []).1 '0' '0' '4' '1' "x".toList
    rfl (by decide) (by decide) (by decide) (by decide)).1
    (by decide) (by decide)

-- ## Error-list preservation (C2)

theorem readToken_collect (st : PState) :
    (readToken st).2.collectComments_ = st.collectComments_ := rfl

theorem sctLoop_state (fuel : Nat) : ∀ (st : PState) (q : List Char)
    (lv : Option JValue) (attach found : Bool),
    (sctLoop fuel st q lv attach found).2.1.errors_ = st.errors_ ∧
    (sctLoop fuel st q lv attach found).2.1.doc = st.doc ∧
    (sctLoop fuel st q lv attach found).2.1.features_ = st.features_ ∧
    (sctLoop fuel st q lv attach found).2.1.collectComments_ = st.collectComments_ := by
  induction fuel with
  | zero => intro st q lv attach found; exact ⟨rfl, rfl, rfl, rfl⟩
  | succ fuel ih =>
    intro st q lv attach found
    rw [sctLoop]
    rcases hrt : readToken st with ⟨lb, st2⟩
    have he : st2.errors_ = st.errors_ := by
      have := readToken_errors st; rw [hrt] at this; exact this
    have hd : st2.doc = st.doc := by
      have := readToken_doc st; rw [hrt] at this; exact this
    have hf : st2.features_ = st.features_ := by
      have := readToken_features st; rw [hrt] at this; exact this
    have hc : st2.collectComments_ = st.collectComments_ := by
      have := readToken_collect st; rw [hrt] at this; exact this
    dsimp only
    by_cases ht : st2.token_.type_ ≠ .comment
    · rw [if_pos ht]
      exact ⟨he, hd, hf, hc⟩
    · rw [if_neg ht]
      by_cases ha : st2.features_.allowComments_
      · rw [if_pos ha]
        obtain ⟨a, b, c, d⟩ := ih st2 _ _ (if lb then false else attach) true
        exact ⟨a.trans he, b.trans hd, c.trans hf, d.trans hc⟩
      · rw [if_neg ha]
        exact ⟨he, hd, hf, hc⟩

theorem skipCommentTokens_state (st : PState) (q : List Char) (lv : Option JValue) :
    (skipCommentTokens st q lv).2.1.errors_ = st.errors_ ∧
    (skipCommentTokens st q lv).2.1.doc = st.doc ∧
    (skipCommentTokens st q lv).2.1.features_ = st.features_ ∧
    (skipCommentTokens st q lv).2.1.collectComments_ = st.collectComments_ := by
  unfold skipCommentTokens
  cases lv with
  | none => exact sctLoop_state _ st q none false false
  | some v =>
    dsimp only
    by_cases hq : q ≠ []
    · rw [if_pos hq]
      exact sctLoop_state _ st [] (some (v.setCommentAfter q)) false false
    · rw [if_neg hq]
      exact sctLoop_state _ st q (some v) true false

theorem decodeStringV_success (st : PState) (cur : JValue)
    (h : (decodeStringV st cur).1 = true) : (decodeStringV st cur).2.2 = st := by
  unfold decodeStringV at h ⊢
  rcases hres : decodeStringCore st.doc st.token_ with ⟨m, x⟩ | s
  · rw [hres] at h
    simp at h
  · rfl

theorem decodeNumberV_success (st : PState) (cur : JValue)
    (h : (decodeNumberV st cur).1 = true) : (decodeNumberV st cur).2.2 = st := by
  unfold decodeNumberV at h ⊢
  rcases hres : decodeNumberCore (tokenText st.doc st.token_) with _ | v
  · rw [hres] at h
    simp at h
  · rcases v with n | n | d <;> rfl

theorem walk_success_errors : ∀ fuel : Nat,
    (∀ st cur, (readValue fuel st cur).1 = true →
      (readValue fuel st cur).2.2.errors_ = st.errors_) ∧
    (∀ st cur, (readArray fuel st cur).1 = true →
      (readArray fuel st cur).2.2.errors_ = st.errors_) ∧
    (∀ st xs q hl, (readArrayLoop fuel st xs q hl).1 = true →
      (readArrayLoop fuel st xs q hl).2.2.2.2.2.errors_ = st.errors_) ∧
    (∀ st cur, (readObject fuel st cur).1 = true →
      (readObject fuel st cur).2.2.errors_ = st.errors_) ∧
    (∀ st ms q ln, (readObjectLoop fuel st ms q ln).1 = true →
      (readObjectLoop fuel st ms q ln).2.2.2.2.2.errors_ = st.errors_) := by
  intro fuel
  induction fuel with
  | zero =>
    refine ⟨?_, ?_, ?_, ?_, ?_⟩
    · intro st cur h; simp [readValue] at h
    · intro st cur h; simp [readArray] at h
    · intro st xs q hl h; simp [readArrayLoop] at h
    · intro st cur h; simp [readObject] at h
    · intro st ms q ln h; simp [readObjectLoop] at h
  | succ fuel ih =>
    obtain ⟨ihV, ihA, ihAL, ihO, ihOL⟩ := ih
    refine ⟨?_, ?_, ?_, ?_, ?_⟩
    · -- readValue
      intro st cur h
      unfold readValue at h ⊢
      cases hty : st.token_.type_ <;>
        simp only [hty] at h ⊢ <;>
        first
          | rfl
          | exact absurd h Bool.false_ne_true
          | skip
      case objectBegin =>
        rcases hE : readObject fuel st (cur.setOffsetStart st.token_.start_)
          with ⟨ok, cur2, st2⟩
        try rw [hE] at h
        try rw [hE]
        have h2 := ihO st (cur.setOffsetStart st.token_.start_)
        rw [hE] at h2
        exact h2 h
      case arrayBegin =>
        rcases hE : readArray fuel st (cur.setOffsetStart st.token_.start_)
          with ⟨ok, cur2, st2⟩
        try rw [hE] at h
        try rw [hE]
        have h2 := ihA st (cur.setOffsetStart st.token_.start_)
        rw [hE] at h2
        exact h2 h
      case tnumber =>
        rcases hE : decodeNumberV st (cur.setOffsetStart st.token_.start_)
          with ⟨ok, cur2, st2⟩
        try rw [hE] at h
        try rw [hE]
        have h2 := decodeNumberV_success st (cur.setOffsetStart st.token_.start_)
        rw [hE] at h2
        exact congrArg PState.errors_ (h2 h)
      case tstring =>
        rcases hE : decodeStringV st (cur.setOffsetStart st.token_.start_)
          with ⟨ok, cur2, st2⟩
        try rw [hE] at h
        try rw [hE]
        have h2 := decodeStringV_success st (cur.setOffsetStart st.token_.start_)
        rw [hE] at h2
        exact congrArg PState.errors_ (h2 h)
      case arraySeparator =>
        by_cases ha : st.features_.allowDroppedNullPlaceholders_ = true
        · rw [if_pos ha] at h ⊢
        · rw [if_neg ha] at h
          exact absurd h Bool.false_ne_true
    · -- readArray
      intro st cur h
      unfold readArray at h ⊢
      try dsimp only at h ⊢
      rcases hL : readArrayLoop fuel st [] [] false with ⟨ok, cm, xs, q, hl, st2⟩
      try rw [hL] at h
      try rw [hL]
      have hst2 : ok = true → st2.errors_ = st.errors_ := by
        intro hok
        have h2 := ihAL st [] [] false
        rw [hL] at h2
        exact h2 hok
      try dsimp only at h ⊢
      by_cases hok : ok = true
      · rw [if_neg (by simp [hok])] at h ⊢
        by_cases ht2 : st2.token_.type_ ≠ .arrayEnd
        · rw [if_pos ht2] at h
          exact absurd h Bool.false_ne_true
        · rw [if_neg ht2] at h ⊢
          by_cases hc : cm = true
          · rw [if_pos hc] at h ⊢
            by_cases hhl : hl = true
            · rw [if_neg (by simp [hhl])] at h ⊢
              by_cases hq : q ≠ []
              · rw [if_pos hq] at h ⊢
                exact hst2 hok
              · rw [if_neg hq] at h ⊢
                exact hst2 hok
            · rw [if_pos (by simp [hhl])] at h ⊢
              exact hst2 hok
          · rw [if_neg hc] at h ⊢
            exact hst2 hok
      · rw [if_pos (by simp [hok])] at h
        exact absurd h Bool.false_ne_true
    · -- readArrayLoop
      intro st xs q hl h
      unfold readArrayLoop at h ⊢
      try dsimp only at h ⊢
      rcases hS : skipCommentTokens st q (if hl = true then xs.getLast? else none)
        with ⟨c1, s1, q1, l1⟩
      try rw [hS] at h
      try rw [hS]
      try dsimp only at h ⊢
      have hs1 : s1.errors_ = st.errors_ := by
        have h2 := (skipCommentTokens_state st q (if hl = true then xs.getLast? else none)).1
        rw [hS] at h2
        exact h2
      by_cases hbrk : s1.token_.type_ = .arrayEnd ∧
          (¬hl = true ∨ s1.features_.allowDroppedNullPlaceholders_ = true)
      · rw [if_pos hbrk] at h ⊢
        exact hs1
      · rw [if_neg hbrk] at h ⊢
        by_cases hq1 : q1 ≠ []
        · rw [if_pos hq1] at h ⊢
          try dsimp only at h ⊢
          rcases hV : readValue fuel s1 (JValue.nullValue.setCommentBefore q1)
            with ⟨ok, ch2, s2⟩
          try rw [hV] at h
          try rw [hV]
          try dsimp only at h ⊢
          by_cases hok : ok = true
          · have hs2 : s2.errors_ = s1.errors_ := by
              have h2 := ihV s1 (JValue.nullValue.setCommentBefore q1)
              rw [hV] at h2
              exact h2 hok
            rw [if_neg (by simp [hok])] at h ⊢
            by_cases hsep : s2.token_.type_ ≠ .arraySeparator
            · rw [if_pos hsep] at h ⊢
              try dsimp only at h ⊢
              rcases hS2 : skipCommentTokens s2 [] (some ch2) with ⟨c2, s3, q2, l2⟩
              try rw [hS2] at h
              try rw [hS2]
              try dsimp only at h ⊢
              have hs3 : s3.errors_ = s2.errors_ := by
                have h2 := (skipCommentTokens_state s2 [] (some ch2)).1
                rw [hS2] at h2
                exact h2
              by_cases hsep2 : s3.token_.type_ = .arraySeparator
              · rw [if_pos hsep2] at h ⊢
                have h2 := ihAL s3
                  (setLastElem ((if hl = true then setLastElem xs l1 else xs)
                    ++ [ch2]) l2) q2 true
                exact (h2 h).trans (hs3.trans (hs2.trans hs1))
              · rw [if_neg hsep2] at h ⊢
                exact hs3.trans (hs2.trans hs1)
            · rw [if_neg (by simpa using hsep)] at h ⊢
              have h2 := ihAL s2
                ((if hl = true then setLastElem xs l1 else xs) ++ [ch2]) [] true
              exact (h2 h).trans (hs2.trans hs1)
          · rw [if_pos (by simp [hok])] at h
            exact absurd h Bool.false_ne_true
        · rw [if_neg hq1] at h ⊢
          try dsimp only at h ⊢
          rcases hV : readValue fuel s1 JValue.nullValue with ⟨ok, ch2, s2⟩
          try rw [hV] at h
          try rw [hV]
          try dsimp only at h ⊢
          by_cases hok : ok = true
          · have hs2 : s2.errors_ = s1.errors_ := by
              have h2 := ihV s1 JValue.nullValue
              rw [hV] at h2
              exact h2 hok
            rw [if_neg (by simp [hok])] at h ⊢
            by_cases hsep : s2.token_.type_ ≠ .arraySeparator
            · rw [if_pos hsep] at h ⊢
              try dsimp only at h ⊢
              rcases hS2 : skipCommentTokens s2 q1 (some ch2) with ⟨c2, s3, q2, l2⟩
              try rw [hS2] at h
              try rw [hS2]
              try dsimp only at h ⊢
              have hs3 : s3.errors_ = s2.errors_ := by
                have h2 := (skipCommentTokens_state s2 q1 (some ch2)).1
                rw [hS2] at h2
                exact h2
              by_cases hsep2 : s3.token_.type_ = .arraySeparator
              · rw [if_pos hsep2] at h ⊢
                have h2 := ihAL s3
                  (setLastElem ((if hl = true then setLastElem xs l1 else xs)
                    ++ [ch2]) l2) q2 true
                exact (h2 h).trans (hs3.trans (hs2.trans hs1))
              · rw [if_neg hsep2] at h ⊢
                exact hs3.trans (hs2.trans hs1)
            · rw [if_neg (by simpa using hsep)] at h ⊢
              have h2 := ihAL s2
                ((if hl = true then setLastElem xs l1 else xs) ++ [ch2]) q1 true
              exact (h2 h).trans (hs2.trans hs1)
          · rw [if_pos (by simp [hok])] at h
            exact absurd h Bool.false_ne_true
    · -- readObject
      intro st cur h
      unfold readObject at h ⊢
      try dsimp only at h ⊢
      rcases hL : readObjectLoop fuel st [] [] none with ⟨ok, cm, ms, q, ln, st2⟩
      try rw [hL] at h
      try rw [hL]
      have hst2 : ok = true → st2.errors_ = st.errors_ := by
        intro hok
        have h2 := ihOL st [] [] none
        rw [hL] at h2
        exact h2 hok
      try dsimp only at h ⊢
      by_cases hok : ok = true
      · rw [if_neg (by simp [hok])] at h ⊢
        by_cases ht2 : st2.token_.type_ ≠ .objectEnd
        · rw [if_pos ht2] at h
          exact absurd h Bool.false_ne_true
        · rw [if_neg ht2] at h ⊢
          by_cases hc : cm = true
          · rw [if_pos hc] at h ⊢
            cases ln with
            | none => exact hst2 hok
            | some nm =>
              try dsimp only at h ⊢
              by_cases hq : q ≠ []
              · rw [if_pos hq] at h ⊢
                exact hst2 hok
              · rw [if_neg hq] at h ⊢
                exact hst2 hok
          · rw [if_neg hc] at h ⊢
            exact hst2 hok
      · rw [if_pos (by simp [hok])] at h
        exact absurd h Bool.false_ne_true
    · -- readObjectLoop
      intro st ms q ln h
      unfold readObjectLoop at h ⊢
      try dsimp only at h ⊢
      rcases hS : skipCommentTokens st q (ln.bind (objFind ms)) with ⟨c1, s1, q1, l1⟩
      try rw [hS] at h
      try rw [hS]
      try dsimp only at h ⊢
      have hs1 : s1.errors_ = st.errors_ := by
        have h2 := (skipCommentTokens_state st q (ln.bind (objFind ms))).1
        rw [hS] at h2
        exact h2
      by_cases hbrk : s1.token_.type_ = .objectEnd ∧
          (ln.isNone = true ∨ s1.features_.allowDroppedNullPlaceholders_ = true)
      · rw [if_pos hbrk] at h ⊢
        exact hs1
      · rw [if_neg hbrk] at h ⊢
        rcases hN : readObjectName s1 with ⟨m, x⟩ | name
        · try rw [hN] at h
          exact absurd h Bool.false_ne_true
        · try rw [hN] at h
          try rw [hN]
          try dsimp only at h ⊢
          rcases hS2 : skipCommentTokens s1 q1 none with ⟨c2, s2, q2, l2⟩
          try rw [hS2] at h
          try rw [hS2]
          try dsimp only at h ⊢
          have hs2 : s2.errors_ = s1.errors_ := by
            have h2 := (skipCommentTokens_state s1 q1 none).1
            rw [hS2] at h2
            exact h2
          by_cases hmem : s2.token_.type_ ≠ .memberSeparator
          · rw [if_pos hmem] at h
            exact absurd h Bool.false_ne_true
          · rw [if_neg hmem] at h ⊢
            rcases hS3 : skipCommentTokens s2 q2 none with ⟨c3, s3, q3, l3⟩
            try rw [hS3] at h
            try rw [hS3]
            try dsimp only at h ⊢
            have hs3 : s3.errors_ = s2.errors_ := by
              have h2 := (skipCommentTokens_state s2 q2 none).1
              rw [hS3] at h2
              exact h2
            rcases ln with _ | nm <;> rcases l1 with _ | v <;>
              try dsimp only at h ⊢ <;>
              (first
                | generalize hM : objSet ms nm v = msX at h ⊢
                | generalize hM : ms = msX at h ⊢) <;>
              (by_cases hq3 : q3 ≠ []
               · rw [if_pos hq3] at h ⊢
                 try dsimp only at h ⊢
                 rcases hV : readValue fuel s3
                     (((objFind msX name).getD JValue.nullValue).setCommentBefore q3)
                   with ⟨ok, ch2, s4⟩
                 try rw [hV] at h
                 try rw [hV]
                 try dsimp only at h ⊢
                 by_cases hok : ok = true
                 · have hs4 : s4.errors_ = s3.errors_ := by
                     have h2 := ihV s3
                       (((objFind msX name).getD JValue.nullValue).setCommentBefore q3)
                     rw [hV] at h2
                     exact h2 hok
                   rw [if_neg (by simp [hok])] at h ⊢
                   by_cases hsep : s4.token_.type_ ≠ .arraySeparator
                   · rw [if_pos hsep] at h ⊢
                     try dsimp only at h ⊢
                     rcases hS4 : skipCommentTokens s4 [] (some ch2) with ⟨c4, s5, q4, l4⟩
                     try rw [hS4] at h
                     try rw [hS4]
                     try dsimp only at h ⊢
                     have hs5 : s5.errors_ = s4.errors_ := by
                       have h2 := (skipCommentTokens_state s4 [] (some ch2)).1
                       rw [hS4] at h2
                       exact h2
                     by_cases hsep2 : s5.token_.type_ = .arraySeparator
                     · rw [if_pos hsep2] at h ⊢
                       refine (ihOL s5 _ q4 (some name) h).trans ?_
                       exact hs5.trans (hs4.trans (hs3.trans (hs2.trans hs1)))
                     · rw [if_neg hsep2] at h ⊢
                       exact hs5.trans (hs4.trans (hs3.trans (hs2.trans hs1)))
                   · rw [if_neg (by simpa using hsep)] at h ⊢
                     refine (ihOL s4 _ [] (some name) h).trans ?_
                     exact hs4.trans (hs3.trans (hs2.trans hs1))
                 · rw [if_pos (by simp [hok])] at h
                   exact absurd h Bool.false_ne_true
               · rw [if_neg hq3] at h ⊢
                 try dsimp only at h ⊢
                 rcases hV : readValue fuel s3 ((objFind msX name).getD JValue.nullValue)
                   with ⟨ok, ch2, s4⟩
                 try rw [hV] at h
                 try rw [hV]
                 try dsimp only at h ⊢
                 by_cases hok : ok = true
                 · have hs4 : s4.errors_ = s3.errors_ := by
                     have h2 := ihV s3 ((objFind msX name).getD JValue.nullValue)
                     rw [hV] at h2
                     exact h2 hok
                   rw [if_neg (by simp [hok])] at h ⊢
                   by_cases hsep : s4.token_.type_ ≠ .arraySeparator
                   · rw [if_pos hsep] at h ⊢
                     try dsimp only at h ⊢
                     rcases hS4 : skipCommentTokens s4 q3 (some ch2) with ⟨c4, s5, q4, l4⟩
                     try rw [hS4] at h
                     try rw [hS4]
                     try dsimp only at h ⊢
                     have hs5 : s5.errors_ = s4.errors_ := by
                       have h2 := (skipCommentTokens_state s4 q3 (some ch2)).1
                       rw [hS4] at h2
                       exact h2
                     by_cases hsep2 : s5.token_.type_ = .arraySeparator
                     · rw [if_pos hsep2] at h ⊢
                       refine (ihOL s5 _ q4 (some name) h).trans ?_
                       exact hs5.trans (hs4.trans (hs3.trans (hs2.trans hs1)))
                     · rw [if_neg hsep2] at h ⊢
                       exact hs5.trans (hs4.trans (hs3.trans (hs2.trans hs1)))
                   · rw [if_neg (by simpa using hsep)] at h ⊢
                     refine (ihOL s4 _ q3 (some name) h).trans ?_
                     exact hs4.trans (hs3.trans (hs2.trans hs1))
                 · rw [if_pos (by simp [hok])] at h
                   exact absurd h Bool.false_ne_true)

theorem parseAux_success_errors (features : Features) (collect : Bool) (doc : List Char) :
    (parseAux features collect doc).successful = true →
    (parseAux features collect doc).errorsAfterWalk = [] := by
  intro h
  unfold parseAux at h ⊢
  try dsimp only at h ⊢
  have hs0 := (skipCommentTokens_state
    (⟨doc, 0, ⟨.endOfStream, 0, 0⟩, [], features,
      if ¬features.allowComments_ = true then false else collect⟩ : PState) [] none).1
  rcases hS : skipCommentTokens
      (⟨doc, 0, ⟨.endOfStream, 0, 0⟩, [], features,
        if ¬features.allowComments_ = true then false else collect⟩ : PState) [] none
    with ⟨c0, s0, q0, l0⟩
  try rw [hS] at h
  try rw [hS]
  try rw [hS] at hs0
  try dsimp only at h hs0 ⊢
  by_cases hsr : features.strictRoot_ = true ∧ s0.token_.type_ ≠ .arrayBegin ∧
      s0.token_.type_ ≠ .objectBegin
  · rw [if_pos hsr] at h
    exact absurd h Bool.false_ne_true
  · rw [if_neg hsr] at h ⊢
    rcases hV : readValue (parseFuel doc)
        s0 (if q0 ≠ [] then JValue.nullValue.setCommentBefore q0 else JValue.nullValue)
      with ⟨ok, r1, s1⟩
    try rw [hV] at h
    try rw [hV]
    try dsimp only at h ⊢
    have hs1 : s1.errors_ = s0.errors_ := by
      have h2 := (walk_success_errors (parseFuel doc)).1
        s0 (if q0 ≠ [] then JValue.nullValue.setCommentBefore q0 else JValue.nullValue)
      rw [hV] at h2
      exact h2 h
    rcases hS2 : skipCommentTokens s1 [] (some r1) with ⟨c2, s2, q2, l2⟩
    try rw [hS2] at h
    try rw [hS2]
    try dsimp only at h ⊢
    exact hs1.trans hs0

/-- C2: for every input document and feature configuration, `parse` returns
true iff the recursive value walk succeeded and the error list was empty at
that moment; in particular `parse` never returns true while errors remain
recorded.  (`parse` returns just the walk flag; success of the walk provably
implies that the error list, cleared on entry, is still empty.) -/
theorem claim_C2_parse_success_iff (features : Features) (collect : Bool)
    (doc : List Char) :
    (parse features collect doc).1 = true ↔
      ((parseAux features collect doc).successful = true ∧
       (parseAux features collect doc).errorsAfterWalk = []) := by
  constructor
  · intro h
    have hs : (parseAux features collect doc).successful = true := h
    exact ⟨hs, parseAux_success_errors features collect doc hs⟩
  · intro h
    exact h.1

/-- C5, counterexample to the unrestricted claim: the NaN double value has
no comments, yet its compact serialization is the token `null` (plus the
final line feed), which parses back to a null value, not to a real; the
round trip changes the value while reporting success. -/
theorem claim_C5_roundtrip_counterexample :
    (parse Features.all true (fastWrite {} (.vreal .nan {}))).1 = true ∧
    jEq (parse Features.all true (fastWrite {} (.vreal .nan {}))).2.1
      (.vreal .nan {}) = false :=
  ⟨by decide, by decide⟩

-- ## Round trip: list and character basics

theorem dropAdd (doc : List Char) (p k : Nat) :
    doc.drop (p + k) = (doc.drop p).drop k := (List.drop_drop k p doc).symm

theorem char_eq_iff (a b : Char) : a = b ↔ a.toNat = b.toNat := by
  constructor
  · intro h
    rw [h]
  · intro h
    have h2 := congrArg Char.ofNat h
    rwa [Char.ofNat_toNat, Char.ofNat_toNat] at h2

theorem notWs (c : Char) (l : List Char) (h13 : c.toNat ≠ 13) (h10 : c.toNat ≠ 10)
    (h32 : c.toNat ≠ 32) (h9 : c.toNat ≠ 9) : wsScan (c :: l) = (0, false) := by
  have h1 : ¬(c = '\r' ∨ c = '\n') := by
    rintro (rfl | rfl)
    · exact h13 rfl
    · exact h10 rfl
  have h2 : ¬(c = ' ' ∨ c = '\t') := by
    rintro (rfl | rfl)
    · exact h32 rfl
    · exact h9 rfl
  unfold wsScan
  rw [if_neg h1, if_neg h2]

theorem termChar_cases (t : Char) (h : termChar t = true) :
    t = ',' ∨ t = ']' ∨ t = '\x7d' ∨ t = '\n' := by
  simpa [termChar] using h

theorem headTerm_cons (rest : List Char) (h : headTerm rest = true) :
    ∃ t r, rest = t :: r ∧ termChar t = true := by
  cases rest with
  | nil => simp [headTerm] at h
  | cons t r => exact ⟨t, r, rfl, by simpa [headTerm] using h⟩

theorem takeWhile_append_stop {p' : Char → Bool} : ∀ (ds rest : List Char),
    (∀ c ∈ ds, p' c = true) → (∀ c, rest.head? = some c → p' c = false) →
    (ds ++ rest).takeWhile p' = ds := by
  intro ds
  induction ds with
  | nil =>
    intro rest _ hrest
    cases rest with
    | nil => rfl
    | cons c r =>
      simp [List.takeWhile_cons, hrest c rfl]
  | cons c ds ih =>
    intro rest hds hrest
    simp [List.takeWhile_cons, hds c (List.mem_cons_self ..),
      ih rest (fun x hx => hds x (List.mem_cons_of_mem _ hx)) hrest]

theorem countDigits_prefix (ds rest : List Char)
    (hds : ∀ c ∈ ds, isDigitChar c = true)
    (hrest : ∀ c, rest.head? = some c → isDigitChar c = false) :
    countDigits (ds ++ rest) = ds.length := by
  unfold countDigits
  rw [takeWhile_append_stop ds rest hds hrest]

theorem term_not_digit (t : Char) (h : termChar t = true) : isDigitChar t = false := by
  rcases termChar_cases t h with rfl | rfl | rfl | rfl <;> decide

theorem readNumberEnd_term (doc : List Char) (p : Nat) (ds : List Char)
    (t : Char) (r : List Char) (h : doc.drop p = ds ++ t :: r)
    (hds : ∀ c ∈ ds, isDigitChar c = true) (ht : termChar t = true) :
    readNumberEnd doc p = p + ds.length := by
  have h1 : countDigits (doc.drop p) = ds.length := by
    rw [h]
    refine countDigits_prefix ds (t :: r) hds ?_
    intro c hc
    cases hc
    exact term_not_digit t ht
  have hdrop : doc.drop (p + ds.length) = t :: r := by
    rw [dropAdd, h, List.drop_left]
  unfold readNumberEnd
  dsimp only
  rw [h1]
  rcases termChar_cases t ht with rfl | rfl | rfl | rfl <;> simp [hdrop]

theorem digit_lex_conds (c : Char) (h : isDigitChar c = true) :
    ¬(c.toNat = 0) ∧ c ≠ '\x7b' ∧ c ≠ '\x7d' ∧ c ≠ '[' ∧ c ≠ ']' ∧
      c ≠ '"' ∧ c ≠ '/' := by
  obtain ⟨h1, h2⟩ := digit_bounds c h
  refine ⟨by omega, ?_, ?_, ?_, ?_, ?_, ?_⟩ <;>
    (rw [Ne, char_eq_iff]
     simp only [show ('\x7b').toNat = 123 from rfl, show ('\x7d').toNat = 125 from rfl,
       show ('[').toNat = 91 from rfl, show (']').toNat = 93 from rfl,
       show ('"').toNat = 34 from rfl, show ('/').toNat = 47 from rfl]
     omega)

-- ## Round trip: the lexer on compact output

theorem lex_lbracket (doc : List Char) (p : Nat) (rest : List Char)
    (h : doc.drop p = '[' :: rest) :
    readTokenCore doc p = (false, ⟨.arrayBegin, p, p + 1⟩, p + 1) := by
  have h0 : wsScan (doc.drop p) = (0, false) := by
    rw [h]; exact notWs _ _ (by decide) (by decide) (by decide) (by decide)
  unfold readTokenCore
  rw [h0]
  dsimp only
  try rw [Nat.add_zero]
  rw [h]
  simp [isDigitChar]

theorem lex_rbracket (doc : List Char) (p : Nat) (rest : List Char)
    (h : doc.drop p = ']' :: rest) :
    readTokenCore doc p = (false, ⟨.arrayEnd, p, p + 1⟩, p + 1) := by
  have h0 : wsScan (doc.drop p) = (0, false) := by
    rw [h]; exact notWs _ _ (by decide) (by decide) (by decide) (by decide)
  unfold readTokenCore
  rw [h0]
  dsimp only
  try rw [Nat.add_zero]
  rw [h]
  simp [isDigitChar]

theorem lex_lbrace (doc : List Char) (p : Nat) (rest : List Char)
    (h : doc.drop p = '\x7b' :: rest) :
    readTokenCore doc p = (false, ⟨.objectBegin, p, p + 1⟩, p + 1) := by
  have h0 : wsScan (doc.drop p) = (0, false) := by
    rw [h]; exact notWs _ _ (by decide) (by decide) (by decide) (by decide)
  unfold readTokenCore
  rw [h0]
  dsimp only
  try rw [Nat.add_zero]
  rw [h]
  simp [isDigitChar]

theorem lex_rbrace (doc : List Char) (p : Nat) (rest : List Char)
    (h : doc.drop p = '\x7d' :: rest) :
    readTokenCore doc p = (false, ⟨.objectEnd, p, p + 1⟩, p + 1) := by
  have h0 : wsScan (doc.drop p) = (0, false) := by
    rw [h]; exact notWs _ _ (by decide) (by decide) (by decide) (by decide)
  unfold readTokenCore
  rw [h0]
  dsimp only
  try rw [Nat.add_zero]
  rw [h]
  simp [isDigitChar]

theorem lex_comma (doc : List Char) (p : Nat) (rest : List Char)
    (h : doc.drop p = ',' :: rest) :
    readTokenCore doc p = (false, ⟨.arraySeparator, p, p + 1⟩, p + 1) := by
  have h0 : wsScan (doc.drop p) = (0, false) := by
    rw [h]; exact notWs _ _ (by decide) (by decide) (by decide) (by decide)
  unfold readTokenCore
  rw [h0]
  dsimp only
  try rw [Nat.add_zero]
  rw [h]
  simp [isDigitChar]

theorem lex_colon (doc : List Char) (p : Nat) (rest : List Char)
    (h : doc.drop p = ':' :: rest) :
    readTokenCore doc p = (false, ⟨.memberSeparator, p, p + 1⟩, p + 1) := by
  have h0 : wsScan (doc.drop p) = (0, false) := by
    rw [h]; exact notWs _ _ (by decide) (by decide) (by decide) (by decide)
  unfold readTokenCore
  rw [h0]
  dsimp only
  try rw [Nat.add_zero]
  rw [h]
  simp [isDigitChar]

theorem lex_null (doc : List Char) (p : Nat) (rest : List Char)
    (h : doc.drop p = 'n' :: 'u' :: 'l' :: 'l' :: rest) :
    readTokenCore doc p = (false, ⟨.tnull, p, p + 4⟩, p + 4) := by
  have h0 : wsScan (doc.drop p) = (0, false) := by
    rw [h]; exact notWs _ _ (by decide) (by decide) (by decide) (by decide)
  have h1 : doc.drop (p + 1) = 'u' :: 'l' :: 'l' :: rest := by
    rw [dropAdd, h]; rfl
  have e4 : p + 1 + 3 = p + 4 := by omega
  unfold readTokenCore
  rw [h0]
  dsimp only
  try rw [Nat.add_zero]
  rw [h]
  simp [isDigitChar, matchKw, h1, e4]

theorem lex_true (doc : List Char) (p : Nat) (rest : List Char)
    (h : doc.drop p = 't' :: 'r' :: 'u' :: 'e' :: rest) :
    readTokenCore doc p = (false, ⟨.ttrue, p, p + 4⟩, p + 4) := by
  have h0 : wsScan (doc.drop p) = (0, false) := by
    rw [h]; exact notWs _ _ (by decide) (by decide) (by decide) (by decide)
  have h1 : doc.drop (p + 1) = 'r' :: 'u' :: 'e' :: rest := by
    rw [dropAdd, h]; rfl
  have e4 : p + 1 + 3 = p + 4 := by omega
  unfold readTokenCore
  rw [h0]
  dsimp only
  try rw [Nat.add_zero]
  rw [h]
  simp [isDigitChar, matchKw, h1, e4]

theorem lex_false (doc : List Char) (p : Nat) (rest : List Char)
    (h : doc.drop p = 'f' :: 'a' :: 'l' :: 's' :: 'e' :: rest) :
    readTokenCore doc p = (false, ⟨.tfalse, p, p + 5⟩, p + 5) := by
  have h0 : wsScan (doc.drop p) = (0, false) := by
    rw [h]; exact notWs _ _ (by decide) (by decide) (by decide) (by decide)
  have h1 : doc.drop (p + 1) = 'a' :: 'l' :: 's' :: 'e' :: rest := by
    rw [dropAdd, h]; rfl
  have e5 : p + 1 + 4 = p + 5 := by omega
  unfold readTokenCore
  rw [h0]
  dsimp only
  try rw [Nat.add_zero]
  rw [h]
  simp [isDigitChar, matchKw, h1, e5]

theorem lex_eos_newline (doc : List Char) (p : Nat)
    (h : doc.drop p = ['\n']) :
    readTokenCore doc p = (true, ⟨.endOfStream, p + 1, p + 1⟩, p + 1) := by
  have h0 : wsScan (doc.drop p) = (1, true) := by
    rw [h]; decide
  have h1 : doc.drop (p + 1) = [] := by
    rw [dropAdd, h]; rfl
  unfold readTokenCore
  rw [h0]
  dsimp only
  rw [h1]
  rfl

theorem lex_number_neg (doc : List Char) (p : Nat) (ds : List Char)
    (t : Char) (r : List Char)
    (hds : ∀ c ∈ ds, isDigitChar c = true)
    (h : doc.drop p = '-' :: ds ++ t :: r)
    (ht : termChar t = true) :
    readTokenCore doc p =
      (false, ⟨.tnumber, p, p + (ds.length + 1)⟩, p + (ds.length + 1)) := by
  have h0 : wsScan (doc.drop p) = (0, false) := by
    rw [h]; exact notWs _ _ (by decide) (by decide) (by decide) (by decide)
  have h1 : doc.drop (p + 1) = ds ++ t :: r := by
    rw [dropAdd, h]; rfl
  have hend : readNumberEnd doc (p + 1) = p + 1 + ds.length :=
    readNumberEnd_term doc (p + 1) ds t r h1 hds ht
  have e1 : p + 1 + ds.length = p + (ds.length + 1) := by omega
  unfold readTokenCore
  rw [h0]
  dsimp only
  try rw [Nat.add_zero]
  rw [h]
  simp [isDigitChar, hend, e1]

theorem lex_number_pos (doc : List Char) (p : Nat) (ds : List Char)
    (t : Char) (r : List Char)
    (hne : ds ≠ []) (hds : ∀ c ∈ ds, isDigitChar c = true)
    (h : doc.drop p = ds ++ t :: r)
    (ht : termChar t = true) :
    readTokenCore doc p =
      (false, ⟨.tnumber, p, p + ds.length⟩, p + ds.length) := by
  obtain ⟨d, ds', rfl⟩ : ∃ d ds', ds = d :: ds' := by
    cases ds with
    | nil => exact absurd rfl hne
    | cons d ds' => exact ⟨d, ds', rfl⟩
  have hd : isDigitChar d = true := hds d (List.mem_cons_self ..)
  obtain ⟨hb1, hb2⟩ := digit_bounds d hd
  obtain ⟨c0, c1, c2, c3, c4, c5, c6⟩ := digit_lex_conds d hd
  have h0 : wsScan (doc.drop p) = (0, false) := by
    rw [h]
    exact notWs _ _ (by omega) (by omega) (by omega) (by omega)
  have h1 : doc.drop (p + 1) = ds' ++ t :: r := by
    rw [dropAdd, h]; rfl
  have hend : readNumberEnd doc (p + 1) = p + 1 + ds'.length :=
    readNumberEnd_term doc (p + 1) ds' t r h1
      (fun c hc => hds c (List.mem_cons_of_mem _ hc)) ht
  have e1 : p + 1 + ds'.length = p + (ds'.length + 1) := by omega
  unfold readTokenCore
  rw [h0]
  dsimp only
  try rw [Nat.add_zero]
  rw [h]
  dsimp only [List.cons_append, List.head?_cons]
  rw [if_neg c0, if_neg c1, if_neg c2, if_neg c3, if_neg c4, if_neg c5, if_neg c6,
    if_pos (Or.inl hd), hend]
  simp [e1]

theorem readToken_eq (st : PState) (lb : Bool) (t : Token) (q : Nat)
    (h : readTokenCore st.doc st.current_ = (lb, t, q)) :
    readToken st = (lb, { st with token_ := t, current_ := q }) := by
  unfold readToken
  rw [h]

theorem sct_step (st : PState) (lv : Option JValue)
    (h : (readToken st).2.token_.type_ ≠ .comment) :
    skipCommentTokens st [] lv = (false, (readToken st).2, [], lv) := by
  rcases hrt : readToken st with ⟨lb, st1⟩
  rw [hrt] at h
  dsimp only at h
  unfold skipCommentTokens
  cases lv with
  | none =>
    dsimp only
    unfold sctLoop
    rw [hrt]
    dsimp only
    rw [if_pos h]
  | some v =>
    dsimp only
    rw [if_neg (by simp)]
    dsimp only
    unfold sctLoop
    rw [hrt]
    dsimp only
    rw [if_pos h]

-- ## Round trip: strings

theorem wfStr_mem (s : List Char) (h : wfStr s = true) :
    ∀ c ∈ s, c.toNat ≠ 0 ∧ c.toNat < 256 := by
  intro c hc
  have h2 := List.all_eq_true.mp h c hc
  simpa using h2

theorem wfStr_takeWhile (s : List Char) (h : wfStr s = true) :
    s.takeWhile (fun c => decide (c.toNat ≠ 0)) = s :=
  takeWhile_all (fun c hc => by simpa using (wfStr_mem s h c hc).1)

theorem scan_quote (rest : List Char) :
    readStringScan ('"' :: rest) = (1, true) := by
  unfold readStringScan
  rw [if_neg (by decide), if_pos rfl]

theorem scan_plain (c : Char) (l : List Char) (h0 : c.toNat ≠ 0)
    (hq : c ≠ '"') (hb : c ≠ '\\') :
    readStringScan (c :: l) =
      ((readStringScan l).1 + 1, (readStringScan l).2) := by
  rcases hsc : readStringScan l with ⟨n, ok⟩
  conv_lhs => rw [readStringScan.eq_def]
  dsimp only
  rw [if_neg h0, if_neg hq, if_neg hb, hsc]

theorem scan_backslash (e : Char) (l : List Char) :
    readStringScan ('\\' :: e :: l) =
      ((readStringScan l).1 + 2, (readStringScan l).2) := by
  rcases hsc : readStringScan l with ⟨n, ok⟩
  conv_lhs => rw [readStringScan.eq_def]
  dsimp only
  rw [if_neg (by decide), if_neg (by decide), if_pos rfl]
  try dsimp only
  rw [hsc]

theorem scan_fast (s : List Char)
    (hs : ∀ c ∈ s, c.toNat ≠ 0 ∧ c ≠ '"' ∧ c ≠ '\\') :
    ∀ rest, readStringScan (s ++ '"' :: rest) = (s.length + 1, true) := by
  induction s with
  | nil => intro rest; exact scan_quote rest
  | cons c s ih =>
    intro rest
    obtain ⟨h0, hq, hb⟩ := hs c (List.mem_cons_self ..)
    rw [List.cons_append, scan_plain c _ h0 hq hb,
      ih (fun x hx => hs x (List.mem_cons_of_mem _ hx)) rest]
    simp [Nat.add_comm]

theorem hexUpper_facts : ∀ m : Nat, m < 16 →
    (hexUpper m).toNat ≠ 0 ∧ hexUpper m ≠ '"' ∧ hexUpper m ≠ '\\' ∧
      hexUpper m ≠ '\n' ∧ hexUpper m ≠ '\r' := by decide

theorem scan_escape_one (c : Char) (h0 : c.toNat ≠ 0) (B : List Char) :
    readStringScan (escapeChar c ++ B) =
      ((readStringScan B).1 + (escapeChar c).length, (readStringScan B).2) := by
  unfold escapeChar
  by_cases h1 : c = '"'
  · rw [if_pos h1]
    simp only [List.cons_append, List.nil_append]
    rw [scan_backslash]
    rfl
  rw [if_neg h1]
  by_cases h2 : c = '\\'
  · rw [if_pos h2]
    simp only [List.cons_append, List.nil_append]
    rw [scan_backslash]
    rfl
  rw [if_neg h2]
  by_cases h3 : c = '\x08'
  · rw [if_pos h3]
    simp only [List.cons_append, List.nil_append]
    rw [scan_backslash]
    rfl
  rw [if_neg h3]
  by_cases h4 : c = '\x0c'
  · rw [if_pos h4]
    simp only [List.cons_append, List.nil_append]
    rw [scan_backslash]
    rfl
  rw [if_neg h4]
  by_cases h5 : c = '\n'
  · rw [if_pos h5]
    simp only [List.cons_append, List.nil_append]
    rw [scan_backslash]
    rfl
  rw [if_neg h5]
  by_cases h6 : c = '\r'
  · rw [if_pos h6]
    simp only [List.cons_append, List.nil_append]
    rw [scan_backslash]
    rfl
  rw [if_neg h6]
  by_cases h7 : c = '\t'
  · rw [if_pos h7]
    simp only [List.cons_append, List.nil_append]
    rw [scan_backslash]
    rfl
  rw [if_neg h7]
  by_cases h8 : isControlCharacter c = true
  · rw [if_pos h8]
    have hc16 : c.toNat / 16 % 16 < 16 := Nat.mod_lt _ (by omega)
    have hcm : c.toNat % 16 < 16 := Nat.mod_lt _ (by omega)
    obtain ⟨u1, u2, u3, _, _⟩ := hexUpper_facts _ hc16
    obtain ⟨w1, w2, w3, _, _⟩ := hexUpper_facts _ hcm
    rw [List.cons_append, List.cons_append, List.cons_append, List.cons_append,
      List.cons_append, List.cons_append, List.nil_append]
    rw [scan_backslash]
    rw [scan_plain _ _ (by decide) (by decide) (by decide)]
    rw [scan_plain _ _ (by decide) (by decide) (by decide)]
    rw [scan_plain _ _ u1 u2 u3]
    rw [scan_plain _ _ w1 w2 w3]
    simp only [List.length_cons, List.length_nil]
    try omega
  · rw [if_neg h8]
    rw [List.cons_append, List.nil_append]
    rw [scan_plain c _ h0 h1 h2]
    simp

set_option maxHeartbeats 1000000 in
theorem scan_escaped (s : List Char)
    (hs : ∀ c ∈ s, c.toNat ≠ 0) :
    ∀ rest, readStringScan (s.flatMap escapeChar ++ '"' :: rest) =
      ((s.flatMap escapeChar).length + 1, true) := by
  induction s with
  | nil => intro rest; exact scan_quote rest
  | cons c s ih =>
    intro rest
    rw [List.flatMap_cons, List.append_assoc,
      scan_escape_one c (hs c (List.mem_cons_self ..)),
      ih (fun x hx => hs x (List.mem_cons_of_mem _ hx)) rest]
    dsimp only
    simp only [List.length_append]
    congr 1
    omega

set_option maxHeartbeats 2000000 in
theorem dsl_plain (c : Char) (hc : c ≠ '\\') (rest : List Char) (pos : Nat)
    (acc : List Char) :
    decodeStringLoop (c :: rest) pos 0 acc =
      decodeStringLoop rest (pos + 1) 0 (acc ++ [c]) := by
  rw [decodeStringLoop.eq_def]
  simp [hc]

theorem decode_fast (s : List Char) (hs : ∀ c ∈ s, c ≠ '\\') :
    ∀ pos acc, decodeStringLoop s pos 0 acc = .ok (acc ++ s) := by
  induction s with
  | nil =>
    intro pos acc
    rw [List.append_nil]
    rfl
  | cons c s ih =>
    intro pos acc
    rw [dsl_plain c (hs c (List.mem_cons_self ..)) s pos acc,
      ih (fun x hx => hs x (List.mem_cons_of_mem _ hx))]
    simp

theorem hexUpper_val : ∀ m : Nat, m < 16 →
    hexDigitVal (hexUpper m) = m ∧ isHexDigitChar (hexUpper m) = true := by decide

set_option maxHeartbeats 2000000 in
theorem decode_escape_one (c : Char) (h0 : c.toNat ≠ 0) (h256 : c.toNat < 256)
    (B acc : List Char) (pos : Nat) :
    decodeStringLoop (escapeChar c ++ B) pos 0 acc =
      decodeStringLoop B (pos + (escapeChar c).length) 0 (acc ++ [c]) := by
  unfold escapeChar
  by_cases h1 : c = '"'
  · subst h1
    rw [if_pos rfl]
    simp only [List.cons_append, List.nil_append]
    rw [decodeStringLoop.eq_def]
    simp
  rw [if_neg h1]
  by_cases h2 : c = '\\'
  · subst h2
    rw [if_pos rfl]
    simp only [List.cons_append, List.nil_append]
    rw [decodeStringLoop.eq_def]
    simp
  rw [if_neg h2]
  by_cases h3 : c = '\x08'
  · subst h3
    rw [if_pos rfl]
    simp only [List.cons_append, List.nil_append]
    rw [decodeStringLoop.eq_def]
    simp
  rw [if_neg h3]
  by_cases h4 : c = '\x0c'
  · subst h4
    rw [if_pos rfl]
    simp only [List.cons_append, List.nil_append]
    rw [decodeStringLoop.eq_def]
    simp
  rw [if_neg h4]
  by_cases h5 : c = '\n'
  · subst h5
    rw [if_pos rfl]
    simp only [List.cons_append, List.nil_append]
    rw [decodeStringLoop.eq_def]
    simp
  rw [if_neg h5]
  by_cases h6 : c = '\r'
  · subst h6
    rw [if_pos rfl]
    simp only [List.cons_append, List.nil_append]
    rw [decodeStringLoop.eq_def]
    simp
  rw [if_neg h6]
  by_cases h7 : c = '\t'
  · subst h7
    rw [if_pos rfl]
    simp only [List.cons_append, List.nil_append]
    rw [decodeStringLoop.eq_def]
    simp
  rw [if_neg h7]
  by_cases h8 : isControlCharacter c = true
  · rw [if_pos h8]
    have hlt : c.toNat < 32 := by
      simpa [isControlCharacter] using h8
    have ha16 : c.toNat / 16 % 16 < 16 := Nat.mod_lt _ (by omega)
    have hb16 : c.toNat % 16 < 16 := Nat.mod_lt _ (by omega)
    simp only [List.cons_append, List.nil_append]
    rw [dsl_u '0' '0' (hexUpper (c.toNat / 16 % 16)) (hexUpper (c.toNat % 16)) B pos 0 acc]
    rw [dues_four '0' '0' _ _ B (by decide) (by decide)
      (hexUpper_val _ ha16).2 (hexUpper_val _ hb16).2]
    have hq : hexQuad '0' '0' (hexUpper (c.toNat / 16 % 16)) (hexUpper (c.toNat % 16))
        = c.toNat := by
      rw [hexQuad, (hexUpper_val _ ha16).1, (hexUpper_val _ hb16).1,
        show hexDigitVal '0' = 0 from by decide]
      omega
    dsimp only
    rw [hq]
    rw [if_pos h0, if_neg (by omega), if_neg (by omega)]
    have hc7 : c.toNat ≤ 0x7F := by omega
    rw [codePointToUTF8, if_pos hc7, Char.ofNat_toNat]
    have e6 : pos + 2 + 4 = pos + 6 := by omega
    rw [e6]
    rfl
  · rw [if_neg h8]
    simp only [List.cons_append, List.nil_append]
    rw [dsl_plain c h2 B pos acc]
    rfl

theorem decode_escaped (s : List Char)
    (hs : ∀ c ∈ s, c.toNat ≠ 0 ∧ c.toNat < 256) :
    ∀ pos acc, decodeStringLoop (s.flatMap escapeChar) pos 0 acc = .ok (acc ++ s) := by
  induction s with
  | nil =>
    intro pos acc
    rw [List.append_nil]
    rfl
  | cons c s ih =>
    intro pos acc
    obtain ⟨h0, h256⟩ := hs c (List.mem_cons_self ..)
    rw [List.flatMap_cons, decode_escape_one c h0 h256 _ _ _,
      ih (fun x hx => hs x (List.mem_cons_of_mem _ hx))]
    simp

theorem lex_string (doc : List Char) (p : Nat) (body rest : List Char)
    (hscan : readStringScan (body ++ '"' :: rest) = (body.length + 1, true))
    (h : doc.drop p = '"' :: (body ++ '"' :: rest)) :
    readTokenCore doc p =
      (false, ⟨.tstring, p, p + (body.length + 2)⟩, p + (body.length + 2)) := by
  have h0 : wsScan (doc.drop p) = (0, false) := by
    rw [h]; exact notWs _ _ (by decide) (by decide) (by decide) (by decide)
  have h1 : doc.drop (p + 1) = body ++ '"' :: rest := by
    rw [dropAdd, h]; rfl
  have e : p + 1 + (body.length + 1) = p + (body.length + 2) := by omega
  unfold readTokenCore
  rw [h0]
  dsimp only
  try rw [Nat.add_zero]
  rw [h]
  dsimp only [List.head?_cons]
  rw [if_neg (by decide), if_neg (by decide), if_neg (by decide), if_neg (by decide),
    if_neg (by decide), if_pos rfl, h1, hscan]
  dsimp only
  rw [e]
  rfl

theorem decode_string_tok (doc : List Char) (p : Nat) (body rest s : List Char)
    (h : doc.drop p = '"' :: (body ++ '"' :: rest))
    (hdec : decodeStringLoop body (p + 1) 0 [] = .ok s) :
    decodeStringCore doc ⟨.tstring, p, p + (body.length + 2)⟩ = .ok s := by
  unfold decodeStringCore
  dsimp only
  have h1 : doc.drop (p + 1) = body ++ '"' :: rest := by
    rw [dropAdd, h]; rfl
  have e : p + (body.length + 2) - 1 - (p + 1) = body.length := by omega
  rw [e, h1, List.take_left]
  exact hdec

theorem isSpecialChar_false (c : Char) (h : isSpecialChar c = false) :
    c ≠ '"' ∧ c ≠ '\\' := by
  simp only [isSpecialChar, decide_eq_false_iff_not, not_or] at h
  exact ⟨h.1, h.2.1⟩

theorem string_lex_decode (s : List Char) (hwf : wfStr s = true)
    (doc : List Char) (p : Nat) (rest : List Char)
    (h : doc.drop p = valueToQuotedString s ++ rest) :
    readTokenCore doc p =
      (false, ⟨.tstring, p, p + (valueToQuotedString s).length⟩,
        p + (valueToQuotedString s).length) ∧
    decodeStringCore doc ⟨.tstring, p, p + (valueToQuotedString s).length⟩ = .ok s := by
  have hmem := wfStr_mem s hwf
  unfold valueToQuotedString at h ⊢
  rw [wfStr_takeWhile s hwf] at h ⊢
  by_cases hpath : ¬ s.any isSpecialChar ∧ ¬ s.any isControlCharacter
  · rw [if_pos hpath] at h ⊢
    have hsp : ∀ c ∈ s, isSpecialChar c = false := by
      intro c hc
      rcases Bool.eq_false_or_eq_true (isSpecialChar c) with h' | h'
      · exact absurd (List.any_eq_true.mpr ⟨c, hc, h'⟩) hpath.1
      · exact h'
    have hchars : ∀ c ∈ s, c.toNat ≠ 0 ∧ c ≠ '"' ∧ c ≠ '\\' := by
      intro c hc
      obtain ⟨hq, hb⟩ := isSpecialChar_false c (hsp c hc)
      exact ⟨(hmem c hc).1, hq, hb⟩
    have hshape : ('"' :: (s ++ ['"'])) ++ rest = '"' :: (s ++ '"' :: rest) := by simp
    rw [hshape] at h
    have hscan := scan_fast s (fun c hc => hchars c hc) rest
    have hlen : ('"' :: (s ++ ['"'])).length = s.length + 2 := by simp
    rw [hlen]
    refine ⟨lex_string doc p s rest hscan h, ?_⟩
    refine decode_string_tok doc p s rest s h ?_
    have := decode_fast s (fun c hc => (hchars c hc).2.2) (p + 1) []
    simpa using this
  · rw [if_neg hpath] at h ⊢
    have hshape : ('"' :: (s.flatMap escapeChar ++ ['"'])) ++ rest
        = '"' :: (s.flatMap escapeChar ++ '"' :: rest) := by simp
    rw [hshape] at h
    have hscan := scan_escaped s (fun c hc => (hmem c hc).1) rest
    have hlen : ('"' :: (s.flatMap escapeChar ++ ['"'])).length
        = (s.flatMap escapeChar).length + 2 := by simp
    rw [hlen]
    refine ⟨lex_string doc p _ rest hscan h, ?_⟩
    refine decode_string_tok doc p _ rest s h ?_
    have := decode_escaped s (fun c hc => hmem c hc) (p + 1) []
    simpa using this

-- ## Round trip: numbers

theorem chr_digit : ∀ d : Nat, d < 10 →
    isDigitChar (Char.ofNat (48 + d)) = true ∧ (Char.ofNat (48 + d)).toNat = 48 + d := by
  decide

theorem digitsVal_snoc (xs : List Char) (c : Char) :
    digitsVal (xs ++ [c]) = 10 * digitsVal xs + (c.toNat - 48) := by
  unfold digitsVal
  rw [List.foldl_append]
  rfl

theorem digitsVal_rev_map : ∀ L : List Nat, (∀ d ∈ L, d < 10) →
    digitsVal (L.reverse.map (fun d => Char.ofNat (48 + d))) = Nat.ofDigits 10 L := by
  intro L
  induction L with
  | nil => intro _; rfl
  | cons d L ih =>
    intro hL
    have hd : d < 10 := hL d (List.mem_cons_self ..)
    rw [List.reverse_cons, List.map_append]
    simp only [List.map_cons, List.map_nil]
    rw [digitsVal_snoc,
      ih (fun x hx => hL x (List.mem_cons_of_mem _ hx)), Nat.ofDigits_cons,
      (chr_digit d hd).2]
    omega

theorem uintToString_spec (n : Nat) :
    uintToString n ≠ [] ∧ (∀ c ∈ uintToString n, isDigitChar c = true) ∧
    digitsVal (uintToString n) = n := by
  by_cases hn : n = 0
  · subst hn
    refine ⟨by decide, ?_, by decide⟩
    intro c hc
    rw [show uintToString 0 = ['0'] from rfl, List.mem_singleton] at hc
    subst hc
    decide
  · have hdig : ∀ d ∈ Nat.digits 10 n, d < 10 :=
      fun d hd => Nat.digits_lt_base (by norm_num) hd
    unfold uintToString
    rw [if_neg hn]
    refine ⟨?_, ?_, ?_⟩
    · simp [Nat.digits_ne_nil_iff_ne_zero.mpr hn]
    · intro c hc
      simp only [List.mem_map, List.mem_reverse] at hc
      obtain ⟨d, hd, rfl⟩ := hc
      exact (chr_digit d (hdig d hd)).1
    · rw [digitsVal_rev_map (Nat.digits 10 n) hdig, Nat.ofDigits_digits]

theorem tokenText_eq (doc : List Char) (tt : TokenType) (p : Nat) (w rest : List Char)
    (h : doc.drop p = w ++ rest) :
    tokenText doc ⟨tt, p, p + w.length⟩ = w := by
  unfold tokenText
  dsimp only
  have e : p + w.length - p = w.length := by omega
  rw [e, h, List.take_left]

theorem num_core_uint (n : Nat) (h64 : n < U64) :
    decodeNumberCore (valueToStringUInt n) =
      (if n < TWO63 then some (.sInt (n : Int)) else some (.uInt n)) := by
  obtain ⟨hne, hds, hval⟩ := uintToString_spec n
  have hcore := decodeNumberCore_digits false (uintToString n) hne hds
  simp only [if_neg (by decide : ¬False), Bool.false_eq_true, List.nil_append] at hcore
  rw [valueToStringUInt, hcore, hval]
  by_cases hlt : n < TWO63
  · rw [if_pos hlt, if_pos hlt]
  · rw [if_neg hlt, if_neg hlt, if_pos h64]

theorem num_core_int_nonneg (n : Int) (h0 : 0 ≤ n) (hhi : n < (TWO63 : Int)) :
    decodeNumberCore (valueToStringInt n) = some (.sInt n) := by
  obtain ⟨hne, hds, hval⟩ := uintToString_spec n.toNat
  have hcore := decodeNumberCore_digits false (uintToString n.toNat) hne hds
  simp only [if_neg (by decide : ¬False), Bool.false_eq_true, List.nil_append] at hcore
  have htn : n.toNat < TWO63 := by
    unfold TWO63 at hhi ⊢
    omega
  rw [valueToStringInt, if_neg (by omega), hcore, hval, if_pos htn]
  congr 1
  congr 1
  omega

theorem num_core_int_neg (n : Int) (hlo : -(TWO63 : Int) ≤ n) (hneg : n < 0) :
    decodeNumberCore (valueToStringInt n) = some (.sInt n) := by
  obtain ⟨hne, hds, hval⟩ := uintToString_spec (-n).toNat
  have hcore := decodeNumberCore_digits true (uintToString (-n).toNat) hne hds
  simp only [eq_self_iff_true, if_true, List.singleton_append] at hcore
  have htn : (-n).toNat ≤ TWO63 := by
    unfold TWO63 at hlo ⊢
    omega
  rw [valueToStringInt, if_pos hneg, hcore, hval, if_pos htn]
  congr 1
  congr 1
  omega

-- ## Round trip: structural helpers

theorem setLastElem_getLast (xs : List JValue) (v : JValue)
    (h : xs.getLast? = some v) : setLastElem xs (some v) = xs := by
  have hne : xs ≠ [] := by
    rintro rfl
    simp at h
  have hv : xs.getLast hne = v := by
    have h2 := List.getLast?_eq_getLast xs hne
    rw [h] at h2
    exact (Option.some_injective _ h2).symm
  unfold setLastElem
  dsimp only
  rw [← hv, List.dropLast_append_getLast]

theorem objFind_not_mem : ∀ (ms : List (List Char × JValue)) (k : List Char),
    k ∉ ms.map Prod.fst → objFind ms k = none := by
  intro ms
  induction ms with
  | nil => intro k _; rfl
  | cons kv ms ih =>
    intro k hk
    obtain ⟨k', w⟩ := kv
    simp only [List.map_cons, List.mem_cons, not_or] at hk
    rw [objFind, if_neg (fun he => hk.1 he.symm)]
    exact ih k hk.2

theorem objFind_append_last : ∀ (ms : List (List Char × JValue)) (k : List Char)
    (v : JValue), k ∉ ms.map Prod.fst → objFind (ms ++ [(k, v)]) k = some v := by
  intro ms
  induction ms with
  | nil => intro k v _; simp [objFind]
  | cons kv ms ih =>
    intro k v hk
    obtain ⟨k', w⟩ := kv
    simp only [List.map_cons, List.mem_cons, not_or] at hk
    rw [List.cons_append, objFind, if_neg (fun he => hk.1 he.symm)]
    exact ih k v hk.2

theorem objSet_not_mem : ∀ (ms : List (List Char × JValue)) (k : List Char)
    (v : JValue), k ∉ ms.map Prod.fst → objSet ms k v = ms ++ [(k, v)] := by
  intro ms
  induction ms with
  | nil => intro k v _; rfl
  | cons kv ms ih =>
    intro k v hk
    obtain ⟨k', w⟩ := kv
    simp only [List.map_cons, List.mem_cons, not_or] at hk
    rw [objSet, if_neg (fun he => hk.1 he.symm), ih k v hk.2]
    rfl

theorem objSet_append_last : ∀ (ms : List (List Char × JValue)) (k : List Char)
    (a b : JValue), k ∉ ms.map Prod.fst →
    objSet (ms ++ [(k, a)]) k b = ms ++ [(k, b)] := by
  intro ms
  induction ms with
  | nil => intro k a b _; simp [objSet]
  | cons kv ms ih =>
    intro k a b hk
    obtain ⟨k', w⟩ := kv
    simp only [List.map_cons, List.mem_cons, not_or] at hk
    rw [List.cons_append, objSet, if_neg (fun he => hk.1 he.symm), ih k a b hk.2]
    rfl

theorem jEq_withMeta_left (x : JValue) (m : VMeta) (v : JValue) :
    jEq (x.withMeta m) v = jEq x v := by
  cases x <;> cases v <;> rfl

theorem firstTT_facts (v : JValue) :
    firstTT v ≠ .comment ∧ firstTT v ≠ .arraySeparator ∧ firstTT v ≠ .arrayEnd ∧
      firstTT v ≠ .objectEnd ∧ firstTT v ≠ .memberSeparator ∧
      firstTT v ≠ .endOfStream := by
  cases v with
  | vbool b m => cases b <;> simp [firstTT]
  | vnull m => simp [firstTT]
  | vint n m => simp [firstTT]
  | vuint n m => simp [firstTT]
  | vreal d m => simp [firstTT]
  | vstr s m => simp [firstTT]
  | varr xs m => simp [firstTT]
  | vobj ms m => simp [firstTT]

theorem lastTT_facts (v : JValue) :
    lastTT v ≠ .comment ∧ lastTT v ≠ .arraySeparator := by
  cases v with
  | vbool b m => cases b <;> simp [lastTT, firstTT]
  | vnull m => simp [lastTT, firstTT]
  | vint n m => simp [lastTT, firstTT]
  | vuint n m => simp [lastTT, firstTT]
  | vreal d m => simp [lastTT, firstTT]
  | vstr s m => simp [lastTT, firstTT]
  | varr xs m => simp [lastTT]
  | vobj ms m => simp [lastTT]

theorem quoted_len_ge2 (s : List Char) : 2 ≤ (valueToQuotedString s).length := by
  unfold valueToQuotedString
  dsimp only
  split <;> simp

theorem wlen_pos (v : JValue) (hwf : wfValue v = true) :
    1 ≤ (fastWriteValue {} v).length := by
  cases v with
  | vnull m => exact (by decide : 1 ≤ ("null".toList : List Char).length)
  | vbool b m =>
    cases b with
    | true => exact (by decide : 1 ≤ ("true".toList : List Char).length)
    | false => exact (by decide : 1 ≤ ("false".toList : List Char).length)
  | vint n m =>
    show 1 ≤ (valueToStringInt n).length
    unfold valueToStringInt
    split
    · simp
    · have := (uintToString_spec n.toNat).1
      simpa [Nat.one_le_iff_ne_zero, List.length_eq_zero] using this
  | vuint n m =>
    show 1 ≤ (valueToStringUInt n).length
    have := (uintToString_spec n).1
    simpa [valueToStringUInt, Nat.one_le_iff_ne_zero, List.length_eq_zero] using this
  | vreal d m => simp [wfValue] at hwf
  | vstr s m =>
    have := quoted_len_ge2 s
    show 1 ≤ (valueToQuotedString s).length
    omega
  | varr xs m => simp [fastWriteValue]
  | vobj ms m => simp [fastWriteValue]

theorem lex_value (v : JValue) (hwf : wfValue v = true) (doc : List Char) (p : Nat)
    (rest : List Char) (h : doc.drop p = fastWriteValue {} v ++ rest)
    (hterm : headTerm rest = true) :
    readTokenCore doc p = (false, ⟨firstTT v, p, p + tokLen v⟩, p + tokLen v) := by
  cases v with
  | vnull m => exact lex_null doc p rest h
  | vbool b m =>
    cases b with
    | true => exact lex_true doc p rest h
    | false => exact lex_false doc p rest h
  | vint n m =>
    obtain ⟨t, r, rfl, ht⟩ := headTerm_cons rest hterm
    by_cases hneg : n < 0
    · have hw : fastWriteValue {} (.vint n m) = '-' :: uintToString (-n).toNat := by
        show valueToStringInt n = _
        unfold valueToStringInt
        rw [if_pos hneg]
      rw [hw, List.cons_append] at h
      have hlex := lex_number_neg doc p (uintToString (-n).toNat) t r
        (uintToString_spec _).2.1 h ht
      have hlen : tokLen (.vint n m) = (uintToString (-n).toNat).length + 1 := by
        show (valueToStringInt n).length = _
        unfold valueToStringInt
        rw [if_pos hneg]
        simp
      rw [show firstTT (.vint n m) = .tnumber from rfl, hlen]
      exact hlex
    · have hw : fastWriteValue {} (.vint n m) = uintToString n.toNat := by
        show valueToStringInt n = _
        unfold valueToStringInt
        rw [if_neg hneg]
      rw [hw] at h
      have hlex := lex_number_pos doc p (uintToString n.toNat) t r
        (uintToString_spec _).1 (uintToString_spec _).2.1 h ht
      have hlen : tokLen (.vint n m) = (uintToString n.toNat).length := by
        show (valueToStringInt n).length = _
        unfold valueToStringInt
        rw [if_neg hneg]
      rw [show firstTT (.vint n m) = .tnumber from rfl, hlen]
      exact hlex
  | vuint n m =>
    obtain ⟨t, r, rfl, ht⟩ := headTerm_cons rest hterm
    have hw : fastWriteValue {} (.vuint n m) = uintToString n := rfl
    rw [hw] at h
    have hlex := lex_number_pos doc p (uintToString n) t r
      (uintToString_spec _).1 (uintToString_spec _).2.1 h ht
    exact hlex
  | vreal d m => simp [wfValue] at hwf
  | vstr s m =>
    have hwfs : wfStr s = true := by simpa [wfValue] using hwf
    exact (string_lex_decode s hwfs doc p rest h).1
  | varr xs m =>
    have hw : doc.drop p = '[' :: ((fastWriteElems {} xs true ++ [']']) ++ rest) := h
    exact lex_lbracket doc p _ hw
  | vobj ms m =>
    have hw : doc.drop p = '\x7b' :: ((fastWriteMembers {} ms true ++ ['\x7d']) ++ rest) := h
    exact lex_lbrace doc p _ hw

theorem needFuel_le : ∀ N : Nat, ∀ v : JValue, sizeOf v ≤ N → wfValue v = true →
    needFuel v + 1 ≤ 2 * (fastWriteValue {} v).length := by
  intro N
  induction N with
  | zero =>
    intro v hv _
    exfalso
    cases v <;> simp_arith at hv
  | succ N ih =>
    intro v hv hwf
    cases v with
    | vnull m =>
      have := wlen_pos (.vnull m) hwf
      show 1 + 1 ≤ _
      omega
    | vbool b m =>
      have := wlen_pos (.vbool b m) hwf
      show 1 + 1 ≤ _
      omega
    | vint n m =>
      have := wlen_pos (.vint n m) hwf
      show 1 + 1 ≤ _
      omega
    | vuint n m =>
      have := wlen_pos (.vuint n m) hwf
      show 1 + 1 ≤ _
      omega
    | vreal d m => simp [wfValue] at hwf
    | vstr s m =>
      have := wlen_pos (.vstr s m) hwf
      show 1 + 1 ≤ _
      omega
    | varr xs m =>
      have hszxs : sizeOf xs ≤ N := by
        have : sizeOf xs < sizeOf (JValue.varr xs m) := by simp_arith
        omega
      have hwl : wfList xs = true := by simpa [wfValue] using hwf
      have key : ∀ (ys : List JValue), sizeOf ys ≤ N → wfList ys = true →
          ∀ first : Bool,
          needFuelList ys ≤ 2 * (fastWriteElems {} ys first).length + 1 := by
        intro ys
        induction ys with
        | nil =>
          intro _ _ first
          show 1 ≤ _
          omega
        | cons e es ihe =>
          intro hsz hwl2 first
          have hsze : sizeOf e ≤ N := by
            have : sizeOf e < sizeOf (e :: es) := by simp_arith
            omega
          have hszes : sizeOf es ≤ N := by
            have : sizeOf es < sizeOf (e :: es) := by simp_arith
            omega
          have hwfe : wfValue e = true := by
            have := hwl2
            rw [wfList, Bool.and_eq_true] at this
            exact this.1
          have hwfes : wfList es = true := by
            have := hwl2
            rw [wfList, Bool.and_eq_true] at this
            exact this.2
          have h1 := ih e hsze hwfe
          have h2 := ihe hszes hwfes false
          show 1 + needFuel e + needFuelList es ≤ _
          rw [fastWriteElems]
          cases first with
          | true =>
            rw [if_pos rfl]
            simp only [List.nil_append, List.length_append]
            omega
          | false =>
            rw [if_neg (by simp)]
            simp only [List.length_append, List.length_cons, List.length_nil]
            omega
      have hmain := key xs hszxs hwl true
      show 2 + needFuelList xs + 1 ≤
        2 * ('[' :: (fastWriteElems {} xs true ++ [']'])).length
      simp only [List.length_cons, List.length_append, List.length_nil]
      omega
    | vobj ms m =>
      have hszms : sizeOf ms ≤ N := by
        have : sizeOf ms < sizeOf (JValue.vobj ms m) := by simp_arith
        omega
      have hwm : wfMembers ms = true := by
        have := hwf
        rw [wfValue, Bool.and_eq_true] at this
        exact this.1
      have key : ∀ (ns : List (List Char × JValue)), sizeOf ns ≤ N →
          wfMembers ns = true → ∀ first : Bool,
          needFuelMem ns ≤ 2 * (fastWriteMembers {} ns first).length + 1 := by
        intro ns
        induction ns with
        | nil =>
          intro _ _ first
          show 1 ≤ _
          omega
        | cons kv ns ihn =>
          obtain ⟨k, w⟩ := kv
          intro hsz hwm2 first
          have hszw : sizeOf w ≤ N := by
            have h1 : sizeOf w < sizeOf ((k, w) :: ns) := by simp_arith
            omega
          have hszns : sizeOf ns ≤ N := by
            have h1 : sizeOf ns < sizeOf ((k, w) :: ns) := by simp_arith
            omega
          have hwfw : wfValue w = true := by
            rw [wfMembers, Bool.and_eq_true, Bool.and_eq_true] at hwm2
            exact hwm2.1.2
          have hwfns : wfMembers ns = true := by
            rw [wfMembers, Bool.and_eq_true] at hwm2
            exact hwm2.2
          have h1 := ih w hszw hwfw
          have h2 := ihn hszns hwfns false
          show 1 + needFuel w + needFuelMem ns ≤ _
          rw [fastWriteMembers]
          rw [if_neg (by decide :
            ¬({} : FastWriterOpts).yamlCompatiblityEnabled_ = true)]
          cases first with
          | true =>
            rw [if_pos rfl]
            simp only [List.nil_append, List.length_append, List.length_cons,
              List.length_nil]
            omega
          | false =>
            rw [if_neg (by simp)]
            simp only [List.length_append, List.length_cons, List.length_nil]
            omega
      have hmain := key ms hszms hwm true
      show 2 + needFuelMem ms + 1 ≤
        2 * ('\x7b' :: (fastWriteMembers {} ms true ++ ['\x7d'])).length
      simp only [List.length_cons, List.length_append, List.length_nil]
      omega

-- ## Round trip: readValue on scalar serializations

theorem RT_null (m : VMeta) : RTv (.vnull m) := by
  intro st p rest cur fuel hdoc hterm hcur htok hfeat hfuel
  obtain ⟨f, rfl⟩ : ∃ f, fuel = f + 1 := ⟨fuel - 1, by
    have h1 : 1 ≤ fuel := hfuel
    omega⟩
  have htt : firstTT (JValue.vnull m) = .tnull := rfl
  rw [htt] at htok
  unfold readValue
  dsimp only
  rw [htok]
  dsimp only
  refine ⟨rfl, ?_, ?_⟩
  · rfl
  · have hL : (fastWriteValue {} (JValue.vnull m)).length = 4 := rfl
    have hlast : lastTT (JValue.vnull m) = .tnull := rfl
    have hll : lastTokLen (JValue.vnull m) = 4 := rfl
    rw [hL, hlast, hll]
    have e4 : p + 4 - 4 = p := by omega
    rw [e4]
    cases st with
    | mk d c tok e fe co =>
      dsimp only at hcur htok ⊢
      rw [hcur, htok]
      rfl

theorem setOffsetLimit_withMeta (x : JValue) (M : VMeta) (b : Nat) :
    (x.withMeta M).setOffsetLimit b = x.withMeta { M with offsetLimit := b } := by
  cases x <;> rfl

theorem jEq_decoded (cur pay v : JValue) (a b : Nat) :
    jEq (((cur.setOffsetStart a).takePayload pay).setOffsetLimit b) v = jEq pay v := by
  rw [JValue.takePayload, setOffsetLimit_withMeta, jEq_withMeta_left]

theorem jEq_vint_self (n : Int) (m1 m2 : VMeta) :
    jEq (.vint n m1) (.vint n m2) = true := by
  simp [jEq]

theorem jEq_vint_vuint_self (n : Nat) (m1 m2 : VMeta) :
    jEq (.vint (n : Int) m1) (.vuint n m2) = true := by
  simp [jEq]

theorem jEq_vuint_self (n : Nat) (m1 m2 : VMeta) :
    jEq (.vuint n m1) (.vuint n m2) = true := by
  simp [jEq]

theorem jEq_vstr_self (s : List Char) (m1 m2 : VMeta) :
    jEq (.vstr s m1) (.vstr s m2) = true := by
  simp [jEq]

theorem RT_bool (b : Bool) (m : VMeta) : RTv (.vbool b m) := by
  intro st p rest cur fuel hdoc hterm hcur htok hfeat hfuel
  obtain ⟨f, rfl⟩ : ∃ f, fuel = f + 1 := ⟨fuel - 1, by
    have h1 : 1 ≤ fuel := hfuel
    omega⟩
  cases b with
  | true =>
    have htt : firstTT (JValue.vbool true m) = .ttrue := rfl
    rw [htt] at htok
    unfold readValue
    dsimp only
    rw [htok]
    dsimp only
    refine ⟨rfl, ?_, ?_⟩
    · rfl
    · have hL : (fastWriteValue {} (JValue.vbool true m)).length = 4 := rfl
      have hlast : lastTT (JValue.vbool true m) = .ttrue := rfl
      have hll : lastTokLen (JValue.vbool true m) = 4 := rfl
      rw [hL, hlast, hll]
      have e4 : p + 4 - 4 = p := by omega
      rw [e4]
      cases st with
      | mk d c tok e fe co =>
        dsimp only at hcur htok ⊢
        rw [hcur, htok]
        rfl
  | false =>
    have htt : firstTT (JValue.vbool false m) = .tfalse := rfl
    rw [htt] at htok
    unfold readValue
    dsimp only
    rw [htok]
    dsimp only
    refine ⟨rfl, ?_, ?_⟩
    · rfl
    · have hL : (fastWriteValue {} (JValue.vbool false m)).length = 5 := rfl
      have hlast : lastTT (JValue.vbool false m) = .tfalse := rfl
      have hll : lastTokLen (JValue.vbool false m) = 5 := rfl
      rw [hL, hlast, hll]
      have e4 : p + 5 - 5 = p := by omega
      rw [e4]
      cases st with
      | mk d c tok e fe co =>
        dsimp only at hcur htok ⊢
        rw [hcur, htok]
        rfl

theorem RT_int (n : Int) (m : VMeta) (hlo : -(TWO63 : Int) ≤ n)
    (hhi : n < (TWO63 : Int)) : RTv (.vint n m) := by
  intro st p rest cur fuel hdoc hterm hcur htok hfeat hfuel
  obtain ⟨f, rfl⟩ : ∃ f, fuel = f + 1 := ⟨fuel - 1, by
    have h1 : 1 ≤ fuel := hfuel
    omega⟩
  have hcore : decodeNumberCore (valueToStringInt n) = some (.sInt n) := by
    by_cases hneg : n < 0
    · exact num_core_int_neg n hlo hneg
    · exact num_core_int_nonneg n (by omega) hhi
  have htext : tokenText st.doc st.token_ = valueToStringInt n := by
    rw [htok]
    exact tokenText_eq st.doc .tnumber p (valueToStringInt n) rest hdoc
  have hdec : decodeNumberV st (cur.setOffsetStart p) =
      (true, (cur.setOffsetStart p).takePayload (.vint n {}), st) := by
    unfold decodeNumberV
    rw [htext, hcore]
  have htt : firstTT (JValue.vint n m) = .tnumber := rfl
  rw [htt] at htok
  unfold readValue
  dsimp only
  rw [htok]
  dsimp only
  rw [hdec]
  dsimp only
  refine ⟨rfl, ?_, ?_⟩
  · rw [jEq_decoded]
    exact jEq_vint_self n {} m
  · have hlast : lastTT (JValue.vint n m) = .tnumber := rfl
    rw [hlast]
    have e4 : p + (fastWriteValue {} (JValue.vint n m)).length
        - lastTokLen (JValue.vint n m) = p := by
      have : lastTokLen (JValue.vint n m) = (fastWriteValue {} (JValue.vint n m)).length := rfl
      omega
    rw [e4]
    cases st with
    | mk d c tok e fe co =>
      dsimp only at hcur htok ⊢
      rw [hcur, htok]
      rfl

theorem RT_uint (n : Nat) (m : VMeta) (h64 : n < U64) : RTv (.vuint n m) := by
  intro st p rest cur fuel hdoc hterm hcur htok hfeat hfuel
  obtain ⟨f, rfl⟩ : ∃ f, fuel = f + 1 := ⟨fuel - 1, by
    have h1 : 1 ≤ fuel := hfuel
    omega⟩
  have htext : tokenText st.doc st.token_ = valueToStringUInt n := by
    rw [htok]
    exact tokenText_eq st.doc .tnumber p (valueToStringUInt n) rest hdoc
  have htt : firstTT (JValue.vuint n m) = .tnumber := rfl
  rw [htt] at htok
  unfold readValue
  dsimp only
  rw [htok]
  dsimp only
  by_cases hlt : n < TWO63
  · have hdec : decodeNumberV st (cur.setOffsetStart p) =
        (true, (cur.setOffsetStart p).takePayload (.vint (n : Int) {}), st) := by
      unfold decodeNumberV
      rw [htext, num_core_uint n h64, if_pos hlt]
    rw [hdec]
    dsimp only
    refine ⟨rfl, ?_, ?_⟩
    · rw [jEq_decoded]
      exact jEq_vint_vuint_self n {} m
    · have hlast : lastTT (JValue.vuint n m) = .tnumber := rfl
      rw [hlast]
      have e4 : p + (fastWriteValue {} (JValue.vuint n m)).length
          - lastTokLen (JValue.vuint n m) = p := by
        have : lastTokLen (JValue.vuint n m)
            = (fastWriteValue {} (JValue.vuint n m)).length := rfl
        omega
      rw [e4]
      cases st with
      | mk d c tok e fe co =>
        dsimp only at hcur htok ⊢
        rw [hcur, htok]
        rfl
  · have hdec : decodeNumberV st (cur.setOffsetStart p) =
        (true, (cur.setOffsetStart p).takePayload (.vuint n {}), st) := by
      unfold decodeNumberV
      rw [htext, num_core_uint n h64, if_neg hlt]
    rw [hdec]
    dsimp only
    refine ⟨rfl, ?_, ?_⟩
    · rw [jEq_decoded]
      exact jEq_vuint_self n {} m
    · have hlast : lastTT (JValue.vuint n m) = .tnumber := rfl
      rw [hlast]
      have e4 : p + (fastWriteValue {} (JValue.vuint n m)).length
          - lastTokLen (JValue.vuint n m) = p := by
        have : lastTokLen (JValue.vuint n m)
            = (fastWriteValue {} (JValue.vuint n m)).length := rfl
        omega
      rw [e4]
      cases st with
      | mk d c tok e fe co =>
        dsimp only at hcur htok ⊢
        rw [hcur, htok]
        rfl

theorem RT_str (s : List Char) (m : VMeta) (hwfs : wfStr s = true) :
    RTv (.vstr s m) := by
  intro st p rest cur fuel hdoc hterm hcur htok hfeat hfuel
  obtain ⟨f, rfl⟩ : ∃ f, fuel = f + 1 := ⟨fuel - 1, by
    have h1 : 1 ≤ fuel := hfuel
    omega⟩
  have hdecS := (string_lex_decode s hwfs st.doc p rest hdoc).2
  have hdec : decodeStringV st (cur.setOffsetStart p) =
      (true, (cur.setOffsetStart p).takePayload (.vstr s {}), st) := by
    unfold decodeStringV
    rw [htok]
    rw [show decodeStringCore st.doc
        ⟨firstTT (JValue.vstr s m), p, p + tokLen (JValue.vstr s m)⟩
      = .ok s from hdecS]
  have htt : firstTT (JValue.vstr s m) = .tstring := rfl
  rw [htt] at htok
  unfold readValue
  dsimp only
  rw [htok]
  dsimp only
  rw [hdec]
  dsimp only
  refine ⟨rfl, ?_, ?_⟩
  · rw [jEq_decoded]
    exact jEq_vstr_self s {} m
  · have hlast : lastTT (JValue.vstr s m) = .tstring := rfl
    rw [hlast]
    have e4 : p + (fastWriteValue {} (JValue.vstr s m)).length
        - lastTokLen (JValue.vstr s m) = p := by
      have : lastTokLen (JValue.vstr s m)
          = (fastWriteValue {} (JValue.vstr s m)).length := rfl
      omega
    rw [e4]
    cases st with
    | mk d c tok e fe co =>
      dsimp only at hcur htok ⊢
      rw [hcur, htok]
      rfl

-- ## Round trip: arrays

theorem setLastElem_self (xs : List JValue) : setLastElem xs xs.getLast? = xs := by
  rcases h : xs.getLast? with _ | v
  · rfl
  · exact setLastElem_getLast xs v h

theorem setLastElem_concat (xs : List JValue) (v : JValue) :
    setLastElem (xs ++ [v]) (some v) = xs ++ [v] :=
  setLastElem_getLast (xs ++ [v]) v (List.getLast?_concat _)

theorem fwe_cons_false (e : JValue) (es : List JValue) :
    fastWriteElems {} (e :: es) false
      = ',' :: (fastWriteValue {} e ++ fastWriteElems {} es false) := rfl

theorem headTerm_elems (es : List JValue) (r : List Char) :
    headTerm (fastWriteElems {} es false ++ ']' :: r) = true := by
  cases es with
  | nil => rfl
  | cons e2 es2 => rfl

theorem loop_xs_eq (xs : List JValue) (hl : Bool) :
    (if hl = true then
      setLastElem xs (if hl = true then xs.getLast? else none) else xs) = xs := by
  cases hl with
  | true => simp [setLastElem_self]
  | false => simp

theorem arr_loop (N : Nat)
    (ih : ∀ v : JValue, sizeOf v ≤ N → wfValue v = true → RTv v) :
    ∀ (es : List JValue) (e : JValue), sizeOf e ≤ N → (∀ x ∈ es, sizeOf x ≤ N) →
    wfValue e = true → wfList es = true →
    ∀ (st : PState) (p0 : Nat) (rrest : List Char) (xs : List JValue)
      (hl : Bool) (fuel : Nat),
    st.doc.drop p0 = fastWriteValue {} e ++ (fastWriteElems {} es false ++ ']' :: rrest) →
    st.current_ = p0 →
    st.features_ = Features.all →
    needFuelList (e :: es) ≤ fuel →
    ∃ ys st2,
      readArrayLoop fuel st xs [] hl = (true, false, xs ++ ys, [], true, st2) ∧
      jEqList ys (e :: es) = true ∧
      st2 = { st with
        current_ := p0 + ((fastWriteValue {} e).length
          + (fastWriteElems {} es false).length) + 1,
        token_ := ⟨.arrayEnd,
          p0 + ((fastWriteValue {} e).length + (fastWriteElems {} es false).length),
          p0 + ((fastWriteValue {} e).length
            + (fastWriteElems {} es false).length) + 1⟩ } := by
  intro es
  induction es with
  | nil =>
    intro e hsze _ hwfe _ st p0 rrest xs hl fuel hdoc hcur hfeat hfuel
    have hnf : needFuelList [e] = 1 + needFuel e + 1 := rfl
    obtain ⟨f, rfl⟩ : ∃ f, fuel = f + 1 := ⟨fuel - 1, by omega⟩
    have hterm' : headTerm (fastWriteElems {} ([] : List JValue) false ++ ']' :: rrest)
        = true := headTerm_elems [] rrest
    have hlex := lex_value e hwfe st.doc p0 _ hdoc hterm'
    have hrt := readToken_eq st false _ _ (by rw [hcur]; exact hlex)
    have hsct := sct_step st (if hl = true then xs.getLast? else none)
      (by rw [hrt]; exact (firstTT_facts e).1)
    rw [hrt] at hsct
    unfold readArrayLoop
    dsimp only
    rw [hsct]
    dsimp only
    rw [loop_xs_eq xs hl]
    rw [if_neg (fun hb => (firstTT_facts e).2.2.1 hb.1)]
    rw [if_neg (show ¬(([] : List Char) ≠ []) from by simp)]
    try dsimp only
    obtain ⟨hok, hjeq, hst2⟩ := ih e hsze hwfe
      { st with token_ := ⟨firstTT e, p0, p0 + tokLen e⟩, current_ := p0 + tokLen e }
      p0 _ JValue.nullValue f hdoc hterm' rfl rfl hfeat (by omega)
    rw [if_neg (not_not_intro hok)]
    have hsep : (readValue f
        { st with token_ := ⟨firstTT e, p0, p0 + tokLen e⟩, current_ := p0 + tokLen e } JValue.nullValue).2.2.token_.type_
        ≠ .arraySeparator := by
      rw [hst2]
      exact (lastTT_facts e).2
    rw [if_pos hsep]
    have hdrop2 : st.doc.drop (p0 + (fastWriteValue {} e).length) = ']' :: rrest := by
      rw [dropAdd, hdoc, List.drop_left]
      rfl
    have hlex2 : readTokenCore (readValue f
        { st with token_ := ⟨firstTT e, p0, p0 + tokLen e⟩, current_ := p0 + tokLen e } JValue.nullValue).2.2.doc
        (readValue f
        { st with token_ := ⟨firstTT e, p0, p0 + tokLen e⟩, current_ := p0 + tokLen e } JValue.nullValue).2.2.current_ =
        (false, ⟨.arrayEnd, p0 + (fastWriteValue {} e).length,
          p0 + (fastWriteValue {} e).length + 1⟩,
          p0 + (fastWriteValue {} e).length + 1) := by
      rw [hst2]
      exact lex_rbracket st.doc (p0 + (fastWriteValue {} e).length) rrest hdrop2
    have hrt2 := readToken_eq _ false _ _ hlex2
    have hsct2 := sct_step (readValue f
        { st with token_ := ⟨firstTT e, p0, p0 + tokLen e⟩, current_ := p0 + tokLen e } JValue.nullValue).2.2
      (some (readValue f
        { st with token_ := ⟨firstTT e, p0, p0 + tokLen e⟩, current_ := p0 + tokLen e } JValue.nullValue).2.1)
      (by rw [hrt2]; simp)
    rw [hrt2] at hsct2
    rw [hsct2]
    dsimp only
    rw [setLastElem_concat]
    rw [if_neg (by simp)]
    refine ⟨[(readValue f
        { st with token_ := ⟨firstTT e, p0, p0 + tokLen e⟩, current_ := p0 + tokLen e } JValue.nullValue).2.1], _, rfl, ?_, ?_⟩
    · show (jEq _ e && jEqList [] []) = true
      rw [hjeq]
      rfl
    · rw [hst2]
      have h0 : (fastWriteElems {} ([] : List JValue) false).length = 0 := rfl
      rw [h0]
      have e1 : p0 + ((fastWriteValue {} e).length + 0)
          = p0 + (fastWriteValue {} e).length := by omega
      rw [e1]
  | cons e2 es2 ihe =>
    intro e hsze hszes hwfe hwfes st p0 rrest xs hl fuel hdoc hcur hfeat hfuel
    have hnf : needFuelList (e :: e2 :: es2)
        = 1 + needFuel e + needFuelList (e2 :: es2) := rfl
    obtain ⟨f, rfl⟩ : ∃ f, fuel = f + 1 := ⟨fuel - 1, by
      have hnf2 : needFuelList (e2 :: es2) = 1 + needFuel e2 + needFuelList es2 := rfl
      omega⟩
    have hterm' : headTerm (fastWriteElems {} (e2 :: es2) false ++ ']' :: rrest)
        = true := headTerm_elems _ rrest
    have hlex := lex_value e hwfe st.doc p0 _ hdoc hterm'
    have hrt := readToken_eq st false _ _ (by rw [hcur]; exact hlex)
    have hsct := sct_step st (if hl = true then xs.getLast? else none)
      (by rw [hrt]; exact (firstTT_facts e).1)
    rw [hrt] at hsct
    unfold readArrayLoop
    dsimp only
    rw [hsct]
    dsimp only
    rw [loop_xs_eq xs hl]
    rw [if_neg (fun hb => (firstTT_facts e).2.2.1 hb.1)]
    rw [if_neg (show ¬(([] : List Char) ≠ []) from by simp)]
    try dsimp only
    obtain ⟨hok, hjeq, hst2⟩ := ih e hsze hwfe
      { st with token_ := ⟨firstTT e, p0, p0 + tokLen e⟩, current_ := p0 + tokLen e }
      p0 _ JValue.nullValue f hdoc hterm' rfl rfl hfeat (by omega)
    rw [if_neg (not_not_intro hok)]
    have hsep : (readValue f
        { st with token_ := ⟨firstTT e, p0, p0 + tokLen e⟩, current_ := p0 + tokLen e } JValue.nullValue).2.2.token_.type_
        ≠ .arraySeparator := by
      rw [hst2]
      exact (lastTT_facts e).2
    rw [if_pos hsep]
    have hdrop2 : st.doc.drop (p0 + (fastWriteValue {} e).length)
        = ',' :: ((fastWriteValue {} e2 ++ fastWriteElems {} es2 false) ++ ']' :: rrest) := by
      rw [dropAdd, hdoc, List.drop_left]
      rw [fwe_cons_false]
      rfl
    have hlex2 : readTokenCore (readValue f
        { st with token_ := ⟨firstTT e, p0, p0 + tokLen e⟩, current_ := p0 + tokLen e } JValue.nullValue).2.2.doc
        (readValue f
        { st with token_ := ⟨firstTT e, p0, p0 + tokLen e⟩, current_ := p0 + tokLen e } JValue.nullValue).2.2.current_ =
        (false, ⟨.arraySeparator, p0 + (fastWriteValue {} e).length,
          p0 + (fastWriteValue {} e).length + 1⟩,
          p0 + (fastWriteValue {} e).length + 1) := by
      rw [hst2]
      exact lex_comma st.doc (p0 + (fastWriteValue {} e).length) _ hdrop2
    have hrt2 := readToken_eq _ false _ _ hlex2
    have hsct2 := sct_step (readValue f
        { st with token_ := ⟨firstTT e, p0, p0 + tokLen e⟩, current_ := p0 + tokLen e } JValue.nullValue).2.2
      (some (readValue f
        { st with token_ := ⟨firstTT e, p0, p0 + tokLen e⟩, current_ := p0 + tokLen e } JValue.nullValue).2.1)
      (by rw [hrt2]; simp)
    rw [hrt2] at hsct2
    rw [hsct2]
    dsimp only
    rw [setLastElem_concat]
    rw [if_pos rfl]
    have hdoc3 : (readValue f
        { st with token_ := ⟨firstTT e, p0, p0 + tokLen e⟩, current_ := p0 + tokLen e } JValue.nullValue).2.2.doc.drop
          (p0 + (fastWriteValue {} e).length + 1)
        = fastWriteValue {} e2 ++ (fastWriteElems {} es2 false ++ ']' :: rrest) := by
      rw [hst2]
      show st.doc.drop _ = _
      rw [dropAdd, hdrop2]
      show (fastWriteValue {} e2 ++ fastWriteElems {} es2 false) ++ ']' :: rrest = _
      rw [List.append_assoc]
    obtain ⟨ys2, st4, hloop, hjeq2, hst4⟩ :=
      ihe e2 (hszes e2 (List.mem_cons_self ..))
        (fun x hx => hszes x (List.mem_cons_of_mem _ hx))
        (by rw [wfList, Bool.and_eq_true] at hwfes; exact hwfes.1)
        (by rw [wfList, Bool.and_eq_true] at hwfes; exact hwfes.2)
        { (readValue f
            { st with token_ := ⟨firstTT e, p0, p0 + tokLen e⟩, current_ := p0 + tokLen e } JValue.nullValue).2.2 with
          token_ := ⟨.arraySeparator, p0 + (fastWriteValue {} e).length, p0 + (fastWriteValue {} e).length + 1⟩, current_ := p0 + (fastWriteValue {} e).length + 1 }
        (p0 + (fastWriteValue {} e).length + 1) rrest
        (xs ++ [(readValue f
            { st with token_ := ⟨firstTT e, p0, p0 + tokLen e⟩, current_ := p0 + tokLen e } JValue.nullValue).2.1]) true f
        hdoc3 rfl (by rw [hst2]; exact hfeat) (by omega)
    rw [hloop]
    refine ⟨(readValue f
        { st with token_ := ⟨firstTT e, p0, p0 + tokLen e⟩, current_ := p0 + tokLen e } JValue.nullValue).2.1 :: ys2, st4, ?_, ?_, ?_⟩
    · have happ : (xs ++ [(readValue f
          { st with token_ := ⟨firstTT e, p0, p0 + tokLen e⟩, current_ := p0 + tokLen e } JValue.nullValue).2.1]) ++ ys2
          = xs ++ (readValue f
          { st with token_ := ⟨firstTT e, p0, p0 + tokLen e⟩, current_ := p0 + tokLen e } JValue.nullValue).2.1 :: ys2 := by
        rw [List.append_assoc]
        rfl
      rw [happ]
    · show (jEq _ e && jEqList ys2 (e2 :: es2)) = true
      rw [hjeq, hjeq2]
      rfl
    · have hL2 : (fastWriteElems {} (e2 :: es2) false).length
          = 1 + ((fastWriteValue {} e2).length + (fastWriteElems {} es2 false).length) := by
        rw [fwe_cons_false]
        simp only [List.length_cons, List.length_append, List.length_nil]
        omega
      rw [hst4, hst2, hL2]
      have eq1 : p0 + (fastWriteValue {} e).length + 1 +
          ((fastWriteValue {} e2).length + (fastWriteElems {} es2 false).length) + 1
          = p0 + ((fastWriteValue {} e).length +
            (1 + ((fastWriteValue {} e2).length
              + (fastWriteElems {} es2 false).length))) + 1 := by omega
      have eq2 : p0 + (fastWriteValue {} e).length + 1 +
          ((fastWriteValue {} e2).length + (fastWriteElems {} es2 false).length)
          = p0 + ((fastWriteValue {} e).length +
            (1 + ((fastWriteValue {} e2).length
              + (fastWriteElems {} es2 false).length))) := by omega
      rw [eq1, eq2]

theorem fwe_cons_true (e : JValue) (es : List JValue) :
    fastWriteElems {} (e :: es) true
      = fastWriteValue {} e ++ fastWriteElems {} es false := rfl

theorem needFuelList_pos (ys : List JValue) : 1 ≤ needFuelList ys := by
  cases ys with
  | nil => exact Nat.le_refl 1
  | cons e es =>
    show 1 ≤ 1 + needFuel e + needFuelList es
    omega

theorem RT_arr (N : Nat) (ih : ∀ v : JValue, sizeOf v ≤ N → wfValue v = true → RTv v)
    (xs : List JValue) (m : VMeta) (hsz : ∀ x ∈ xs, sizeOf x ≤ N)
    (hwf : wfList xs = true) : RTv (.varr xs m) := by
  intro st p rest cur fuel hdoc hterm hcur htok hfeat hfuel
  have hnf : needFuel (JValue.varr xs m) = 2 + needFuelList xs := rfl
  have hnfl := needFuelList_pos xs
  obtain ⟨f, hf, hfl⟩ : ∃ f, fuel = f + 1 + 1 ∧ needFuelList xs ≤ f :=
    ⟨fuel - 2, by omega, by omega⟩
  subst hf
  have htt : firstTT (JValue.varr xs m) = .arrayBegin := rfl
  have htl : tokLen (JValue.varr xs m) = 1 := rfl
  rw [htt, htl] at htok
  rw [htl] at hcur
  unfold readValue
  dsimp only
  rw [htok]
  dsimp only
  unfold readArray
  dsimp only
  cases xs with
  | nil =>
    obtain ⟨g, hg⟩ : ∃ g, f = g + 1 := ⟨f - 1, by omega⟩
    subst hg
    have hdrop : st.doc.drop (p + 1) = ']' :: rest := by
      rw [dropAdd, hdoc]
      rfl
    have hlex := lex_rbracket st.doc (p + 1) rest hdrop
    have hrt := readToken_eq st false _ _ (by rw [hcur]; exact hlex)
    have hsct := sct_step st
      (if false = true then ([] : List JValue).getLast? else none)
      (by rw [hrt]; simp)
    rw [hrt] at hsct
    unfold readArrayLoop
    dsimp only
    rw [hsct]
    dsimp only
    rw [loop_xs_eq [] false]
    have hbrk : TokenType.arrayEnd = TokenType.arrayEnd ∧
        (¬false = true ∨ st.features_.allowDroppedNullPlaceholders_ = true) :=
      ⟨rfl, Or.inl (by simp)⟩
    rw [if_pos hbrk]
    dsimp only
    rw [if_neg (not_not_intro rfl)]
    rw [if_neg (not_not_intro rfl)]
    rw [if_neg (Bool.false_ne_true)]
    refine ⟨rfl, ?_, ?_⟩
    · rfl
    · have hW : (fastWriteValue {} (JValue.varr [] m)).length = 2 := rfl
      have hlast : lastTT (JValue.varr [] m) = .arrayEnd := rfl
      have hll : lastTokLen (JValue.varr [] m) = 1 := rfl
      rw [hW, hlast, hll]
      have e1 : p + 2 - 1 = p + 1 := by omega
      rw [e1]
  | cons e es =>
    have hdrop : st.doc.drop (p + 1)
        = fastWriteValue {} e ++ (fastWriteElems {} es false ++ ']' :: rest) := by
      rw [dropAdd, hdoc]
      show ((fastWriteElems {} (e :: es) true ++ [']']) ++ rest) = _
      rw [fwe_cons_true]
      simp [List.append_assoc]
    have hsze : sizeOf e ≤ N := hsz e (List.mem_cons_self ..)
    have hszes : ∀ x ∈ es, sizeOf x ≤ N := fun x hx => hsz x (List.mem_cons_of_mem _ hx)
    have hwfe : wfValue e = true := by
      rw [wfList, Bool.and_eq_true] at hwf
      exact hwf.1
    have hwfes : wfList es = true := by
      rw [wfList, Bool.and_eq_true] at hwf
      exact hwf.2
    obtain ⟨ys, st2, hloop, hjeq, hst2⟩ :=
      arr_loop N ih es e hsze hszes hwfe hwfes st (p + 1) rest [] false f
        hdrop hcur hfeat hfl
    rw [hloop]
    dsimp only
    rw [if_neg (not_not_intro rfl)]
    rw [if_neg (not_not_intro (by rw [hst2]))]
    rw [if_neg (by simp)]
    refine ⟨rfl, ?_, ?_⟩
    · show jEqList ([] ++ ys) (e :: es) = true
      rw [List.nil_append]
      exact hjeq
    · rw [hst2]
      have hW : (fastWriteValue {} (JValue.varr (e :: es) m)).length
          = ((fastWriteValue {} e).length + (fastWriteElems {} es false).length) + 2 := by
        show ('[' :: (fastWriteElems {} (e :: es) true ++ [']'])).length = _
        rw [fwe_cons_true]
        simp only [List.length_cons, List.length_append, List.length_nil]
        try omega
      have hlast : lastTT (JValue.varr (e :: es) m) = .arrayEnd := rfl
      have hll : lastTokLen (JValue.varr (e :: es) m) = 1 := rfl
      rw [hW, hlast, hll]
      have e1 : p + 1 + ((fastWriteValue {} e).length
            + (fastWriteElems {} es false).length) + 1
          = p + ((fastWriteValue {} e).length
            + (fastWriteElems {} es false).length + 2) := by omega
      have e2 : p + 1 + ((fastWriteValue {} e).length
            + (fastWriteElems {} es false).length)
          = p + ((fastWriteValue {} e).length
            + (fastWriteElems {} es false).length + 2) - 1 := by omega
      rw [e1, e2]

-- ## Round trip: objects

theorem fwm_cons_true (k : List Char) (v : JValue) (ms : List (List Char × JValue)) :
    fastWriteMembers {} ((k, v) :: ms) true
      = ((valueToQuotedString k ++ [':']) ++ fastWriteValue {} v)
        ++ fastWriteMembers {} ms false := rfl

theorem fwm_cons_false (k : List Char) (v : JValue) (ms : List (List Char × JValue)) :
    fastWriteMembers {} ((k, v) :: ms) false
      = ',' :: (((valueToQuotedString k ++ [':']) ++ fastWriteValue {} v)
        ++ fastWriteMembers {} ms false) := rfl

theorem headTerm_members (ms : List (List Char × JValue)) (r : List Char) :
    headTerm (fastWriteMembers {} ms false ++ '\x7d' :: r) = true := by
  cases ms with
  | nil => rfl
  | cons kv ms2 =>
    obtain ⟨k, v⟩ := kv
    rfl

theorem objSet_find_self : ∀ (ms : List (List Char × JValue)) (k : List Char)
    (v : JValue), objFind ms k = some v → objSet ms k v = ms := by
  intro ms
  induction ms with
  | nil => intro k v h; simp [objFind] at h
  | cons kv ms ih =>
    intro k v h
    obtain ⟨k', w⟩ := kv
    rw [objFind] at h
    rw [objSet]
    by_cases he : k' = k
    · rw [if_pos he] at h ⊢
      obtain rfl : w = v := Option.some_injective _ h
      rfl
    · rw [if_neg he] at h ⊢
      rw [ih k v h]

theorem sct_reads (d : List Char) (c : Nat) (tok : Token) (er : List ErrorInfo)
    (fe : Features) (co : Bool) (lv : Option JValue) (t : Token) (q : Nat)
    (h : readTokenCore d c = (false, t, q)) (hc : t.type_ ≠ .comment) :
    skipCommentTokens ⟨d, c, tok, er, fe, co⟩ [] lv
      = (false, ⟨d, q, t, er, fe, co⟩, [], lv) := by
  have hrt : readToken ⟨d, c, tok, er, fe, co⟩ = (false, ⟨d, q, t, er, fe, co⟩) := by
    unfold readToken
    rw [show readTokenCore (⟨d, c, tok, er, fe, co⟩ : PState).doc
      (⟨d, c, tok, er, fe, co⟩ : PState).current_ = (false, t, q) from h]
  have h2 := sct_step ⟨d, c, tok, er, fe, co⟩ lv (by rw [hrt]; exact hc)
  rw [hrt] at h2
  exact h2


set_option maxHeartbeats 3200000 in
/-- The do-while loop of `readObject` on the serialization of a nonempty
member list, entered with the first member's key token next. -/
theorem obj_loop (N : Nat)
    (ih : ∀ v : JValue, sizeOf v ≤ N → wfValue v = true → RTv v) :
    ∀ (ms : List (List Char × JValue)) (k : List Char) (v : JValue),
    sizeOf v ≤ N → (∀ x ∈ ms, sizeOf x.2 ≤ N) →
    wfStr k = true → wfValue v = true → wfMembers ms = true →
    (((k, v) :: ms).map Prod.fst).Nodup →
    ∀ (st : PState) (p0 : Nat) (rrest : List Char)
      (msAcc : List (List Char × JValue)) (ln : Option (List Char)) (fuel : Nat),
    (∀ k2 ∈ ((k, v) :: ms).map Prod.fst, k2 ∉ msAcc.map Prod.fst) →
    (∀ nm w, ln = some nm → objFind msAcc nm = some w → objSet msAcc nm w = msAcc) →
    st.doc.drop p0 = valueToQuotedString k ++ (':' :: (fastWriteValue {} v ++
      (fastWriteMembers {} ms false ++ '\x7d' :: rrest))) →
    st.current_ = p0 →
    st.features_ = Features.all →
    needFuelMem ((k, v) :: ms) ≤ fuel →
    ∃ ms2 lnOut st2,
      readObjectLoop fuel st msAcc [] ln = (true, false, msAcc ++ ms2, [], lnOut, st2) ∧
      jEqMembers ms2 ((k, v) :: ms) = true ∧
      st2 = { st with
        current_ := p0 + ((valueToQuotedString k).length + 1
          + (fastWriteValue {} v).length + (fastWriteMembers {} ms false).length) + 1,
        token_ := ⟨.objectEnd,
          p0 + ((valueToQuotedString k).length + 1 + (fastWriteValue {} v).length
            + (fastWriteMembers {} ms false).length),
          p0 + ((valueToQuotedString k).length + 1 + (fastWriteValue {} v).length
            + (fastWriteMembers {} ms false).length) + 1⟩ } := by
  intro ms
  induction ms with
  | nil =>
    intro k v hszv _ hwfk hwfv _ hnod st p0 rrest msAcc ln fuel
      hfresh hupd hdoc hcur hfeat hfuel
    have hnfm : needFuelMem ((k, v) :: ([] : List (List Char × JValue))) = 1 + needFuel v + needFuelMem ([] : List (List Char × JValue)) := rfl
    rw [hnfm] at hfuel
    obtain ⟨f, rfl⟩ : ∃ f, fuel = f + 1 := ⟨fuel - 1, by omega⟩
    have hkfresh : k ∉ msAcc.map Prod.fst := hfresh k (by exact List.mem_cons_self k _)
    have hdecK := (string_lex_decode k hwfk st.doc p0 _ hdoc).2
    have hlexK := (string_lex_decode k hwfk st.doc p0 _ hdoc).1
    have hrt := readToken_eq st false _ _ (by rw [hcur]; exact hlexK)
    have hsct := sct_step st (Option.bind ln (objFind msAcc)) (by rw [hrt]; simp)
    rw [hrt] at hsct
    unfold readObjectLoop
    dsimp only
    rw [hsct]
    dsimp only
    rcases ln with _ | nm
    · dsimp only [Option.bind]
      rw [if_neg (fun hb => TokenType.noConfusion hb.1)]
      have hname : readObjectName { st with token_ := ⟨.tstring, p0, p0 + (valueToQuotedString k).length⟩, current_ := p0 + (valueToQuotedString k).length } = .ok k := by
        unfold readObjectName
        rw [if_pos rfl]
        dsimp only
        rw [hdecK]
      rw [hname]
      dsimp only
      have hdrop1 : st.doc.drop (p0 + (valueToQuotedString k).length)
          = ':' :: (fastWriteValue {} v ++ (fastWriteMembers {} ([] : List (List Char × JValue)) false ++ '\x7d' :: rrest)) := by
        rw [dropAdd, hdoc, List.drop_left]
      have hlex1 := lex_colon st.doc (p0 + (valueToQuotedString k).length) _ hdrop1
      have hrt1 := readToken_eq { st with token_ := ⟨.tstring, p0, p0 + (valueToQuotedString k).length⟩, current_ := p0 + (valueToQuotedString k).length } false _ _ hlex1
      have hsct1 := sct_step { st with token_ := ⟨.tstring, p0, p0 + (valueToQuotedString k).length⟩, current_ := p0 + (valueToQuotedString k).length } none (by rw [hrt1]; simp)
      rw [hrt1] at hsct1
      rw [hsct1]
      dsimp only
      rw [if_neg (not_not_intro rfl)]
      have hdocv : st.doc.drop (p0 + (valueToQuotedString k).length + 1)
          = fastWriteValue {} v ++ (fastWriteMembers {} ([] : List (List Char × JValue)) false ++ '\x7d' :: rrest) := by
        rw [dropAdd, hdrop1]
        rfl
      have htermv : headTerm (fastWriteMembers {} ([] : List (List Char × JValue)) false ++ '\x7d' :: rrest) = true :=
        headTerm_members ([] : List (List Char × JValue)) rrest
      have hlexv := lex_value v hwfv st.doc (p0 + (valueToQuotedString k).length + 1) _ hdocv htermv
      have hrt2v := readToken_eq { { st with token_ := ⟨.tstring, p0, p0 + (valueToQuotedString k).length⟩, current_ := p0 + (valueToQuotedString k).length } with token_ := ⟨.memberSeparator, p0 + (valueToQuotedString k).length, p0 + (valueToQuotedString k).length + 1⟩, current_ := p0 + (valueToQuotedString k).length + 1 } false _ _ hlexv
      have hsct2v := sct_step { { st with token_ := ⟨.tstring, p0, p0 + (valueToQuotedString k).length⟩, current_ := p0 + (valueToQuotedString k).length } with token_ := ⟨.memberSeparator, p0 + (valueToQuotedString k).length, p0 + (valueToQuotedString k).length + 1⟩, current_ := p0 + (valueToQuotedString k).length + 1 } none (by rw [hrt2v]; exact (firstTT_facts v).1)
      rw [hrt2v] at hsct2v
      rw [hsct2v]
      dsimp only
      rw [if_neg (show ¬(([] : List Char) ≠ []) from by simp)]
      try dsimp only
      rw [objFind_not_mem msAcc k hkfresh]
      rw [Option.getD_none]
      rw [objSet_not_mem msAcc k JValue.nullValue hkfresh]
      obtain ⟨hok, hjeqv, hst2⟩ := ih v hszv hwfv
        { { { st with token_ := ⟨.tstring, p0, p0 + (valueToQuotedString k).length⟩, current_ := p0 + (valueToQuotedString k).length } with token_ := ⟨.memberSeparator, p0 + (valueToQuotedString k).length, p0 + (valueToQuotedString k).length + 1⟩, current_ := p0 + (valueToQuotedString k).length + 1 } with token_ := ⟨firstTT v, p0 + (valueToQuotedString k).length + 1, p0 + (valueToQuotedString k).length + 1 + tokLen v⟩, current_ := p0 + (valueToQuotedString k).length + 1 + tokLen v }
        (p0 + (valueToQuotedString k).length + 1) _ JValue.nullValue f hdocv htermv rfl rfl hfeat (by omega)
      rw [if_neg (not_not_intro hok)]
      have hsep : (readValue f { { { st with token_ := ⟨.tstring, p0, p0 + (valueToQuotedString k).length⟩, current_ := p0 + (valueToQuotedString k).length } with token_ := ⟨.memberSeparator, p0 + (valueToQuotedString k).length, p0 + (valueToQuotedString k).length + 1⟩, current_ := p0 + (valueToQuotedString k).length + 1 } with token_ := ⟨firstTT v, p0 + (valueToQuotedString k).length + 1, p0 + (valueToQuotedString k).length + 1 + tokLen v⟩, current_ := p0 + (valueToQuotedString k).length + 1 + tokLen v } JValue.nullValue).2.2.token_.type_ ≠ .arraySeparator := by
        rw [hst2]
        exact (lastTT_facts v).2
      rw [if_pos hsep]
      rw [objSet_append_last msAcc k JValue.nullValue _ hkfresh]
      have hdropEnd : st.doc.drop (p0 + (valueToQuotedString k).length + 1 + (fastWriteValue {} v).length) = '\x7d' :: rrest := by
        rw [dropAdd, hdocv, List.drop_left]
        rfl
      have hlex2 : readTokenCore (readValue f { { { st with token_ := ⟨.tstring, p0, p0 + (valueToQuotedString k).length⟩, current_ := p0 + (valueToQuotedString k).length } with token_ := ⟨.memberSeparator, p0 + (valueToQuotedString k).length, p0 + (valueToQuotedString k).length + 1⟩, current_ := p0 + (valueToQuotedString k).length + 1 } with token_ := ⟨firstTT v, p0 + (valueToQuotedString k).length + 1, p0 + (valueToQuotedString k).length + 1 + tokLen v⟩, current_ := p0 + (valueToQuotedString k).length + 1 + tokLen v } JValue.nullValue).2.2.doc (readValue f { { { st with token_ := ⟨.tstring, p0, p0 + (valueToQuotedString k).length⟩, current_ := p0 + (valueToQuotedString k).length } with token_ := ⟨.memberSeparator, p0 + (valueToQuotedString k).length, p0 + (valueToQuotedString k).length + 1⟩, current_ := p0 + (valueToQuotedString k).length + 1 } with token_ := ⟨firstTT v, p0 + (valueToQuotedString k).length + 1, p0 + (valueToQuotedString k).length + 1 + tokLen v⟩, current_ := p0 + (valueToQuotedString k).length + 1 + tokLen v } JValue.nullValue).2.2.current_ =
          (false, ⟨.objectEnd, p0 + (valueToQuotedString k).length + 1 + (fastWriteValue {} v).length, p0 + (valueToQuotedString k).length + 1 + (fastWriteValue {} v).length + 1⟩, p0 + (valueToQuotedString k).length + 1 + (fastWriteValue {} v).length + 1) := by
        rw [hst2]
        exact lex_rbrace st.doc (p0 + (valueToQuotedString k).length + 1 + (fastWriteValue {} v).length) rrest hdropEnd
      have hrt2 := readToken_eq _ false _ _ hlex2
      have hsct2 := sct_step (readValue f { { { st with token_ := ⟨.tstring, p0, p0 + (valueToQuotedString k).length⟩, current_ := p0 + (valueToQuotedString k).length } with token_ := ⟨.memberSeparator, p0 + (valueToQuotedString k).length, p0 + (valueToQuotedString k).length + 1⟩, current_ := p0 + (valueToQuotedString k).length + 1 } with token_ := ⟨firstTT v, p0 + (valueToQuotedString k).length + 1, p0 + (valueToQuotedString k).length + 1 + tokLen v⟩, current_ := p0 + (valueToQuotedString k).length + 1 + tokLen v } JValue.nullValue).2.2 (some (readValue f { { { st with token_ := ⟨.tstring, p0, p0 + (valueToQuotedString k).length⟩, current_ := p0 + (valueToQuotedString k).length } with token_ := ⟨.memberSeparator, p0 + (valueToQuotedString k).length, p0 + (valueToQuotedString k).length + 1⟩, current_ := p0 + (valueToQuotedString k).length + 1 } with token_ := ⟨firstTT v, p0 + (valueToQuotedString k).length + 1, p0 + (valueToQuotedString k).length + 1 + tokLen v⟩, current_ := p0 + (valueToQuotedString k).length + 1 + tokLen v } JValue.nullValue).2.1) (by rw [hrt2]; simp)
      rw [hrt2] at hsct2
      rw [hsct2]
      dsimp only
      rw [objSet_append_last msAcc k _ _ hkfresh]
      rw [if_neg (by simp)]
      refine ⟨[(k, (readValue f { { { st with token_ := ⟨.tstring, p0, p0 + (valueToQuotedString k).length⟩, current_ := p0 + (valueToQuotedString k).length } with token_ := ⟨.memberSeparator, p0 + (valueToQuotedString k).length, p0 + (valueToQuotedString k).length + 1⟩, current_ := p0 + (valueToQuotedString k).length + 1 } with token_ := ⟨firstTT v, p0 + (valueToQuotedString k).length + 1, p0 + (valueToQuotedString k).length + 1 + tokLen v⟩, current_ := p0 + (valueToQuotedString k).length + 1 + tokLen v } JValue.nullValue).2.1)], some k, _, rfl, ?_, ?_⟩
      · show ((k == k && jEq _ v) && jEqMembers [] []) = true
        rw [hjeqv]
        simp [jEqMembers]
      · rw [hst2]
        have h0 : (fastWriteMembers {} ([] : List (List Char × JValue)) false).length = 0 := rfl
        rw [h0]
        have e1 : p0 + ((valueToQuotedString k).length + 1 + (fastWriteValue {} v).length + 0)
            = p0 + (valueToQuotedString k).length + 1 + (fastWriteValue {} v).length := by omega
        rw [e1]

    · dsimp only [Option.bind]
      rcases hfind : objFind msAcc nm with _ | w
      · dsimp only
        rw [if_neg (fun hb => TokenType.noConfusion hb.1)]
        have hname : readObjectName { st with token_ := ⟨.tstring, p0, p0 + (valueToQuotedString k).length⟩, current_ := p0 + (valueToQuotedString k).length } = .ok k := by
          unfold readObjectName
          rw [if_pos rfl]
          dsimp only
          rw [hdecK]
        rw [hname]
        dsimp only
        have hdrop1 : st.doc.drop (p0 + (valueToQuotedString k).length)
            = ':' :: (fastWriteValue {} v ++ (fastWriteMembers {} ([] : List (List Char × JValue)) false ++ '\x7d' :: rrest)) := by
          rw [dropAdd, hdoc, List.drop_left]
        have hlex1 := lex_colon st.doc (p0 + (valueToQuotedString k).length) _ hdrop1
        have hrt1 := readToken_eq { st with token_ := ⟨.tstring, p0, p0 + (valueToQuotedString k).length⟩, current_ := p0 + (valueToQuotedString k).length } false _ _ hlex1
        have hsct1 := sct_step { st with token_ := ⟨.tstring, p0, p0 + (valueToQuotedString k).length⟩, current_ := p0 + (valueToQuotedString k).length } none (by rw [hrt1]; simp)
        rw [hrt1] at hsct1
        rw [hsct1]
        dsimp only
        rw [if_neg (not_not_intro rfl)]
        have hdocv : st.doc.drop (p0 + (valueToQuotedString k).length + 1)
            = fastWriteValue {} v ++ (fastWriteMembers {} ([] : List (List Char × JValue)) false ++ '\x7d' :: rrest) := by
          rw [dropAdd, hdrop1]
          rfl
        have htermv : headTerm (fastWriteMembers {} ([] : List (List Char × JValue)) false ++ '\x7d' :: rrest) = true :=
          headTerm_members ([] : List (List Char × JValue)) rrest
        have hlexv := lex_value v hwfv st.doc (p0 + (valueToQuotedString k).length + 1) _ hdocv htermv
        have hrt2v := readToken_eq { { st with token_ := ⟨.tstring, p0, p0 + (valueToQuotedString k).length⟩, current_ := p0 + (valueToQuotedString k).length } with token_ := ⟨.memberSeparator, p0 + (valueToQuotedString k).length, p0 + (valueToQuotedString k).length + 1⟩, current_ := p0 + (valueToQuotedString k).length + 1 } false _ _ hlexv
        have hsct2v := sct_step { { st with token_ := ⟨.tstring, p0, p0 + (valueToQuotedString k).length⟩, current_ := p0 + (valueToQuotedString k).length } with token_ := ⟨.memberSeparator, p0 + (valueToQuotedString k).length, p0 + (valueToQuotedString k).length + 1⟩, current_ := p0 + (valueToQuotedString k).length + 1 } none (by rw [hrt2v]; exact (firstTT_facts v).1)
        rw [hrt2v] at hsct2v
        rw [hsct2v]
        dsimp only
        rw [if_neg (show ¬(([] : List Char) ≠ []) from by simp)]
        try dsimp only
        rw [objFind_not_mem msAcc k hkfresh]
        rw [Option.getD_none]
        rw [objSet_not_mem msAcc k JValue.nullValue hkfresh]
        obtain ⟨hok, hjeqv, hst2⟩ := ih v hszv hwfv
          { { { st with token_ := ⟨.tstring, p0, p0 + (valueToQuotedString k).length⟩, current_ := p0 + (valueToQuotedString k).length } with token_ := ⟨.memberSeparator, p0 + (valueToQuotedString k).length, p0 + (valueToQuotedString k).length + 1⟩, current_ := p0 + (valueToQuotedString k).length + 1 } with token_ := ⟨firstTT v, p0 + (valueToQuotedString k).length + 1, p0 + (valueToQuotedString k).length + 1 + tokLen v⟩, current_ := p0 + (valueToQuotedString k).length + 1 + tokLen v }
          (p0 + (valueToQuotedString k).length + 1) _ JValue.nullValue f hdocv htermv rfl rfl hfeat (by omega)
        rw [if_neg (not_not_intro hok)]
        have hsep : (readValue f { { { st with token_ := ⟨.tstring, p0, p0 + (valueToQuotedString k).length⟩, current_ := p0 + (valueToQuotedString k).length } with token_ := ⟨.memberSeparator, p0 + (valueToQuotedString k).length, p0 + (valueToQuotedString k).length + 1⟩, current_ := p0 + (valueToQuotedString k).length + 1 } with token_ := ⟨firstTT v, p0 + (valueToQuotedString k).length + 1, p0 + (valueToQuotedString k).length + 1 + tokLen v⟩, current_ := p0 + (valueToQuotedString k).length + 1 + tokLen v } JValue.nullValue).2.2.token_.type_ ≠ .arraySeparator := by
          rw [hst2]
          exact (lastTT_facts v).2
        rw [if_pos hsep]
        rw [objSet_append_last msAcc k JValue.nullValue _ hkfresh]
        have hdropEnd : st.doc.drop (p0 + (valueToQuotedString k).length + 1 + (fastWriteValue {} v).length) = '\x7d' :: rrest := by
          rw [dropAdd, hdocv, List.drop_left]
          rfl
        have hlex2 : readTokenCore (readValue f { { { st with token_ := ⟨.tstring, p0, p0 + (valueToQuotedString k).length⟩, current_ := p0 + (valueToQuotedString k).length } with token_ := ⟨.memberSeparator, p0 + (valueToQuotedString k).length, p0 + (valueToQuotedString k).length + 1⟩, current_ := p0 + (valueToQuotedString k).length + 1 } with token_ := ⟨firstTT v, p0 + (valueToQuotedString k).length + 1, p0 + (valueToQuotedString k).length + 1 + tokLen v⟩, current_ := p0 + (valueToQuotedString k).length + 1 + tokLen v } JValue.nullValue).2.2.doc (readValue f { { { st with token_ := ⟨.tstring, p0, p0 + (valueToQuotedString k).length⟩, current_ := p0 + (valueToQuotedString k).length } with token_ := ⟨.memberSeparator, p0 + (valueToQuotedString k).length, p0 + (valueToQuotedString k).length + 1⟩, current_ := p0 + (valueToQuotedString k).length + 1 } with token_ := ⟨firstTT v, p0 + (valueToQuotedString k).length + 1, p0 + (valueToQuotedString k).length + 1 + tokLen v⟩, current_ := p0 + (valueToQuotedString k).length + 1 + tokLen v } JValue.nullValue).2.2.current_ =
            (false, ⟨.objectEnd, p0 + (valueToQuotedString k).length + 1 + (fastWriteValue {} v).length, p0 + (valueToQuotedString k).length + 1 + (fastWriteValue {} v).length + 1⟩, p0 + (valueToQuotedString k).length + 1 + (fastWriteValue {} v).length + 1) := by
          rw [hst2]
          exact lex_rbrace st.doc (p0 + (valueToQuotedString k).length + 1 + (fastWriteValue {} v).length) rrest hdropEnd
        have hrt2 := readToken_eq _ false _ _ hlex2
        have hsct2 := sct_step (readValue f { { { st with token_ := ⟨.tstring, p0, p0 + (valueToQuotedString k).length⟩, current_ := p0 + (valueToQuotedString k).length } with token_ := ⟨.memberSeparator, p0 + (valueToQuotedString k).length, p0 + (valueToQuotedString k).length + 1⟩, current_ := p0 + (valueToQuotedString k).length + 1 } with token_ := ⟨firstTT v, p0 + (valueToQuotedString k).length + 1, p0 + (valueToQuotedString k).length + 1 + tokLen v⟩, current_ := p0 + (valueToQuotedString k).length + 1 + tokLen v } JValue.nullValue).2.2 (some (readValue f { { { st with token_ := ⟨.tstring, p0, p0 + (valueToQuotedString k).length⟩, current_ := p0 + (valueToQuotedString k).length } with token_ := ⟨.memberSeparator, p0 + (valueToQuotedString k).length, p0 + (valueToQuotedString k).length + 1⟩, current_ := p0 + (valueToQuotedString k).length + 1 } with token_ := ⟨firstTT v, p0 + (valueToQuotedString k).length + 1, p0 + (valueToQuotedString k).length + 1 + tokLen v⟩, current_ := p0 + (valueToQuotedString k).length + 1 + tokLen v } JValue.nullValue).2.1) (by rw [hrt2]; simp)
        rw [hrt2] at hsct2
        rw [hsct2]
        dsimp only
        rw [objSet_append_last msAcc k _ _ hkfresh]
        rw [if_neg (by simp)]
        refine ⟨[(k, (readValue f { { { st with token_ := ⟨.tstring, p0, p0 + (valueToQuotedString k).length⟩, current_ := p0 + (valueToQuotedString k).length } with token_ := ⟨.memberSeparator, p0 + (valueToQuotedString k).length, p0 + (valueToQuotedString k).length + 1⟩, current_ := p0 + (valueToQuotedString k).length + 1 } with token_ := ⟨firstTT v, p0 + (valueToQuotedString k).length + 1, p0 + (valueToQuotedString k).length + 1 + tokLen v⟩, current_ := p0 + (valueToQuotedString k).length + 1 + tokLen v } JValue.nullValue).2.1)], some k, _, rfl, ?_, ?_⟩
        · show ((k == k && jEq _ v) && jEqMembers [] []) = true
          rw [hjeqv]
          simp [jEqMembers]
        · rw [hst2]
          have h0 : (fastWriteMembers {} ([] : List (List Char × JValue)) false).length = 0 := rfl
          rw [h0]
          have e1 : p0 + ((valueToQuotedString k).length + 1 + (fastWriteValue {} v).length + 0)
              = p0 + (valueToQuotedString k).length + 1 + (fastWriteValue {} v).length := by omega
          rw [e1]

      · dsimp only
        rw [hupd nm w rfl hfind]
        rw [if_neg (fun hb => TokenType.noConfusion hb.1)]
        have hname : readObjectName { st with token_ := ⟨.tstring, p0, p0 + (valueToQuotedString k).length⟩, current_ := p0 + (valueToQuotedString k).length } = .ok k := by
          unfold readObjectName
          rw [if_pos rfl]
          dsimp only
          rw [hdecK]
        rw [hname]
        dsimp only
        have hdrop1 : st.doc.drop (p0 + (valueToQuotedString k).length)
            = ':' :: (fastWriteValue {} v ++ (fastWriteMembers {} ([] : List (List Char × JValue)) false ++ '\x7d' :: rrest)) := by
          rw [dropAdd, hdoc, List.drop_left]
        have hlex1 := lex_colon st.doc (p0 + (valueToQuotedString k).length) _ hdrop1
        have hrt1 := readToken_eq { st with token_ := ⟨.tstring, p0, p0 + (valueToQuotedString k).length⟩, current_ := p0 + (valueToQuotedString k).length } false _ _ hlex1
        have hsct1 := sct_step { st with token_ := ⟨.tstring, p0, p0 + (valueToQuotedString k).length⟩, current_ := p0 + (valueToQuotedString k).length } none (by rw [hrt1]; simp)
        rw [hrt1] at hsct1
        rw [hsct1]
        dsimp only
        rw [if_neg (not_not_intro rfl)]
        have hdocv : st.doc.drop (p0 + (valueToQuotedString k).length + 1)
            = fastWriteValue {} v ++ (fastWriteMembers {} ([] : List (List Char × JValue)) false ++ '\x7d' :: rrest) := by
          rw [dropAdd, hdrop1]
          rfl
        have htermv : headTerm (fastWriteMembers {} ([] : List (List Char × JValue)) false ++ '\x7d' :: rrest) = true :=
          headTerm_members ([] : List (List Char × JValue)) rrest
        have hlexv := lex_value v hwfv st.doc (p0 + (valueToQuotedString k).length + 1) _ hdocv htermv
        have hrt2v := readToken_eq { { st with token_ := ⟨.tstring, p0, p0 + (valueToQuotedString k).length⟩, current_ := p0 + (valueToQuotedString k).length } with token_ := ⟨.memberSeparator, p0 + (valueToQuotedString k).length, p0 + (valueToQuotedString k).length + 1⟩, current_ := p0 + (valueToQuotedString k).length + 1 } false _ _ hlexv
        have hsct2v := sct_step { { st with token_ := ⟨.tstring, p0, p0 + (valueToQuotedString k).length⟩, current_ := p0 + (valueToQuotedString k).length } with token_ := ⟨.memberSeparator, p0 + (valueToQuotedString k).length, p0 + (valueToQuotedString k).length + 1⟩, current_ := p0 + (valueToQuotedString k).length + 1 } none (by rw [hrt2v]; exact (firstTT_facts v).1)
        rw [hrt2v] at hsct2v
        rw [hsct2v]
        dsimp only
        rw [if_neg (show ¬(([] : List Char) ≠ []) from by simp)]
        try dsimp only
        rw [objFind_not_mem msAcc k hkfresh]
        rw [Option.getD_none]
        rw [objSet_not_mem msAcc k JValue.nullValue hkfresh]
        obtain ⟨hok, hjeqv, hst2⟩ := ih v hszv hwfv
          { { { st with token_ := ⟨.tstring, p0, p0 + (valueToQuotedString k).length⟩, current_ := p0 + (valueToQuotedString k).length } with token_ := ⟨.memberSeparator, p0 + (valueToQuotedString k).length, p0 + (valueToQuotedString k).length + 1⟩, current_ := p0 + (valueToQuotedString k).length + 1 } with token_ := ⟨firstTT v, p0 + (valueToQuotedString k).length + 1, p0 + (valueToQuotedString k).length + 1 + tokLen v⟩, current_ := p0 + (valueToQuotedString k).length + 1 + tokLen v }
          (p0 + (valueToQuotedString k).length + 1) _ JValue.nullValue f hdocv htermv rfl rfl hfeat (by omega)
        rw [if_neg (not_not_intro hok)]
        have hsep : (readValue f { { { st with token_ := ⟨.tstring, p0, p0 + (valueToQuotedString k).length⟩, current_ := p0 + (valueToQuotedString k).length } with token_ := ⟨.memberSeparator, p0 + (valueToQuotedString k).length, p0 + (valueToQuotedString k).length + 1⟩, current_ := p0 + (valueToQuotedString k).length + 1 } with token_ := ⟨firstTT v, p0 + (valueToQuotedString k).length + 1, p0 + (valueToQuotedString k).length + 1 + tokLen v⟩, current_ := p0 + (valueToQuotedString k).length + 1 + tokLen v } JValue.nullValue).2.2.token_.type_ ≠ .arraySeparator := by
          rw [hst2]
          exact (lastTT_facts v).2
        rw [if_pos hsep]
        rw [objSet_append_last msAcc k JValue.nullValue _ hkfresh]
        have hdropEnd : st.doc.drop (p0 + (valueToQuotedString k).length + 1 + (fastWriteValue {} v).length) = '\x7d' :: rrest := by
          rw [dropAdd, hdocv, List.drop_left]
          rfl
        have hlex2 : readTokenCore (readValue f { { { st with token_ := ⟨.tstring, p0, p0 + (valueToQuotedString k).length⟩, current_ := p0 + (valueToQuotedString k).length } with token_ := ⟨.memberSeparator, p0 + (valueToQuotedString k).length, p0 + (valueToQuotedString k).length + 1⟩, current_ := p0 + (valueToQuotedString k).length + 1 } with token_ := ⟨firstTT v, p0 + (valueToQuotedString k).length + 1, p0 + (valueToQuotedString k).length + 1 + tokLen v⟩, current_ := p0 + (valueToQuotedString k).length + 1 + tokLen v } JValue.nullValue).2.2.doc (readValue f { { { st with token_ := ⟨.tstring, p0, p0 + (valueToQuotedString k).length⟩, current_ := p0 + (valueToQuotedString k).length } with token_ := ⟨.memberSeparator, p0 + (valueToQuotedString k).length, p0 + (valueToQuotedString k).length + 1⟩, current_ := p0 + (valueToQuotedString k).length + 1 } with token_ := ⟨firstTT v, p0 + (valueToQuotedString k).length + 1, p0 + (valueToQuotedString k).length + 1 + tokLen v⟩, current_ := p0 + (valueToQuotedString k).length + 1 + tokLen v } JValue.nullValue).2.2.current_ =
            (false, ⟨.objectEnd, p0 + (valueToQuotedString k).length + 1 + (fastWriteValue {} v).length, p0 + (valueToQuotedString k).length + 1 + (fastWriteValue {} v).length + 1⟩, p0 + (valueToQuotedString k).length + 1 + (fastWriteValue {} v).length + 1) := by
          rw [hst2]
          exact lex_rbrace st.doc (p0 + (valueToQuotedString k).length + 1 + (fastWriteValue {} v).length) rrest hdropEnd
        have hrt2 := readToken_eq _ false _ _ hlex2
        have hsct2 := sct_step (readValue f { { { st with token_ := ⟨.tstring, p0, p0 + (valueToQuotedString k).length⟩, current_ := p0 + (valueToQuotedString k).length } with token_ := ⟨.memberSeparator, p0 + (valueToQuotedString k).length, p0 + (valueToQuotedString k).length + 1⟩, current_ := p0 + (valueToQuotedString k).length + 1 } with token_ := ⟨firstTT v, p0 + (valueToQuotedString k).length + 1, p0 + (valueToQuotedString k).length + 1 + tokLen v⟩, current_ := p0 + (valueToQuotedString k).length + 1 + tokLen v } JValue.nullValue).2.2 (some (readValue f { { { st with token_ := ⟨.tstring, p0, p0 + (valueToQuotedString k).length⟩, current_ := p0 + (valueToQuotedString k).length } with token_ := ⟨.memberSeparator, p0 + (valueToQuotedString k).length, p0 + (valueToQuotedString k).length + 1⟩, current_ := p0 + (valueToQuotedString k).length + 1 } with token_ := ⟨firstTT v, p0 + (valueToQuotedString k).length + 1, p0 + (valueToQuotedString k).length + 1 + tokLen v⟩, current_ := p0 + (valueToQuotedString k).length + 1 + tokLen v } JValue.nullValue).2.1) (by rw [hrt2]; simp)
        rw [hrt2] at hsct2
        rw [hsct2]
        dsimp only
        rw [objSet_append_last msAcc k _ _ hkfresh]
        rw [if_neg (by simp)]
        refine ⟨[(k, (readValue f { { { st with token_ := ⟨.tstring, p0, p0 + (valueToQuotedString k).length⟩, current_ := p0 + (valueToQuotedString k).length } with token_ := ⟨.memberSeparator, p0 + (valueToQuotedString k).length, p0 + (valueToQuotedString k).length + 1⟩, current_ := p0 + (valueToQuotedString k).length + 1 } with token_ := ⟨firstTT v, p0 + (valueToQuotedString k).length + 1, p0 + (valueToQuotedString k).length + 1 + tokLen v⟩, current_ := p0 + (valueToQuotedString k).length + 1 + tokLen v } JValue.nullValue).2.1)], some k, _, rfl, ?_, ?_⟩
        · show ((k == k && jEq _ v) && jEqMembers [] []) = true
          rw [hjeqv]
          simp [jEqMembers]
        · rw [hst2]
          have h0 : (fastWriteMembers {} ([] : List (List Char × JValue)) false).length = 0 := rfl
          rw [h0]
          have e1 : p0 + ((valueToQuotedString k).length + 1 + (fastWriteValue {} v).length + 0)
              = p0 + (valueToQuotedString k).length + 1 + (fastWriteValue {} v).length := by omega
          rw [e1]

  | cons m2 ms2t ihm0 =>
    obtain ⟨k2, v2⟩ := m2
    intro k v hszv hszes0 hwfk hwfv hwfms hnod st p0 rrest msAcc ln fuel
      hfresh hupd hdoc hcur hfeat hfuel
    have hnfm : needFuelMem ((k, v) :: ((k2, v2) :: ms2t)) = 1 + needFuel v + needFuelMem ((k2, v2) :: ms2t) := rfl
    rw [hnfm] at hfuel
    obtain ⟨f, rfl⟩ : ∃ f, fuel = f + 1 := ⟨fuel - 1, by omega⟩
    have hkfresh : k ∉ msAcc.map Prod.fst := hfresh k (by exact List.mem_cons_self k _)
    have hdecK := (string_lex_decode k hwfk st.doc p0 _ hdoc).2
    have hlexK := (string_lex_decode k hwfk st.doc p0 _ hdoc).1
    have hrt := readToken_eq st false _ _ (by rw [hcur]; exact hlexK)
    have hsct := sct_step st (Option.bind ln (objFind msAcc)) (by rw [hrt]; simp)
    rw [hrt] at hsct
    unfold readObjectLoop
    dsimp only
    rw [hsct]
    dsimp only
    rcases ln with _ | nm
    · dsimp only [Option.bind]
      rw [if_neg (fun hb => TokenType.noConfusion hb.1)]
      have hname : readObjectName { st with token_ := ⟨.tstring, p0, p0 + (valueToQuotedString k).length⟩, current_ := p0 + (valueToQuotedString k).length } = .ok k := by
        unfold readObjectName
        rw [if_pos rfl]
        dsimp only
        rw [hdecK]
      rw [hname]
      dsimp only
      have hdrop1 : st.doc.drop (p0 + (valueToQuotedString k).length)
          = ':' :: (fastWriteValue {} v ++ (fastWriteMembers {} ((k2, v2) :: ms2t) false ++ '\x7d' :: rrest)) := by
        rw [dropAdd, hdoc, List.drop_left]
      have hlex1 := lex_colon st.doc (p0 + (valueToQuotedString k).length) _ hdrop1
      have hrt1 := readToken_eq { st with token_ := ⟨.tstring, p0, p0 + (valueToQuotedString k).length⟩, current_ := p0 + (valueToQuotedString k).length } false _ _ hlex1
      have hsct1 := sct_step { st with token_ := ⟨.tstring, p0, p0 + (valueToQuotedString k).length⟩, current_ := p0 + (valueToQuotedString k).length } none (by rw [hrt1]; simp)
      rw [hrt1] at hsct1
      rw [hsct1]
      dsimp only
      rw [if_neg (not_not_intro rfl)]
      have hdocv : st.doc.drop (p0 + (valueToQuotedString k).length + 1)
          = fastWriteValue {} v ++ (fastWriteMembers {} ((k2, v2) :: ms2t) false ++ '\x7d' :: rrest) := by
        rw [dropAdd, hdrop1]
        rfl
      have htermv : headTerm (fastWriteMembers {} ((k2, v2) :: ms2t) false ++ '\x7d' :: rrest) = true :=
        headTerm_members ((k2, v2) :: ms2t) rrest
      have hlexv := lex_value v hwfv st.doc (p0 + (valueToQuotedString k).length + 1) _ hdocv htermv
      have hrt2v := readToken_eq { { st with token_ := ⟨.tstring, p0, p0 + (valueToQuotedString k).length⟩, current_ := p0 + (valueToQuotedString k).length } with token_ := ⟨.memberSeparator, p0 + (valueToQuotedString k).length, p0 + (valueToQuotedString k).length + 1⟩, current_ := p0 + (valueToQuotedString k).length + 1 } false _ _ hlexv
      have hsct2v := sct_step { { st with token_ := ⟨.tstring, p0, p0 + (valueToQuotedString k).length⟩, current_ := p0 + (valueToQuotedString k).length } with token_ := ⟨.memberSeparator, p0 + (valueToQuotedString k).length, p0 + (valueToQuotedString k).length + 1⟩, current_ := p0 + (valueToQuotedString k).length + 1 } none (by rw [hrt2v]; exact (firstTT_facts v).1)
      rw [hrt2v] at hsct2v
      rw [hsct2v]
      dsimp only
      rw [if_neg (show ¬(([] : List Char) ≠ []) from by simp)]
      try dsimp only
      rw [objFind_not_mem msAcc k hkfresh]
      rw [Option.getD_none]
      rw [objSet_not_mem msAcc k JValue.nullValue hkfresh]
      obtain ⟨hok, hjeqv, hst2⟩ := ih v hszv hwfv
        { { { st with token_ := ⟨.tstring, p0, p0 + (valueToQuotedString k).length⟩, current_ := p0 + (valueToQuotedString k).length } with token_ := ⟨.memberSeparator, p0 + (valueToQuotedString k).length, p0 + (valueToQuotedString k).length + 1⟩, current_ := p0 + (valueToQuotedString k).length + 1 } with token_ := ⟨firstTT v, p0 + (valueToQuotedString k).length + 1, p0 + (valueToQuotedString k).length + 1 + tokLen v⟩, current_ := p0 + (valueToQuotedString k).length + 1 + tokLen v }
        (p0 + (valueToQuotedString k).length + 1) _ JValue.nullValue f hdocv htermv rfl rfl hfeat (by omega)
      rw [if_neg (not_not_intro hok)]
      have hsep : (readValue f { { { st with token_ := ⟨.tstring, p0, p0 + (valueToQuotedString k).length⟩, current_ := p0 + (valueToQuotedString k).length } with token_ := ⟨.memberSeparator, p0 + (valueToQuotedString k).length, p0 + (valueToQuotedString k).length + 1⟩, current_ := p0 + (valueToQuotedString k).length + 1 } with token_ := ⟨firstTT v, p0 + (valueToQuotedString k).length + 1, p0 + (valueToQuotedString k).length + 1 + tokLen v⟩, current_ := p0 + (valueToQuotedString k).length + 1 + tokLen v } JValue.nullValue).2.2.token_.type_ ≠ .arraySeparator := by
        rw [hst2]
        exact (lastTT_facts v).2
      rw [if_pos hsep]
      rw [objSet_append_last msAcc k JValue.nullValue _ hkfresh]
      have hdropC : st.doc.drop (p0 + (valueToQuotedString k).length + 1 + (fastWriteValue {} v).length)
          = ',' :: ((((valueToQuotedString k2 ++ [':']) ++ fastWriteValue {} v2)
              ++ fastWriteMembers {} ms2t false) ++ '\x7d' :: rrest) := by
        rw [dropAdd, hdocv, List.drop_left]
        rw [fwm_cons_false]
        rfl
      have hlex2 : readTokenCore (readValue f { { { st with token_ := ⟨.tstring, p0, p0 + (valueToQuotedString k).length⟩, current_ := p0 + (valueToQuotedString k).length } with token_ := ⟨.memberSeparator, p0 + (valueToQuotedString k).length, p0 + (valueToQuotedString k).length + 1⟩, current_ := p0 + (valueToQuotedString k).length + 1 } with token_ := ⟨firstTT v, p0 + (valueToQuotedString k).length + 1, p0 + (valueToQuotedString k).length + 1 + tokLen v⟩, current_ := p0 + (valueToQuotedString k).length + 1 + tokLen v } JValue.nullValue).2.2.doc (readValue f { { { st with token_ := ⟨.tstring, p0, p0 + (valueToQuotedString k).length⟩, current_ := p0 + (valueToQuotedString k).length } with token_ := ⟨.memberSeparator, p0 + (valueToQuotedString k).length, p0 + (valueToQuotedString k).length + 1⟩, current_ := p0 + (valueToQuotedString k).length + 1 } with token_ := ⟨firstTT v, p0 + (valueToQuotedString k).length + 1, p0 + (valueToQuotedString k).length + 1 + tokLen v⟩, current_ := p0 + (valueToQuotedString k).length + 1 + tokLen v } JValue.nullValue).2.2.current_ =
          (false, ⟨.arraySeparator, p0 + (valueToQuotedString k).length + 1 + (fastWriteValue {} v).length, p0 + (valueToQuotedString k).length + 1 + (fastWriteValue {} v).length + 1⟩, p0 + (valueToQuotedString k).length + 1 + (fastWriteValue {} v).length + 1) := by
        rw [hst2]
        exact lex_comma st.doc (p0 + (valueToQuotedString k).length + 1 + (fastWriteValue {} v).length) _ hdropC
      have hrt2 := readToken_eq _ false _ _ hlex2
      have hsct2 := sct_step (readValue f { { { st with token_ := ⟨.tstring, p0, p0 + (valueToQuotedString k).length⟩, current_ := p0 + (valueToQuotedString k).length } with token_ := ⟨.memberSeparator, p0 + (valueToQuotedString k).length, p0 + (valueToQuotedString k).length + 1⟩, current_ := p0 + (valueToQuotedString k).length + 1 } with token_ := ⟨firstTT v, p0 + (valueToQuotedString k).length + 1, p0 + (valueToQuotedString k).length + 1 + tokLen v⟩, current_ := p0 + (valueToQuotedString k).length + 1 + tokLen v } JValue.nullValue).2.2 (some (readValue f { { { st with token_ := ⟨.tstring, p0, p0 + (valueToQuotedString k).length⟩, current_ := p0 + (valueToQuotedString k).length } with token_ := ⟨.memberSeparator, p0 + (valueToQuotedString k).length, p0 + (valueToQuotedString k).length + 1⟩, current_ := p0 + (valueToQuotedString k).length + 1 } with token_ := ⟨firstTT v, p0 + (valueToQuotedString k).length + 1, p0 + (valueToQuotedString k).length + 1 + tokLen v⟩, current_ := p0 + (valueToQuotedString k).length + 1 + tokLen v } JValue.nullValue).2.1) (by rw [hrt2]; simp)
      rw [hrt2] at hsct2
      rw [hsct2]
      dsimp only
      rw [objSet_append_last msAcc k _ _ hkfresh]
      rw [if_pos rfl]
      have hknotin : k ∉ ((k2, v2) :: ms2t).map Prod.fst := by
        have h := hnod
        rw [List.map_cons, List.nodup_cons] at h
        exact h.1
      have hnodTail : (((k2, v2) :: ms2t).map Prod.fst).Nodup := by
        have h := hnod
        rw [List.map_cons, List.nodup_cons] at h
        exact h.2
      have hfresh2 : ∀ k3 ∈ ((k2, v2) :: ms2t).map Prod.fst,
          k3 ∉ (msAcc ++ [(k, (readValue f { { { st with token_ := ⟨.tstring, p0, p0 + (valueToQuotedString k).length⟩, current_ := p0 + (valueToQuotedString k).length } with token_ := ⟨.memberSeparator, p0 + (valueToQuotedString k).length, p0 + (valueToQuotedString k).length + 1⟩, current_ := p0 + (valueToQuotedString k).length + 1 } with token_ := ⟨firstTT v, p0 + (valueToQuotedString k).length + 1, p0 + (valueToQuotedString k).length + 1 + tokLen v⟩, current_ := p0 + (valueToQuotedString k).length + 1 + tokLen v } JValue.nullValue).2.1)]).map Prod.fst := by
        intro k3 hk3
        rw [List.map_append, List.mem_append]
        rintro (h1 | h2)
        · exact hfresh k3 (List.mem_cons_of_mem _ hk3) h1
        · simp only [List.map_cons, List.map_nil, List.mem_singleton] at h2
          subst h2
          exact hknotin hk3
      have hupd2 : ∀ nm w, (some k : Option (List Char)) = some nm →
          objFind (msAcc ++ [(k, (readValue f { { { st with token_ := ⟨.tstring, p0, p0 + (valueToQuotedString k).length⟩, current_ := p0 + (valueToQuotedString k).length } with token_ := ⟨.memberSeparator, p0 + (valueToQuotedString k).length, p0 + (valueToQuotedString k).length + 1⟩, current_ := p0 + (valueToQuotedString k).length + 1 } with token_ := ⟨firstTT v, p0 + (valueToQuotedString k).length + 1, p0 + (valueToQuotedString k).length + 1 + tokLen v⟩, current_ := p0 + (valueToQuotedString k).length + 1 + tokLen v } JValue.nullValue).2.1)]) nm = some w →
          objSet (msAcc ++ [(k, (readValue f { { { st with token_ := ⟨.tstring, p0, p0 + (valueToQuotedString k).length⟩, current_ := p0 + (valueToQuotedString k).length } with token_ := ⟨.memberSeparator, p0 + (valueToQuotedString k).length, p0 + (valueToQuotedString k).length + 1⟩, current_ := p0 + (valueToQuotedString k).length + 1 } with token_ := ⟨firstTT v, p0 + (valueToQuotedString k).length + 1, p0 + (valueToQuotedString k).length + 1 + tokLen v⟩, current_ := p0 + (valueToQuotedString k).length + 1 + tokLen v } JValue.nullValue).2.1)]) nm w = msAcc ++ [(k, (readValue f { { { st with token_ := ⟨.tstring, p0, p0 + (valueToQuotedString k).length⟩, current_ := p0 + (valueToQuotedString k).length } with token_ := ⟨.memberSeparator, p0 + (valueToQuotedString k).length, p0 + (valueToQuotedString k).length + 1⟩, current_ := p0 + (valueToQuotedString k).length + 1 } with token_ := ⟨firstTT v, p0 + (valueToQuotedString k).length + 1, p0 + (valueToQuotedString k).length + 1 + tokLen v⟩, current_ := p0 + (valueToQuotedString k).length + 1 + tokLen v } JValue.nullValue).2.1)] := by
        intro nm w hnm hfind
        obtain rfl : k = nm := Option.some_injective _ hnm
        rw [objFind_append_last msAcc k _ hkfresh] at hfind
        obtain rfl : w = (readValue f { { { st with token_ := ⟨.tstring, p0, p0 + (valueToQuotedString k).length⟩, current_ := p0 + (valueToQuotedString k).length } with token_ := ⟨.memberSeparator, p0 + (valueToQuotedString k).length, p0 + (valueToQuotedString k).length + 1⟩, current_ := p0 + (valueToQuotedString k).length + 1 } with token_ := ⟨firstTT v, p0 + (valueToQuotedString k).length + 1, p0 + (valueToQuotedString k).length + 1 + tokLen v⟩, current_ := p0 + (valueToQuotedString k).length + 1 + tokLen v } JValue.nullValue).2.1 := (Option.some_injective _ hfind).symm
        exact objSet_append_last msAcc k _ _ hkfresh
      have hdoc3 : (readValue f { { { st with token_ := ⟨.tstring, p0, p0 + (valueToQuotedString k).length⟩, current_ := p0 + (valueToQuotedString k).length } with token_ := ⟨.memberSeparator, p0 + (valueToQuotedString k).length, p0 + (valueToQuotedString k).length + 1⟩, current_ := p0 + (valueToQuotedString k).length + 1 } with token_ := ⟨firstTT v, p0 + (valueToQuotedString k).length + 1, p0 + (valueToQuotedString k).length + 1 + tokLen v⟩, current_ := p0 + (valueToQuotedString k).length + 1 + tokLen v } JValue.nullValue).2.2.doc.drop (p0 + (valueToQuotedString k).length + 1 + (fastWriteValue {} v).length + 1)
          = valueToQuotedString k2 ++ (':' :: (fastWriteValue {} v2
              ++ (fastWriteMembers {} ms2t false ++ '\x7d' :: rrest))) := by
        rw [hst2]
        show st.doc.drop _ = _
        rw [dropAdd, hdropC]
        show (((valueToQuotedString k2 ++ [':']) ++ fastWriteValue {} v2)
            ++ fastWriteMembers {} ms2t false) ++ '\x7d' :: rrest = _
        simp [List.append_assoc]
      obtain ⟨ms2out, lnOut2, st4, hloop, hjeq2, hst4⟩ :=
        ihm0 k2 v2 (hszes0 (k2, v2) (List.mem_cons_self (k2, v2) ms2t))
          (fun x hx => hszes0 x (List.mem_cons_of_mem _ hx))
          (by rw [wfMembers, Bool.and_eq_true, Bool.and_eq_true] at hwfms; exact hwfms.1.1)
          (by rw [wfMembers, Bool.and_eq_true, Bool.and_eq_true] at hwfms; exact hwfms.1.2)
          (by rw [wfMembers, Bool.and_eq_true] at hwfms; exact hwfms.2)
          hnodTail
          { (readValue f { { { st with token_ := ⟨.tstring, p0, p0 + (valueToQuotedString k).length⟩, current_ := p0 + (valueToQuotedString k).length } with token_ := ⟨.memberSeparator, p0 + (valueToQuotedString k).length, p0 + (valueToQuotedString k).length + 1⟩, current_ := p0 + (valueToQuotedString k).length + 1 } with token_ := ⟨firstTT v, p0 + (valueToQuotedString k).length + 1, p0 + (valueToQuotedString k).length + 1 + tokLen v⟩, current_ := p0 + (valueToQuotedString k).length + 1 + tokLen v } JValue.nullValue).2.2 with token_ := ⟨.arraySeparator, p0 + (valueToQuotedString k).length + 1 + (fastWriteValue {} v).length, p0 + (valueToQuotedString k).length + 1 + (fastWriteValue {} v).length + 1⟩, current_ := p0 + (valueToQuotedString k).length + 1 + (fastWriteValue {} v).length + 1 }
          (p0 + (valueToQuotedString k).length + 1 + (fastWriteValue {} v).length + 1) rrest
          (msAcc ++ [(k, (readValue f { { { st with token_ := ⟨.tstring, p0, p0 + (valueToQuotedString k).length⟩, current_ := p0 + (valueToQuotedString k).length } with token_ := ⟨.memberSeparator, p0 + (valueToQuotedString k).length, p0 + (valueToQuotedString k).length + 1⟩, current_ := p0 + (valueToQuotedString k).length + 1 } with token_ := ⟨firstTT v, p0 + (valueToQuotedString k).length + 1, p0 + (valueToQuotedString k).length + 1 + tokLen v⟩, current_ := p0 + (valueToQuotedString k).length + 1 + tokLen v } JValue.nullValue).2.1)]) (some k) f
          hfresh2 hupd2 hdoc3 rfl (by rw [hst2]; exact hfeat) (by omega)
      rw [hloop]
      refine ⟨(k, (readValue f { { { st with token_ := ⟨.tstring, p0, p0 + (valueToQuotedString k).length⟩, current_ := p0 + (valueToQuotedString k).length } with token_ := ⟨.memberSeparator, p0 + (valueToQuotedString k).length, p0 + (valueToQuotedString k).length + 1⟩, current_ := p0 + (valueToQuotedString k).length + 1 } with token_ := ⟨firstTT v, p0 + (valueToQuotedString k).length + 1, p0 + (valueToQuotedString k).length + 1 + tokLen v⟩, current_ := p0 + (valueToQuotedString k).length + 1 + tokLen v } JValue.nullValue).2.1) :: ms2out, lnOut2, st4, ?_, ?_, ?_⟩
      · have happ : (msAcc ++ [(k, (readValue f { { { st with token_ := ⟨.tstring, p0, p0 + (valueToQuotedString k).length⟩, current_ := p0 + (valueToQuotedString k).length } with token_ := ⟨.memberSeparator, p0 + (valueToQuotedString k).length, p0 + (valueToQuotedString k).length + 1⟩, current_ := p0 + (valueToQuotedString k).length + 1 } with token_ := ⟨firstTT v, p0 + (valueToQuotedString k).length + 1, p0 + (valueToQuotedString k).length + 1 + tokLen v⟩, current_ := p0 + (valueToQuotedString k).length + 1 + tokLen v } JValue.nullValue).2.1)]) ++ ms2out
            = msAcc ++ (k, (readValue f { { { st with token_ := ⟨.tstring, p0, p0 + (valueToQuotedString k).length⟩, current_ := p0 + (valueToQuotedString k).length } with token_ := ⟨.memberSeparator, p0 + (valueToQuotedString k).length, p0 + (valueToQuotedString k).length + 1⟩, current_ := p0 + (valueToQuotedString k).length + 1 } with token_ := ⟨firstTT v, p0 + (valueToQuotedString k).length + 1, p0 + (valueToQuotedString k).length + 1 + tokLen v⟩, current_ := p0 + (valueToQuotedString k).length + 1 + tokLen v } JValue.nullValue).2.1) :: ms2out := by
          rw [List.append_assoc]
          rfl
        rw [happ]
      · show ((k == k && jEq _ v) && jEqMembers ms2out ((k2, v2) :: ms2t)) = true
        rw [hjeqv, hjeq2]
        simp
      · have hLm : (fastWriteMembers {} ((k2, v2) :: ms2t) false).length
            = 1 + ((valueToQuotedString k2).length + 1 + (fastWriteValue {} v2).length
              + (fastWriteMembers {} ms2t false).length) := by
          rw [fwm_cons_false]
          simp only [List.length_cons, List.length_append, List.length_nil]
          omega
        rw [hst4, hst2, hLm]
        have e1 : p0 + (valueToQuotedString k).length + 1 + (fastWriteValue {} v).length + 1 + ((valueToQuotedString k2).length + 1
              + (fastWriteValue {} v2).length
              + (fastWriteMembers {} ms2t false).length) + 1
            = p0 + ((valueToQuotedString k).length + 1 + (fastWriteValue {} v).length
              + (1 + ((valueToQuotedString k2).length + 1 + (fastWriteValue {} v2).length
                + (fastWriteMembers {} ms2t false).length))) + 1 := by omega
        have e2 : p0 + (valueToQuotedString k).length + 1 + (fastWriteValue {} v).length + 1 + ((valueToQuotedString k2).length + 1
              + (fastWriteValue {} v2).length
              + (fastWriteMembers {} ms2t false).length)
            = p0 + ((valueToQuotedString k).length + 1 + (fastWriteValue {} v).length
              + (1 + ((valueToQuotedString k2).length + 1 + (fastWriteValue {} v2).length
                + (fastWriteMembers {} ms2t false).length))) := by omega
        rw [e1, e2]

    · dsimp only [Option.bind]
      rcases hfind : objFind msAcc nm with _ | w
      · dsimp only
        rw [if_neg (fun hb => TokenType.noConfusion hb.1)]
        have hname : readObjectName { st with token_ := ⟨.tstring, p0, p0 + (valueToQuotedString k).length⟩, current_ := p0 + (valueToQuotedString k).length } = .ok k := by
          unfold readObjectName
          rw [if_pos rfl]
          dsimp only
          rw [hdecK]
        rw [hname]
        dsimp only
        have hdrop1 : st.doc.drop (p0 + (valueToQuotedString k).length)
            = ':' :: (fastWriteValue {} v ++ (fastWriteMembers {} ((k2, v2) :: ms2t) false ++ '\x7d' :: rrest)) := by
          rw [dropAdd, hdoc, List.drop_left]
        have hlex1 := lex_colon st.doc (p0 + (valueToQuotedString k).length) _ hdrop1
        have hrt1 := readToken_eq { st with token_ := ⟨.tstring, p0, p0 + (valueToQuotedString k).length⟩, current_ := p0 + (valueToQuotedString k).length } false _ _ hlex1
        have hsct1 := sct_step { st with token_ := ⟨.tstring, p0, p0 + (valueToQuotedString k).length⟩, current_ := p0 + (valueToQuotedString k).length } none (by rw [hrt1]; simp)
        rw [hrt1] at hsct1
        rw [hsct1]
        dsimp only
        rw [if_neg (not_not_intro rfl)]
        have hdocv : st.doc.drop (p0 + (valueToQuotedString k).length + 1)
            = fastWriteValue {} v ++ (fastWriteMembers {} ((k2, v2) :: ms2t) false ++ '\x7d' :: rrest) := by
          rw [dropAdd, hdrop1]
          rfl
        have htermv : headTerm (fastWriteMembers {} ((k2, v2) :: ms2t) false ++ '\x7d' :: rrest) = true :=
          headTerm_members ((k2, v2) :: ms2t) rrest
        have hlexv := lex_value v hwfv st.doc (p0 + (valueToQuotedString k).length + 1) _ hdocv htermv
        have hrt2v := readToken_eq { { st with token_ := ⟨.tstring, p0, p0 + (valueToQuotedString k).length⟩, current_ := p0 + (valueToQuotedString k).length } with token_ := ⟨.memberSeparator, p0 + (valueToQuotedString k).length, p0 + (valueToQuotedString k).length + 1⟩, current_ := p0 + (valueToQuotedString k).length + 1 } false _ _ hlexv
        have hsct2v := sct_step { { st with token_ := ⟨.tstring, p0, p0 + (valueToQuotedString k).length⟩, current_ := p0 + (valueToQuotedString k).length } with token_ := ⟨.memberSeparator, p0 + (valueToQuotedString k).length, p0 + (valueToQuotedString k).length + 1⟩, current_ := p0 + (valueToQuotedString k).length + 1 } none (by rw [hrt2v]; exact (firstTT_facts v).1)
        rw [hrt2v] at hsct2v
        rw [hsct2v]
        dsimp only
        rw [if_neg (show ¬(([] : List Char) ≠ []) from by simp)]
        try dsimp only
        rw [objFind_not_mem msAcc k hkfresh]
        rw [Option.getD_none]
        rw [objSet_not_mem msAcc k JValue.nullValue hkfresh]
        obtain ⟨hok, hjeqv, hst2⟩ := ih v hszv hwfv
          { { { st with token_ := ⟨.tstring, p0, p0 + (valueToQuotedString k).length⟩, current_ := p0 + (valueToQuotedString k).length } with token_ := ⟨.memberSeparator, p0 + (valueToQuotedString k).length, p0 + (valueToQuotedString k).length + 1⟩, current_ := p0 + (valueToQuotedString k).length + 1 } with token_ := ⟨firstTT v, p0 + (valueToQuotedString k).length + 1, p0 + (valueToQuotedString k).length + 1 + tokLen v⟩, current_ := p0 + (valueToQuotedString k).length + 1 + tokLen v }
          (p0 + (valueToQuotedString k).length + 1) _ JValue.nullValue f hdocv htermv rfl rfl hfeat (by omega)
        rw [if_neg (not_not_intro hok)]
        have hsep : (readValue f { { { st with token_ := ⟨.tstring, p0, p0 + (valueToQuotedString k).length⟩, current_ := p0 + (valueToQuotedString k).length } with token_ := ⟨.memberSeparator, p0 + (valueToQuotedString k).length, p0 + (valueToQuotedString k).length + 1⟩, current_ := p0 + (valueToQuotedString k).length + 1 } with token_ := ⟨firstTT v, p0 + (valueToQuotedString k).length + 1, p0 + (valueToQuotedString k).length + 1 + tokLen v⟩, current_ := p0 + (valueToQuotedString k).length + 1 + tokLen v } JValue.nullValue).2.2.token_.type_ ≠ .arraySeparator := by
          rw [hst2]
          exact (lastTT_facts v).2
        rw [if_pos hsep]
        rw [objSet_append_last msAcc k JValue.nullValue _ hkfresh]
        have hdropC : st.doc.drop (p0 + (valueToQuotedString k).length + 1 + (fastWriteValue {} v).length)
            = ',' :: ((((valueToQuotedString k2 ++ [':']) ++ fastWriteValue {} v2)
                ++ fastWriteMembers {} ms2t false) ++ '\x7d' :: rrest) := by
          rw [dropAdd, hdocv, List.drop_left]
          rw [fwm_cons_false]
          rfl
        have hlex2 : readTokenCore (readValue f { { { st with token_ := ⟨.tstring, p0, p0 + (valueToQuotedString k).length⟩, current_ := p0 + (valueToQuotedString k).length } with token_ := ⟨.memberSeparator, p0 + (valueToQuotedString k).length, p0 + (valueToQuotedString k).length + 1⟩, current_ := p0 + (valueToQuotedString k).length + 1 } with token_ := ⟨firstTT v, p0 + (valueToQuotedString k).length + 1, p0 + (valueToQuotedString k).length + 1 + tokLen v⟩, current_ := p0 + (valueToQuotedString k).length + 1 + tokLen v } JValue.nullValue).2.2.doc (readValue f { { { st with token_ := ⟨.tstring, p0, p0 + (valueToQuotedString k).length⟩, current_ := p0 + (valueToQuotedString k).length } with token_ := ⟨.memberSeparator, p0 + (valueToQuotedString k).length, p0 + (valueToQuotedString k).length + 1⟩, current_ := p0 + (valueToQuotedString k).length + 1 } with token_ := ⟨firstTT v, p0 + (valueToQuotedString k).length + 1, p0 + (valueToQuotedString k).length + 1 + tokLen v⟩, current_ := p0 + (valueToQuotedString k).length + 1 + tokLen v } JValue.nullValue).2.2.current_ =
            (false, ⟨.arraySeparator, p0 + (valueToQuotedString k).length + 1 + (fastWriteValue {} v).length, p0 + (valueToQuotedString k).length + 1 + (fastWriteValue {} v).length + 1⟩, p0 + (valueToQuotedString k).length + 1 + (fastWriteValue {} v).length + 1) := by
          rw [hst2]
          exact lex_comma st.doc (p0 + (valueToQuotedString k).length + 1 + (fastWriteValue {} v).length) _ hdropC
        have hrt2 := readToken_eq _ false _ _ hlex2
        have hsct2 := sct_step (readValue f { { { st with token_ := ⟨.tstring, p0, p0 + (valueToQuotedString k).length⟩, current_ := p0 + (valueToQuotedString k).length } with token_ := ⟨.memberSeparator, p0 + (valueToQuotedString k).length, p0 + (valueToQuotedString k).length + 1⟩, current_ := p0 + (valueToQuotedString k).length + 1 } with token_ := ⟨firstTT v, p0 + (valueToQuotedString k).length + 1, p0 + (valueToQuotedString k).length + 1 + tokLen v⟩, current_ := p0 + (valueToQuotedString k).length + 1 + tokLen v } JValue.nullValue).2.2 (some (readValue f { { { st with token_ := ⟨.tstring, p0, p0 + (valueToQuotedString k).length⟩, current_ := p0 + (valueToQuotedString k).length } with token_ := ⟨.memberSeparator, p0 + (valueToQuotedString k).length, p0 + (valueToQuotedString k).length + 1⟩, current_ := p0 + (valueToQuotedString k).length + 1 } with token_ := ⟨firstTT v, p0 + (valueToQuotedString k).length + 1, p0 + (valueToQuotedString k).length + 1 + tokLen v⟩, current_ := p0 + (valueToQuotedString k).length + 1 + tokLen v } JValue.nullValue).2.1) (by rw [hrt2]; simp)
        rw [hrt2] at hsct2
        rw [hsct2]
        dsimp only
        rw [objSet_append_last msAcc k _ _ hkfresh]
        rw [if_pos rfl]
        have hknotin : k ∉ ((k2, v2) :: ms2t).map Prod.fst := by
          have h := hnod
          rw [List.map_cons, List.nodup_cons] at h
          exact h.1
        have hnodTail : (((k2, v2) :: ms2t).map Prod.fst).Nodup := by
          have h := hnod
          rw [List.map_cons, List.nodup_cons] at h
          exact h.2
        have hfresh2 : ∀ k3 ∈ ((k2, v2) :: ms2t).map Prod.fst,
            k3 ∉ (msAcc ++ [(k, (readValue f { { { st with token_ := ⟨.tstring, p0, p0 + (valueToQuotedString k).length⟩, current_ := p0 + (valueToQuotedString k).length } with token_ := ⟨.memberSeparator, p0 + (valueToQuotedString k).length, p0 + (valueToQuotedString k).length + 1⟩, current_ := p0 + (valueToQuotedString k).length + 1 } with token_ := ⟨firstTT v, p0 + (valueToQuotedString k).length + 1, p0 + (valueToQuotedString k).length + 1 + tokLen v⟩, current_ := p0 + (valueToQuotedString k).length + 1 + tokLen v } JValue.nullValue).2.1)]).map Prod.fst := by
          intro k3 hk3
          rw [List.map_append, List.mem_append]
          rintro (h1 | h2)
          · exact hfresh k3 (List.mem_cons_of_mem _ hk3) h1
          · simp only [List.map_cons, List.map_nil, List.mem_singleton] at h2
            subst h2
            exact hknotin hk3
        have hupd2 : ∀ nm w, (some k : Option (List Char)) = some nm →
            objFind (msAcc ++ [(k, (readValue f { { { st with token_ := ⟨.tstring, p0, p0 + (valueToQuotedString k).length⟩, current_ := p0 + (valueToQuotedString k).length } with token_ := ⟨.memberSeparator, p0 + (valueToQuotedString k).length, p0 + (valueToQuotedString k).length + 1⟩, current_ := p0 + (valueToQuotedString k).length + 1 } with token_ := ⟨firstTT v, p0 + (valueToQuotedString k).length + 1, p0 + (valueToQuotedString k).length + 1 + tokLen v⟩, current_ := p0 + (valueToQuotedString k).length + 1 + tokLen v } JValue.nullValue).2.1)]) nm = some w →
            objSet (msAcc ++ [(k, (readValue f { { { st with token_ := ⟨.tstring, p0, p0 + (valueToQuotedString k).length⟩, current_ := p0 + (valueToQuotedString k).length } with token_ := ⟨.memberSeparator, p0 + (valueToQuotedString k).length, p0 + (valueToQuotedString k).length + 1⟩, current_ := p0 + (valueToQuotedString k).length + 1 } with token_ := ⟨firstTT v, p0 + (valueToQuotedString k).length + 1, p0 + (valueToQuotedString k).length + 1 + tokLen v⟩, current_ := p0 + (valueToQuotedString k).length + 1 + tokLen v } JValue.nullValue).2.1)]) nm w = msAcc ++ [(k, (readValue f { { { st with token_ := ⟨.tstring, p0, p0 + (valueToQuotedString k).length⟩, current_ := p0 + (valueToQuotedString k).length } with token_ := ⟨.memberSeparator, p0 + (valueToQuotedString k).length, p0 + (valueToQuotedString k).length + 1⟩, current_ := p0 + (valueToQuotedString k).length + 1 } with token_ := ⟨firstTT v, p0 + (valueToQuotedString k).length + 1, p0 + (valueToQuotedString k).length + 1 + tokLen v⟩, current_ := p0 + (valueToQuotedString k).length + 1 + tokLen v } JValue.nullValue).2.1)] := by
          intro nm w hnm hfind
          obtain rfl : k = nm := Option.some_injective _ hnm
          rw [objFind_append_last msAcc k _ hkfresh] at hfind
          obtain rfl : w = (readValue f { { { st with token_ := ⟨.tstring, p0, p0 + (valueToQuotedString k).length⟩, current_ := p0 + (valueToQuotedString k).length } with token_ := ⟨.memberSeparator, p0 + (valueToQuotedString k).length, p0 + (valueToQuotedString k).length + 1⟩, current_ := p0 + (valueToQuotedString k).length + 1 } with token_ := ⟨firstTT v, p0 + (valueToQuotedString k).length + 1, p0 + (valueToQuotedString k).length + 1 + tokLen v⟩, current_ := p0 + (valueToQuotedString k).length + 1 + tokLen v } JValue.nullValue).2.1 := (Option.some_injective _ hfind).symm
          exact objSet_append_last msAcc k _ _ hkfresh
        have hdoc3 : (readValue f { { { st with token_ := ⟨.tstring, p0, p0 + (valueToQuotedString k).length⟩, current_ := p0 + (valueToQuotedString k).length } with token_ := ⟨.memberSeparator, p0 + (valueToQuotedString k).length, p0 + (valueToQuotedString k).length + 1⟩, current_ := p0 + (valueToQuotedString k).length + 1 } with token_ := ⟨firstTT v, p0 + (valueToQuotedString k).length + 1, p0 + (valueToQuotedString k).length + 1 + tokLen v⟩, current_ := p0 + (valueToQuotedString k).length + 1 + tokLen v } JValue.nullValue).2.2.doc.drop (p0 + (valueToQuotedString k).length + 1 + (fastWriteValue {} v).length + 1)
            = valueToQuotedString k2 ++ (':' :: (fastWriteValue {} v2
                ++ (fastWriteMembers {} ms2t false ++ '\x7d' :: rrest))) := by
          rw [hst2]
          show st.doc.drop _ = _
          rw [dropAdd, hdropC]
          show (((valueToQuotedString k2 ++ [':']) ++ fastWriteValue {} v2)
              ++ fastWriteMembers {} ms2t false) ++ '\x7d' :: rrest = _
          simp [List.append_assoc]
        obtain ⟨ms2out, lnOut2, st4, hloop, hjeq2, hst4⟩ :=
          ihm0 k2 v2 (hszes0 (k2, v2) (List.mem_cons_self (k2, v2) ms2t))
            (fun x hx => hszes0 x (List.mem_cons_of_mem _ hx))
            (by rw [wfMembers, Bool.and_eq_true, Bool.and_eq_true] at hwfms; exact hwfms.1.1)
            (by rw [wfMembers, Bool.and_eq_true, Bool.and_eq_true] at hwfms; exact hwfms.1.2)
            (by rw [wfMembers, Bool.and_eq_true] at hwfms; exact hwfms.2)
            hnodTail
            { (readValue f { { { st with token_ := ⟨.tstring, p0, p0 + (valueToQuotedString k).length⟩, current_ := p0 + (valueToQuotedString k).length } with token_ := ⟨.memberSeparator, p0 + (valueToQuotedString k).length, p0 + (valueToQuotedString k).length + 1⟩, current_ := p0 + (valueToQuotedString k).length + 1 } with token_ := ⟨firstTT v, p0 + (valueToQuotedString k).length + 1, p0 + (valueToQuotedString k).length + 1 + tokLen v⟩, current_ := p0 + (valueToQuotedString k).length + 1 + tokLen v } JValue.nullValue).2.2 with token_ := ⟨.arraySeparator, p0 + (valueToQuotedString k).length + 1 + (fastWriteValue {} v).length, p0 + (valueToQuotedString k).length + 1 + (fastWriteValue {} v).length + 1⟩, current_ := p0 + (valueToQuotedString k).length + 1 + (fastWriteValue {} v).length + 1 }
            (p0 + (valueToQuotedString k).length + 1 + (fastWriteValue {} v).length + 1) rrest
            (msAcc ++ [(k, (readValue f { { { st with token_ := ⟨.tstring, p0, p0 + (valueToQuotedString k).length⟩, current_ := p0 + (valueToQuotedString k).length } with token_ := ⟨.memberSeparator, p0 + (valueToQuotedString k).length, p0 + (valueToQuotedString k).length + 1⟩, current_ := p0 + (valueToQuotedString k).length + 1 } with token_ := ⟨firstTT v, p0 + (valueToQuotedString k).length + 1, p0 + (valueToQuotedString k).length + 1 + tokLen v⟩, current_ := p0 + (valueToQuotedString k).length + 1 + tokLen v } JValue.nullValue).2.1)]) (some k) f
            hfresh2 hupd2 hdoc3 rfl (by rw [hst2]; exact hfeat) (by omega)
        rw [hloop]
        refine ⟨(k, (readValue f { { { st with token_ := ⟨.tstring, p0, p0 + (valueToQuotedString k).length⟩, current_ := p0 + (valueToQuotedString k).length } with token_ := ⟨.memberSeparator, p0 + (valueToQuotedString k).length, p0 + (valueToQuotedString k).length + 1⟩, current_ := p0 + (valueToQuotedString k).length + 1 } with token_ := ⟨firstTT v, p0 + (valueToQuotedString k).length + 1, p0 + (valueToQuotedString k).length + 1 + tokLen v⟩, current_ := p0 + (valueToQuotedString k).length + 1 + tokLen v } JValue.nullValue).2.1) :: ms2out, lnOut2, st4, ?_, ?_, ?_⟩
        · have happ : (msAcc ++ [(k, (readValue f { { { st with token_ := ⟨.tstring, p0, p0 + (valueToQuotedString k).length⟩, current_ := p0 + (valueToQuotedString k).length } with token_ := ⟨.memberSeparator, p0 + (valueToQuotedString k).length, p0 + (valueToQuotedString k).length + 1⟩, current_ := p0 + (valueToQuotedString k).length + 1 } with token_ := ⟨firstTT v, p0 + (valueToQuotedString k).length + 1, p0 + (valueToQuotedString k).length + 1 + tokLen v⟩, current_ := p0 + (valueToQuotedString k).length + 1 + tokLen v } JValue.nullValue).2.1)]) ++ ms2out
              = msAcc ++ (k, (readValue f { { { st with token_ := ⟨.tstring, p0, p0 + (valueToQuotedString k).length⟩, current_ := p0 + (valueToQuotedString k).length } with token_ := ⟨.memberSeparator, p0 + (valueToQuotedString k).length, p0 + (valueToQuotedString k).length + 1⟩, current_ := p0 + (valueToQuotedString k).length + 1 } with token_ := ⟨firstTT v, p0 + (valueToQuotedString k).length + 1, p0 + (valueToQuotedString k).length + 1 + tokLen v⟩, current_ := p0 + (valueToQuotedString k).length + 1 + tokLen v } JValue.nullValue).2.1) :: ms2out := by
            rw [List.append_assoc]
            rfl
          rw [happ]
        · show ((k == k && jEq _ v) && jEqMembers ms2out ((k2, v2) :: ms2t)) = true
          rw [hjeqv, hjeq2]
          simp
        · have hLm : (fastWriteMembers {} ((k2, v2) :: ms2t) false).length
              = 1 + ((valueToQuotedString k2).length + 1 + (fastWriteValue {} v2).length
                + (fastWriteMembers {} ms2t false).length) := by
            rw [fwm_cons_false]
            simp only [List.length_cons, List.length_append, List.length_nil]
            omega
          rw [hst4, hst2, hLm]
          have e1 : p0 + (valueToQuotedString k).length + 1 + (fastWriteValue {} v).length + 1 + ((valueToQuotedString k2).length + 1
                + (fastWriteValue {} v2).length
                + (fastWriteMembers {} ms2t false).length) + 1
              = p0 + ((valueToQuotedString k).length + 1 + (fastWriteValue {} v).length
                + (1 + ((valueToQuotedString k2).length + 1 + (fastWriteValue {} v2).length
                  + (fastWriteMembers {} ms2t false).length))) + 1 := by omega
          have e2 : p0 + (valueToQuotedString k).length + 1 + (fastWriteValue {} v).length + 1 + ((valueToQuotedString k2).length + 1
                + (fastWriteValue {} v2).length
                + (fastWriteMembers {} ms2t false).length)
              = p0 + ((valueToQuotedString k).length + 1 + (fastWriteValue {} v).length
                + (1 + ((valueToQuotedString k2).length + 1 + (fastWriteValue {} v2).length
                  + (fastWriteMembers {} ms2t false).length))) := by omega
          rw [e1, e2]

      · dsimp only
        rw [hupd nm w rfl hfind]
        rw [if_neg (fun hb => TokenType.noConfusion hb.1)]
        have hname : readObjectName { st with token_ := ⟨.tstring, p0, p0 + (valueToQuotedString k).length⟩, current_ := p0 + (valueToQuotedString k).length } = .ok k := by
          unfold readObjectName
          rw [if_pos rfl]
          dsimp only
          rw [hdecK]
        rw [hname]
        dsimp only
        have hdrop1 : st.doc.drop (p0 + (valueToQuotedString k).length)
            = ':' :: (fastWriteValue {} v ++ (fastWriteMembers {} ((k2, v2) :: ms2t) false ++ '\x7d' :: rrest)) := by
          rw [dropAdd, hdoc, List.drop_left]
        have hlex1 := lex_colon st.doc (p0 + (valueToQuotedString k).length) _ hdrop1
        have hrt1 := readToken_eq { st with token_ := ⟨.tstring, p0, p0 + (valueToQuotedString k).length⟩, current_ := p0 + (valueToQuotedString k).length } false _ _ hlex1
        have hsct1 := sct_step { st with token_ := ⟨.tstring, p0, p0 + (valueToQuotedString k).length⟩, current_ := p0 + (valueToQuotedString k).length } none (by rw [hrt1]; simp)
        rw [hrt1] at hsct1
        rw [hsct1]
        dsimp only
        rw [if_neg (not_not_intro rfl)]
        have hdocv : st.doc.drop (p0 + (valueToQuotedString k).length + 1)
            = fastWriteValue {} v ++ (fastWriteMembers {} ((k2, v2) :: ms2t) false ++ '\x7d' :: rrest) := by
          rw [dropAdd, hdrop1]
          rfl
        have htermv : headTerm (fastWriteMembers {} ((k2, v2) :: ms2t) false ++ '\x7d' :: rrest) = true :=
          headTerm_members ((k2, v2) :: ms2t) rrest
        have hlexv := lex_value v hwfv st.doc (p0 + (valueToQuotedString k).length + 1) _ hdocv htermv
        have hrt2v := readToken_eq { { st with token_ := ⟨.tstring, p0, p0 + (valueToQuotedString k).length⟩, current_ := p0 + (valueToQuotedString k).length } with token_ := ⟨.memberSeparator, p0 + (valueToQuotedString k).length, p0 + (valueToQuotedString k).length + 1⟩, current_ := p0 + (valueToQuotedString k).length + 1 } false _ _ hlexv
        have hsct2v := sct_step { { st with token_ := ⟨.tstring, p0, p0 + (valueToQuotedString k).length⟩, current_ := p0 + (valueToQuotedString k).length } with token_ := ⟨.memberSeparator, p0 + (valueToQuotedString k).length, p0 + (valueToQuotedString k).length + 1⟩, current_ := p0 + (valueToQuotedString k).length + 1 } none (by rw [hrt2v]; exact (firstTT_facts v).1)
        rw [hrt2v] at hsct2v
        rw [hsct2v]
        dsimp only
        rw [if_neg (show ¬(([] : List Char) ≠ []) from by simp)]
        try dsimp only
        rw [objFind_not_mem msAcc k hkfresh]
        rw [Option.getD_none]
        rw [objSet_not_mem msAcc k JValue.nullValue hkfresh]
        obtain ⟨hok, hjeqv, hst2⟩ := ih v hszv hwfv
          { { { st with token_ := ⟨.tstring, p0, p0 + (valueToQuotedString k).length⟩, current_ := p0 + (valueToQuotedString k).length } with token_ := ⟨.memberSeparator, p0 + (valueToQuotedString k).length, p0 + (valueToQuotedString k).length + 1⟩, current_ := p0 + (valueToQuotedString k).length + 1 } with token_ := ⟨firstTT v, p0 + (valueToQuotedString k).length + 1, p0 + (valueToQuotedString k).length + 1 + tokLen v⟩, current_ := p0 + (valueToQuotedString k).length + 1 + tokLen v }
          (p0 + (valueToQuotedString k).length + 1) _ JValue.nullValue f hdocv htermv rfl rfl hfeat (by omega)
        rw [if_neg (not_not_intro hok)]
        have hsep : (readValue f { { { st with token_ := ⟨.tstring, p0, p0 + (valueToQuotedString k).length⟩, current_ := p0 + (valueToQuotedString k).length } with token_ := ⟨.memberSeparator, p0 + (valueToQuotedString k).length, p0 + (valueToQuotedString k).length + 1⟩, current_ := p0 + (valueToQuotedString k).length + 1 } with token_ := ⟨firstTT v, p0 + (valueToQuotedString k).length + 1, p0 + (valueToQuotedString k).length + 1 + tokLen v⟩, current_ := p0 + (valueToQuotedString k).length + 1 + tokLen v } JValue.nullValue).2.2.token_.type_ ≠ .arraySeparator := by
          rw [hst2]
          exact (lastTT_facts v).2
        rw [if_pos hsep]
        rw [objSet_append_last msAcc k JValue.nullValue _ hkfresh]
        have hdropC : st.doc.drop (p0 + (valueToQuotedString k).length + 1 + (fastWriteValue {} v).length)
            = ',' :: ((((valueToQuotedString k2 ++ [':']) ++ fastWriteValue {} v2)
                ++ fastWriteMembers {} ms2t false) ++ '\x7d' :: rrest) := by
          rw [dropAdd, hdocv, List.drop_left]
          rw [fwm_cons_false]
          rfl
        have hlex2 : readTokenCore (readValue f { { { st with token_ := ⟨.tstring, p0, p0 + (valueToQuotedString k).length⟩, current_ := p0 + (valueToQuotedString k).length } with token_ := ⟨.memberSeparator, p0 + (valueToQuotedString k).length, p0 + (valueToQuotedString k).length + 1⟩, current_ := p0 + (valueToQuotedString k).length + 1 } with token_ := ⟨firstTT v, p0 + (valueToQuotedString k).length + 1, p0 + (valueToQuotedString k).length + 1 + tokLen v⟩, current_ := p0 + (valueToQuotedString k).length + 1 + tokLen v } JValue.nullValue).2.2.doc (readValue f { { { st with token_ := ⟨.tstring, p0, p0 + (valueToQuotedString k).length⟩, current_ := p0 + (valueToQuotedString k).length } with token_ := ⟨.memberSeparator, p0 + (valueToQuotedString k).length, p0 + (valueToQuotedString k).length + 1⟩, current_ := p0 + (valueToQuotedString k).length + 1 } with token_ := ⟨firstTT v, p0 + (valueToQuotedString k).length + 1, p0 + (valueToQuotedString k).length + 1 + tokLen v⟩, current_ := p0 + (valueToQuotedString k).length + 1 + tokLen v } JValue.nullValue).2.2.current_ =
            (false, ⟨.arraySeparator, p0 + (valueToQuotedString k).length + 1 + (fastWriteValue {} v).length, p0 + (valueToQuotedString k).length + 1 + (fastWriteValue {} v).length + 1⟩, p0 + (valueToQuotedString k).length + 1 + (fastWriteValue {} v).length + 1) := by
          rw [hst2]
          exact lex_comma st.doc (p0 + (valueToQuotedString k).length + 1 + (fastWriteValue {} v).length) _ hdropC
        have hrt2 := readToken_eq _ false _ _ hlex2
        have hsct2 := sct_step (readValue f { { { st with token_ := ⟨.tstring, p0, p0 + (valueToQuotedString k).length⟩, current_ := p0 + (valueToQuotedString k).length } with token_ := ⟨.memberSeparator, p0 + (valueToQuotedString k).length, p0 + (valueToQuotedString k).length + 1⟩, current_ := p0 + (valueToQuotedString k).length + 1 } with token_ := ⟨firstTT v, p0 + (valueToQuotedString k).length + 1, p0 + (valueToQuotedString k).length + 1 + tokLen v⟩, current_ := p0 + (valueToQuotedString k).length + 1 + tokLen v } JValue.nullValue).2.2 (some (readValue f { { { st with token_ := ⟨.tstring, p0, p0 + (valueToQuotedString k).length⟩, current_ := p0 + (valueToQuotedString k).length } with token_ := ⟨.memberSeparator, p0 + (valueToQuotedString k).length, p0 + (valueToQuotedString k).length + 1⟩, current_ := p0 + (valueToQuotedString k).length + 1 } with token_ := ⟨firstTT v, p0 + (valueToQuotedString k).length + 1, p0 + (valueToQuotedString k).length + 1 + tokLen v⟩, current_ := p0 + (valueToQuotedString k).length + 1 + tokLen v } JValue.nullValue).2.1) (by rw [hrt2]; simp)
        rw [hrt2] at hsct2
        rw [hsct2]
        dsimp only
        rw [objSet_append_last msAcc k _ _ hkfresh]
        rw [if_pos rfl]
        have hknotin : k ∉ ((k2, v2) :: ms2t).map Prod.fst := by
          have h := hnod
          rw [List.map_cons, List.nodup_cons] at h
          exact h.1
        have hnodTail : (((k2, v2) :: ms2t).map Prod.fst).Nodup := by
          have h := hnod
          rw [List.map_cons, List.nodup_cons] at h
          exact h.2
        have hfresh2 : ∀ k3 ∈ ((k2, v2) :: ms2t).map Prod.fst,
            k3 ∉ (msAcc ++ [(k, (readValue f { { { st with token_ := ⟨.tstring, p0, p0 + (valueToQuotedString k).length⟩, current_ := p0 + (valueToQuotedString k).length } with token_ := ⟨.memberSeparator, p0 + (valueToQuotedString k).length, p0 + (valueToQuotedString k).length + 1⟩, current_ := p0 + (valueToQuotedString k).length + 1 } with token_ := ⟨firstTT v, p0 + (valueToQuotedString k).length + 1, p0 + (valueToQuotedString k).length + 1 + tokLen v⟩, current_ := p0 + (valueToQuotedString k).length + 1 + tokLen v } JValue.nullValue).2.1)]).map Prod.fst := by
          intro k3 hk3
          rw [List.map_append, List.mem_append]
          rintro (h1 | h2)
          · exact hfresh k3 (List.mem_cons_of_mem _ hk3) h1
          · simp only [List.map_cons, List.map_nil, List.mem_singleton] at h2
            subst h2
            exact hknotin hk3
        have hupd2 : ∀ nm w, (some k : Option (List Char)) = some nm →
            objFind (msAcc ++ [(k, (readValue f { { { st with token_ := ⟨.tstring, p0, p0 + (valueToQuotedString k).length⟩, current_ := p0 + (valueToQuotedString k).length } with token_ := ⟨.memberSeparator, p0 + (valueToQuotedString k).length, p0 + (valueToQuotedString k).length + 1⟩, current_ := p0 + (valueToQuotedString k).length + 1 } with token_ := ⟨firstTT v, p0 + (valueToQuotedString k).length + 1, p0 + (valueToQuotedString k).length + 1 + tokLen v⟩, current_ := p0 + (valueToQuotedString k).length + 1 + tokLen v } JValue.nullValue).2.1)]) nm = some w →
            objSet (msAcc ++ [(k, (readValue f { { { st with token_ := ⟨.tstring, p0, p0 + (valueToQuotedString k).length⟩, current_ := p0 + (valueToQuotedString k).length } with token_ := ⟨.memberSeparator, p0 + (valueToQuotedString k).length, p0 + (valueToQuotedString k).length + 1⟩, current_ := p0 + (valueToQuotedString k).length + 1 } with token_ := ⟨firstTT v, p0 + (valueToQuotedString k).length + 1, p0 + (valueToQuotedString k).length + 1 + tokLen v⟩, current_ := p0 + (valueToQuotedString k).length + 1 + tokLen v } JValue.nullValue).2.1)]) nm w = msAcc ++ [(k, (readValue f { { { st with token_ := ⟨.tstring, p0, p0 + (valueToQuotedString k).length⟩, current_ := p0 + (valueToQuotedString k).length } with token_ := ⟨.memberSeparator, p0 + (valueToQuotedString k).length, p0 + (valueToQuotedString k).length + 1⟩, current_ := p0 + (valueToQuotedString k).length + 1 } with token_ := ⟨firstTT v, p0 + (valueToQuotedString k).length + 1, p0 + (valueToQuotedString k).length + 1 + tokLen v⟩, current_ := p0 + (valueToQuotedString k).length + 1 + tokLen v } JValue.nullValue).2.1)] := by
          intro nm w hnm hfind
          obtain rfl : k = nm := Option.some_injective _ hnm
          rw [objFind_append_last msAcc k _ hkfresh] at hfind
          obtain rfl : w = (readValue f { { { st with token_ := ⟨.tstring, p0, p0 + (valueToQuotedString k).length⟩, current_ := p0 + (valueToQuotedString k).length } with token_ := ⟨.memberSeparator, p0 + (valueToQuotedString k).length, p0 + (valueToQuotedString k).length + 1⟩, current_ := p0 + (valueToQuotedString k).length + 1 } with token_ := ⟨firstTT v, p0 + (valueToQuotedString k).length + 1, p0 + (valueToQuotedString k).length + 1 + tokLen v⟩, current_ := p0 + (valueToQuotedString k).length + 1 + tokLen v } JValue.nullValue).2.1 := (Option.some_injective _ hfind).symm
          exact objSet_append_last msAcc k _ _ hkfresh
        have hdoc3 : (readValue f { { { st with token_ := ⟨.tstring, p0, p0 + (valueToQuotedString k).length⟩, current_ := p0 + (valueToQuotedString k).length } with token_ := ⟨.memberSeparator, p0 + (valueToQuotedString k).length, p0 + (valueToQuotedString k).length + 1⟩, current_ := p0 + (valueToQuotedString k).length + 1 } with token_ := ⟨firstTT v, p0 + (valueToQuotedString k).length + 1, p0 + (valueToQuotedString k).length + 1 + tokLen v⟩, current_ := p0 + (valueToQuotedString k).length + 1 + tokLen v } JValue.nullValue).2.2.doc.drop (p0 + (valueToQuotedString k).length + 1 + (fastWriteValue {} v).length + 1)
            = valueToQuotedString k2 ++ (':' :: (fastWriteValue {} v2
                ++ (fastWriteMembers {} ms2t false ++ '\x7d' :: rrest))) := by
          rw [hst2]
          show st.doc.drop _ = _
          rw [dropAdd, hdropC]
          show (((valueToQuotedString k2 ++ [':']) ++ fastWriteValue {} v2)
              ++ fastWriteMembers {} ms2t false) ++ '\x7d' :: rrest = _
          simp [List.append_assoc]
        obtain ⟨ms2out, lnOut2, st4, hloop, hjeq2, hst4⟩ :=
          ihm0 k2 v2 (hszes0 (k2, v2) (List.mem_cons_self (k2, v2) ms2t))
            (fun x hx => hszes0 x (List.mem_cons_of_mem _ hx))
            (by rw [wfMembers, Bool.and_eq_true, Bool.and_eq_true] at hwfms; exact hwfms.1.1)
            (by rw [wfMembers, Bool.and_eq_true, Bool.and_eq_true] at hwfms; exact hwfms.1.2)
            (by rw [wfMembers, Bool.and_eq_true] at hwfms; exact hwfms.2)
            hnodTail
            { (readValue f { { { st with token_ := ⟨.tstring, p0, p0 + (valueToQuotedString k).length⟩, current_ := p0 + (valueToQuotedString k).length } with token_ := ⟨.memberSeparator, p0 + (valueToQuotedString k).length, p0 + (valueToQuotedString k).length + 1⟩, current_ := p0 + (valueToQuotedString k).length + 1 } with token_ := ⟨firstTT v, p0 + (valueToQuotedString k).length + 1, p0 + (valueToQuotedString k).length + 1 + tokLen v⟩, current_ := p0 + (valueToQuotedString k).length + 1 + tokLen v } JValue.nullValue).2.2 with token_ := ⟨.arraySeparator, p0 + (valueToQuotedString k).length + 1 + (fastWriteValue {} v).length, p0 + (valueToQuotedString k).length + 1 + (fastWriteValue {} v).length + 1⟩, current_ := p0 + (valueToQuotedString k).length + 1 + (fastWriteValue {} v).length + 1 }
            (p0 + (valueToQuotedString k).length + 1 + (fastWriteValue {} v).length + 1) rrest
            (msAcc ++ [(k, (readValue f { { { st with token_ := ⟨.tstring, p0, p0 + (valueToQuotedString k).length⟩, current_ := p0 + (valueToQuotedString k).length } with token_ := ⟨.memberSeparator, p0 + (valueToQuotedString k).length, p0 + (valueToQuotedString k).length + 1⟩, current_ := p0 + (valueToQuotedString k).length + 1 } with token_ := ⟨firstTT v, p0 + (valueToQuotedString k).length + 1, p0 + (valueToQuotedString k).length + 1 + tokLen v⟩, current_ := p0 + (valueToQuotedString k).length + 1 + tokLen v } JValue.nullValue).2.1)]) (some k) f
            hfresh2 hupd2 hdoc3 rfl (by rw [hst2]; exact hfeat) (by omega)
        rw [hloop]
        refine ⟨(k, (readValue f { { { st with token_ := ⟨.tstring, p0, p0 + (valueToQuotedString k).length⟩, current_ := p0 + (valueToQuotedString k).length } with token_ := ⟨.memberSeparator, p0 + (valueToQuotedString k).length, p0 + (valueToQuotedString k).length + 1⟩, current_ := p0 + (valueToQuotedString k).length + 1 } with token_ := ⟨firstTT v, p0 + (valueToQuotedString k).length + 1, p0 + (valueToQuotedString k).length + 1 + tokLen v⟩, current_ := p0 + (valueToQuotedString k).length + 1 + tokLen v } JValue.nullValue).2.1) :: ms2out, lnOut2, st4, ?_, ?_, ?_⟩
        · have happ : (msAcc ++ [(k, (readValue f { { { st with token_ := ⟨.tstring, p0, p0 + (valueToQuotedString k).length⟩, current_ := p0 + (valueToQuotedString k).length } with token_ := ⟨.memberSeparator, p0 + (valueToQuotedString k).length, p0 + (valueToQuotedString k).length + 1⟩, current_ := p0 + (valueToQuotedString k).length + 1 } with token_ := ⟨firstTT v, p0 + (valueToQuotedString k).length + 1, p0 + (valueToQuotedString k).length + 1 + tokLen v⟩, current_ := p0 + (valueToQuotedString k).length + 1 + tokLen v } JValue.nullValue).2.1)]) ++ ms2out
              = msAcc ++ (k, (readValue f { { { st with token_ := ⟨.tstring, p0, p0 + (valueToQuotedString k).length⟩, current_ := p0 + (valueToQuotedString k).length } with token_ := ⟨.memberSeparator, p0 + (valueToQuotedString k).length, p0 + (valueToQuotedString k).length + 1⟩, current_ := p0 + (valueToQuotedString k).length + 1 } with token_ := ⟨firstTT v, p0 + (valueToQuotedString k).length + 1, p0 + (valueToQuotedString k).length + 1 + tokLen v⟩, current_ := p0 + (valueToQuotedString k).length + 1 + tokLen v } JValue.nullValue).2.1) :: ms2out := by
            rw [List.append_assoc]
            rfl
          rw [happ]
        · show ((k == k && jEq _ v) && jEqMembers ms2out ((k2, v2) :: ms2t)) = true
          rw [hjeqv, hjeq2]
          simp
        · have hLm : (fastWriteMembers {} ((k2, v2) :: ms2t) false).length
              = 1 + ((valueToQuotedString k2).length + 1 + (fastWriteValue {} v2).length
                + (fastWriteMembers {} ms2t false).length) := by
            rw [fwm_cons_false]
            simp only [List.length_cons, List.length_append, List.length_nil]
            omega
          rw [hst4, hst2, hLm]
          have e1 : p0 + (valueToQuotedString k).length + 1 + (fastWriteValue {} v).length + 1 + ((valueToQuotedString k2).length + 1
                + (fastWriteValue {} v2).length
                + (fastWriteMembers {} ms2t false).length) + 1
              = p0 + ((valueToQuotedString k).length + 1 + (fastWriteValue {} v).length
                + (1 + ((valueToQuotedString k2).length + 1 + (fastWriteValue {} v2).length
                  + (fastWriteMembers {} ms2t false).length))) + 1 := by omega
          have e2 : p0 + (valueToQuotedString k).length + 1 + (fastWriteValue {} v).length + 1 + ((valueToQuotedString k2).length + 1
                + (fastWriteValue {} v2).length
                + (fastWriteMembers {} ms2t false).length)
              = p0 + ((valueToQuotedString k).length + 1 + (fastWriteValue {} v).length
                + (1 + ((valueToQuotedString k2).length + 1 + (fastWriteValue {} v2).length
                  + (fastWriteMembers {} ms2t false).length))) := by omega
          rw [e1, e2]


theorem needFuelMem_pos (ms : List (List Char × JValue)) : 1 ≤ needFuelMem ms := by
  cases ms with
  | nil => exact Nat.le_refl 1
  | cons m ms =>
    obtain ⟨k, v⟩ := m
    show 1 ≤ 1 + needFuel v + needFuelMem ms
    omega

set_option maxHeartbeats 3200000 in
theorem RT_obj (N : Nat) (ih : ∀ v : JValue, sizeOf v ≤ N → wfValue v = true → RTv v)
    (ms : List (List Char × JValue)) (m : VMeta) (hsz : ∀ x ∈ ms, sizeOf x.2 ≤ N)
    (hwf : wfMembers ms = true) (hnod : (ms.map Prod.fst).Nodup) :
    RTv (.vobj ms m) := by
  intro st p rest cur fuel hdoc hterm hcur htok hfeat hfuel
  have hnf : needFuel (JValue.vobj ms m) = 2 + needFuelMem ms := rfl
  have hnfl := needFuelMem_pos ms
  obtain ⟨f, hf, hfl⟩ : ∃ f, fuel = f + 1 + 1 ∧ needFuelMem ms ≤ f :=
    ⟨fuel - 2, by omega, by omega⟩
  subst hf
  have htt : firstTT (JValue.vobj ms m) = .objectBegin := rfl
  have htl : tokLen (JValue.vobj ms m) = 1 := rfl
  rw [htt, htl] at htok
  rw [htl] at hcur
  unfold readValue
  dsimp only
  rw [htok]
  dsimp only
  unfold readObject
  dsimp only
  cases ms with
  | nil =>
    obtain ⟨g, hg⟩ : ∃ g, f = g + 1 := ⟨f - 1, by omega⟩
    subst hg
    have hdrop : st.doc.drop (p + 1) = '\x7d' :: rest := by
      rw [dropAdd, hdoc]
      rfl
    have hlex := lex_rbrace st.doc (p + 1) rest hdrop
    have hrt := readToken_eq st false _ _ (by rw [hcur]; exact hlex)
    have hsct := sct_step st
      (Option.bind none (objFind ([] : List (List Char × JValue))))
      (by rw [hrt]; simp)
    rw [hrt] at hsct
    unfold readObjectLoop
    dsimp only
    rw [hsct]
    dsimp only [Option.bind]
    have hbrk : TokenType.objectEnd = TokenType.objectEnd ∧
        ((none : Option (List Char)).isNone = true ∨
          st.features_.allowDroppedNullPlaceholders_ = true) :=
      ⟨rfl, Or.inl rfl⟩
    rw [if_pos hbrk]
    dsimp only
    rw [if_neg (not_not_intro rfl)]
    rw [if_neg (not_not_intro rfl)]
    rw [if_neg (Bool.false_ne_true)]
    refine ⟨rfl, ?_, ?_⟩
    · rfl
    · have hW : (fastWriteValue {} (JValue.vobj [] m)).length = 2 := rfl
      have hlast : lastTT (JValue.vobj [] m) = .objectEnd := rfl
      have hll : lastTokLen (JValue.vobj [] m) = 1 := rfl
      rw [hW, hlast, hll]
      have e1 : p + 2 - 1 = p + 1 := by omega
      rw [e1]
  | cons mb ms2 =>
    obtain ⟨k, v⟩ := mb
    have hdrop : st.doc.drop (p + 1)
        = valueToQuotedString k ++ (':' :: (fastWriteValue {} v
            ++ (fastWriteMembers {} ms2 false ++ '\x7d' :: rest))) := by
      rw [dropAdd, hdoc]
      show ((fastWriteMembers {} ((k, v) :: ms2) true ++ ['\x7d']) ++ rest) = _
      rw [fwm_cons_true]
      simp [List.append_assoc]
    have hszv : sizeOf v ≤ N := by
      have := hsz (k, v) (List.mem_cons_self ..)
      exact this
    have hszms : ∀ x ∈ ms2, sizeOf x.2 ≤ N := fun x hx => hsz x (List.mem_cons_of_mem _ hx)
    have hwfk : wfStr k = true := by
      rw [wfMembers, Bool.and_eq_true, Bool.and_eq_true] at hwf
      exact hwf.1.1
    have hwfv : wfValue v = true := by
      rw [wfMembers, Bool.and_eq_true, Bool.and_eq_true] at hwf
      exact hwf.1.2
    have hwfms : wfMembers ms2 = true := by
      rw [wfMembers, Bool.and_eq_true] at hwf
      exact hwf.2
    obtain ⟨ms2out, lnOut, st2, hloop, hjeq, hst2⟩ :=
      obj_loop N ih ms2 k v hszv hszms hwfk hwfv hwfms hnod st (p + 1) rest [] none f
        (fun k2 _ hk2 => by simp at hk2)
        (fun nm w h => Option.noConfusion h)
        hdrop hcur hfeat hfl
    rw [hloop]
    dsimp only
    rw [if_neg (not_not_intro rfl)]
    rw [if_neg (not_not_intro (by rw [hst2]))]
    rw [if_neg (by simp)]
    refine ⟨rfl, ?_, ?_⟩
    · show jEqMembers ([] ++ ms2out) ((k, v) :: ms2) = true
      rw [List.nil_append]
      exact hjeq
    · rw [hst2]
      have hW : (fastWriteValue {} (JValue.vobj ((k, v) :: ms2) m)).length
          = ((valueToQuotedString k).length + 1 + (fastWriteValue {} v).length
            + (fastWriteMembers {} ms2 false).length) + 2 := by
        show ('\x7b' :: (fastWriteMembers {} ((k, v) :: ms2) true ++ ['\x7d'])).length = _
        rw [fwm_cons_true]
        simp only [List.length_cons, List.length_append, List.length_nil]
        try omega
      have hlast : lastTT (JValue.vobj ((k, v) :: ms2) m) = .objectEnd := rfl
      have hll : lastTokLen (JValue.vobj ((k, v) :: ms2) m) = 1 := rfl
      rw [hW, hlast, hll]
      have e1 : p + 1 + ((valueToQuotedString k).length + 1 + (fastWriteValue {} v).length
            + (fastWriteMembers {} ms2 false).length) + 1
          = p + ((valueToQuotedString k).length + 1 + (fastWriteValue {} v).length
            + (fastWriteMembers {} ms2 false).length + 2) := by omega
      have e2 : p + 1 + ((valueToQuotedString k).length + 1 + (fastWriteValue {} v).length
            + (fastWriteMembers {} ms2 false).length)
          = p + ((valueToQuotedString k).length + 1 + (fastWriteValue {} v).length
            + (fastWriteMembers {} ms2 false).length + 2) - 1 := by omega
      rw [e1, e2]

/-- Every wellformed value (bounded in size by the induction fuel `N`)
satisfies the `readValue` round-trip contract. -/
theorem RT_main : ∀ (N : Nat) (v : JValue), sizeOf v ≤ N → wfValue v = true → RTv v := by
  intro N
  induction N with
  | zero =>
    intro v hsz _
    exfalso
    cases v <;> simp_arith at hsz
  | succ N ihN =>
    intro v hsz hwf
    cases v with
    | vnull m => exact RT_null m
    | vbool b m => exact RT_bool b m
    | vint n m =>
      rw [wfValue, Bool.and_eq_true, decide_eq_true_eq, decide_eq_true_eq] at hwf
      exact RT_int n m hwf.1 hwf.2
    | vuint n m =>
      rw [wfValue, decide_eq_true_eq] at hwf
      exact RT_uint n m hwf
    | vreal d m =>
      rw [wfValue] at hwf
      exact absurd hwf Bool.false_ne_true
    | vstr s m =>
      rw [wfValue] at hwf
      exact RT_str s m hwf
    | varr xs m =>
      rw [wfValue] at hwf
      refine RT_arr N ihN xs m ?_ hwf
      intro x hx
      have hlt := List.sizeOf_lt_of_mem hx
      simp_arith at hsz
      omega
    | vobj ms m =>
      rw [wfValue, Bool.and_eq_true, decide_eq_true_eq] at hwf
      refine RT_obj N ihN ms m ?_ hwf.1 hwf.2
      intro x hx
      obtain ⟨a, b⟩ := x
      have hlt := List.sizeOf_lt_of_mem hx
      simp_arith at hsz hlt ⊢
      omega

/-- C5 (amended): for every wellformed value (no reals, NUL-free one-byte
strings and keys, distinct object keys, 64-bit-bounded integers), parsing
the FastWriter output with lenient features and comment collection
succeeds and returns a structurally equal value. -/
theorem claim_C5_roundtrip (v : JValue) (hwf : wfValue v = true) :
    (parse Features.all true (fastWrite {} v)).1 = true ∧
    jEq (parse Features.all true (fastWrite {} v)).2.1 v = true := by
  have hdoc0 : (fastWrite {} v).drop 0 = fastWriteValue {} v ++ ['\n'] := rfl
  have hterm : headTerm ['\n'] = true := rfl
  have hlex := lex_value v hwf (fastWrite {} v) 0 ['\n'] hdoc0 hterm
  have hrt := readToken_eq (⟨fastWrite {} v, 0, ⟨.endOfStream, 0, 0⟩, [], Features.all, if ¬Features.all.allowComments_ = true then false else true⟩ : PState) false _ _ hlex
  have hsct := sct_step (⟨fastWrite {} v, 0, ⟨.endOfStream, 0, 0⟩, [], Features.all, if ¬Features.all.allowComments_ = true then false else true⟩ : PState) none (by rw [hrt]; exact (firstTT_facts v).1)
  rw [hrt] at hsct
  have hfuel : needFuel v ≤ parseFuel (fastWrite {} v) := by
    have h1 := needFuel_le (sizeOf v) v (Nat.le_refl _) hwf
    have h2 : (fastWrite {} v).length = (fastWriteValue {} v).length + 1 := by
      show (fastWriteValue {} v ++ ['\n']).length = _
      simp
    unfold parseFuel
    omega
  obtain ⟨hok, hjeq, hst2⟩ := RT_main (sizeOf v) v (Nat.le_refl _) hwf
    { (⟨fastWrite {} v, 0, ⟨.endOfStream, 0, 0⟩, [], Features.all, if ¬Features.all.allowComments_ = true then false else true⟩ : PState) with token_ := ⟨firstTT v, 0, 0 + tokLen v⟩, current_ := 0 + tokLen v }
    0 ['\n'] JValue.nullValue (parseFuel (fastWrite {} v))
    hdoc0 hterm rfl rfl rfl hfuel
  have hdropE : (fastWrite {} v).drop (0 + (fastWriteValue {} v).length) = ['\n'] := by
    rw [dropAdd, hdoc0, List.drop_left]
  have hlexE : readTokenCore (readValue (parseFuel (fastWrite {} v)) { (⟨fastWrite {} v, 0, ⟨.endOfStream, 0, 0⟩, [], Features.all, if ¬Features.all.allowComments_ = true then false else true⟩ : PState) with token_ := ⟨firstTT v, 0, 0 + tokLen v⟩, current_ := 0 + tokLen v } JValue.nullValue).2.2.doc (readValue (parseFuel (fastWrite {} v)) { (⟨fastWrite {} v, 0, ⟨.endOfStream, 0, 0⟩, [], Features.all, if ¬Features.all.allowComments_ = true then false else true⟩ : PState) with token_ := ⟨firstTT v, 0, 0 + tokLen v⟩, current_ := 0 + tokLen v } JValue.nullValue).2.2.current_ =
      (true, ⟨.endOfStream, 0 + (fastWriteValue {} v).length + 1,
        0 + (fastWriteValue {} v).length + 1⟩,
        0 + (fastWriteValue {} v).length + 1) := by
    rw [hst2]
    exact lex_eos_newline (fastWrite {} v) (0 + (fastWriteValue {} v).length) hdropE
  have hrtE := readToken_eq _ true _ _ hlexE
  have hsctE := sct_step (readValue (parseFuel (fastWrite {} v)) { (⟨fastWrite {} v, 0, ⟨.endOfStream, 0, 0⟩, [], Features.all, if ¬Features.all.allowComments_ = true then false else true⟩ : PState) with token_ := ⟨firstTT v, 0, 0 + tokLen v⟩, current_ := 0 + tokLen v } JValue.nullValue).2.2 (some (readValue (parseFuel (fastWrite {} v)) { (⟨fastWrite {} v, 0, ⟨.endOfStream, 0, 0⟩, [], Features.all, if ¬Features.all.allowComments_ = true then false else true⟩ : PState) with token_ := ⟨firstTT v, 0, 0 + tokLen v⟩, current_ := 0 + tokLen v } JValue.nullValue).2.1) (by rw [hrtE]; simp)
  rw [hrtE] at hsctE
  unfold parse parseAux
  dsimp only
  rw [hsct]
  dsimp only
  rw [if_neg (show ¬(([] : List Char) ≠ []) from by simp)]
  rw [if_neg (show ¬(Features.all.strictRoot_ = true ∧ _ ∧ _) from fun hb => absurd hb.1 (by decide))]
  dsimp only
  rw [hsctE]
  dsimp only
  rw [Option.getD_some]
  rw [if_neg (show ¬(([] : List Char) ≠ []) from by simp)]
  exact ⟨hok, hjeq⟩

/-- C5 witness: the amended round-trip theorem applied to a concrete
nested object with an integer, an array, a string and an unsigned leaf. -/
theorem claim_C5_roundtrip_witness :
    wfValue (JValue.vobj [(['a'], JValue.vint 1 {}), (['b'], JValue.varr [JValue.vstr ['x'] {}, JValue.vuint 2 {}] {})] {}) = true ∧
    ((parse Features.all true (fastWrite {} (JValue.vobj [(['a'], JValue.vint 1 {}), (['b'], JValue.varr [JValue.vstr ['x'] {}, JValue.vuint 2 {}] {})] {}))).1 = true ∧
     jEq (parse Features.all true (fastWrite {} (JValue.vobj [(['a'], JValue.vint 1 {}), (['b'], JValue.varr [JValue.vstr ['x'] {}, JValue.vuint 2 {}] {})] {}))).2.1 (JValue.vobj [(['a'], JValue.vint 1 {}), (['b'], JValue.varr [JValue.vstr ['x'] {}, JValue.vuint 2 {}] {})] {}) = true) :=
  ⟨by decide, claim_C5_roundtrip (JValue.vobj [(['a'], JValue.vint 1 {}), (['b'], JValue.varr [JValue.vstr ['x'] {}, JValue.vuint 2 {}] {})] {}) (by decide)⟩

end Jsoncpp
